import Mathlib

/-!
# Apply4me: the edit application engine and the optimize pipeline of `server.js`

A shallow embedding of `applyTargetedEdits`, of the `/api/optimize-cv` handler, of `callLLM`
and of the handlers of the mock interview session.

* A JavaScript string is the list of its UTF-16 code units (`JSString`): the regular
  expressions of the source carry no `u` flag, so matching is code unit by code unit.
* A JavaScript value is a tree of the kinds `JSON.parse` can produce, plus `undefined`
  (`JSValue`); a number is kept as the text `Number::toString` gives it.
* A statement that can throw is a computation in `Except JSError`.
* A handler of the session takes the generation service as the sequence of the outcomes of
  its calls to `callLLM` and returns the log of the calls it made (`awaitCallLLM`).
* `server.js` calls `generateHeuristicQuestions` and `evaluateHeuristicAnswer` and defines
  neither: each call throws a ReferenceError.
-/

namespace Apply4me

/-! ## Strings -/

/-- A JavaScript string: its UTF-16 code units. -/
abbrev JSString := List Nat

/-- UTF-16 code units of one character. -/
def utf16Char (c : Char) : List Nat :=
  if c.toNat < 65536 then [c.toNat]
  else [55296 + (c.toNat - 65536) / 1024, 56320 + (c.toNat - 65536) % 1024]

/-- UTF-16 code units of a text literal. -/
def utf16 (s : String) : JSString :=
  s.toList.flatMap utf16Char

/-- Decimal digits of an array index or a length, as `${index}` prints them. -/
def natToString (n : Nat) : JSString :=
  (Nat.toDigits 10 n).map Char.toNat

/-- The method `String.prototype.startsWith` at position 0: `p` is a prefix of `s`. -/
def startsWith : JSString → JSString → Bool
  | _, [] => true
  | [], _ :: _ => false
  | c :: s, d :: p => c == d && startsWith s p

/-- The method `String.prototype.includes`: `p` occurs in `s` as a contiguous run of code units. -/
def includes : JSString → JSString → Bool
  | [], p => startsWith [] p
  | c :: s, p => startsWith (c :: s) p || includes s p

/-! ## Values -/

/-- A JavaScript value as `JSON.parse` builds it (plus `undefined`, the value of an absent
property). A number is represented by its `Number::toString` text. A record is the list of
its own properties; two different fields never hold the same object. -/
inductive JSValue where
  | undefined : JSValue
  | null : JSValue
  | bool (b : Bool) : JSValue
  | num (text : JSString) : JSValue
  | str (s : JSString) : JSValue
  | arr (items : List JSValue) : JSValue
  | obj (fields : List (JSString × JSValue)) : JSValue

/-- An exception thrown by the program or by the runtime. -/
inductive JSError where
  | typeError : JSError
  | error (message : JSString) : JSError
  | unsupportedPattern : JSError
  | syntaxError : JSError
  | referenceError (name : JSString) : JSError
  deriving DecidableEq

/-- ToBoolean. -/
def truthy : JSValue → Bool
  | .undefined => false
  | .null => false
  | .bool b => b
  | .num text => !(text == utf16 "0" || text == utf16 "-0" || text == utf16 "NaN")
  | .str s => !s.isEmpty
  | .arr _ => true
  | .obj _ => true

/-- The value of own property `key` in a property list, `undefined` when absent. -/
def lookup (key : JSString) : List (JSString × JSValue) → JSValue
  | [] => .undefined
  | (k, v) :: rest => if k = key then v else lookup key rest

/-- Whether a property list has own property `key`. -/
def hasOwn (key : JSString) : List (JSString × JSValue) → Bool
  | [] => false
  | (k, _) :: rest => k == key || hasOwn key rest

/-- Property read `v.key` for the identifier keys the program reads (none of them is
inherited from a prototype, and none is an array index). Reading a property of `undefined`
or `null` throws a TypeError. -/
def getProp (v : JSValue) (key : JSString) : Except JSError JSValue :=
  match v with
  | .undefined => .error .typeError
  | .null => .error .typeError
  | .obj fields => .ok (lookup key fields)
  | .arr items => if key = utf16 "length" then .ok (.num (natToString items.length)) else .ok .undefined
  | .str s => if key = utf16 "length" then .ok (.num (natToString s.length)) else .ok .undefined
  | _ => .ok .undefined

/-- The test `Array.isArray`. -/
def isArray : JSValue → Bool
  | .arr _ => true
  | _ => false

/-- Strict inequality `a !== b`. Two object operands here are always two different fields
of parsed data, hence different objects. -/
def strictNotEquals : JSValue → JSValue → Bool
  | .undefined, .undefined => false
  | .null, .null => false
  | .bool a, .bool b => a != b
  | .num a, .num b => a == utf16 "NaN" || a != b
  | .str a, .str b => a != b
  | _, _ => true

mutual
/-- ToString of a value (template literals, string concatenation). A record prints as
`[object Object]` unless it has an own `toString` property: parsed data is never callable,
so the conversion then throws a TypeError. An array prints its items joined by commas. -/
def toStringJS : JSValue → Except JSError JSString
  | .undefined => .ok (utf16 "undefined")
  | .null => .ok (utf16 "null")
  | .bool b => .ok (if b then utf16 "true" else utf16 "false")
  | .num text => .ok text
  | .str s => .ok s
  | .arr items =>
    match itemTexts items with
    | .ok texts => .ok (List.intercalate (utf16 ",") texts)
    | .error e => .error e
  | .obj fields =>
    if hasOwn (utf16 "toString") fields then .error .typeError
    else .ok (utf16 "[object Object]")
termination_by structural v => v
/-- The texts that `Array.prototype.join` puts between the commas: `undefined` and `null`
items give the empty text. -/
def itemTexts : List JSValue → Except JSError (List JSString)
  | [] => .ok []
  | x :: rest =>
    match toStringJS x, itemTexts rest with
    | .ok a, .ok b => .ok ((match x with | .undefined => [] | .null => [] | _ => a) :: b)
    | .error e, _ => .error e
    | _, .error e => .error e
termination_by structural l => l
end

deriving instance DecidableEq for Except

/-! ## Regular expressions

The two regular expressions the engine builds are `new RegExp(escaped, 'g')` and
`new RegExp("\\b" ++ escaped ++ "\\b", 'gi')`, where `escaped` is a text with a backslash put
before every syntax character. `parsePattern` reads exactly that pattern language. -/

/-- The characters of the class `[.*+?^${}()|[\]\\]`. -/
def isSyntaxChar (c : Nat) : Bool :=
  c = 46 || c = 42 || c = 43 || c = 63 || c = 94 || c = 36 || c = 123 || c = 125 ||
  c = 40 || c = 41 || c = 124 || c = 91 || c = 93 || c = 92

/-- The call `s.replace(/[.*+?^${}()|[\]\\]/g, '\\$&')` on a string `s`: a backslash is put before
each syntax character. -/
def escapeRegExp : JSString → JSString
  | [] => []
  | c :: s => if isSyntaxChar c then 92 :: c :: escapeRegExp s else c :: escapeRegExp s

/-- One term of a pattern. -/
inductive Atom where
  | char (c : Nat) : Atom
  | wordBoundary : Atom
  deriving DecidableEq

/-- A compiled regular expression (the `g` flag is always set in this program). -/
structure RegExp where
  atoms : List Atom
  ignoreCase : Bool
  deriving DecidableEq

/-- Pattern syntax: an ordinary character, a backslash followed by a syntax character (the
character itself), or `\b` (a word boundary). Any other pattern is outside this fragment. -/
def parsePattern : JSString → Option (List Atom)
  | [] => some []
  | c :: rest =>
    if c = 92 then
      match rest with
      | [] => none
      | d :: rest2 =>
        if d = 98 then (parsePattern rest2).map (fun as => Atom.wordBoundary :: as)
        else if isSyntaxChar d then (parsePattern rest2).map (fun as => Atom.char d :: as)
        else none
    else if isSyntaxChar c then none
    else (parsePattern rest).map (fun as => Atom.char c :: as)

/-- The constructor `new RegExp(pattern, 'g')` or `new RegExp(pattern, 'gi')`. -/
def newRegExp (pattern : JSString) (ignoreCase : Bool) : Except JSError RegExp :=
  match parsePattern pattern with
  | some atoms => .ok { atoms := atoms, ignoreCase := ignoreCase }
  | none => .error .unsupportedPattern

/-- Canonicalize of the regular expression semantics without the `u` flag. `upper ch` is the
result of `toUpperCase` on the one-unit string `ch` (the Unicode case table of the runtime). -/
def canonicalize (upper : Nat → JSString) (ignoreCase : Bool) (ch : Nat) : Nat :=
  if ignoreCase then
    match upper ch with
    | [cu] => if 128 ≤ ch ∧ cu < 128 then ch else cu
    | _ => ch
  else ch

/-- The case table on ASCII: `a`..`z` map to `A`..`Z`. It agrees with `toUpperCase` on every
code unit below 128; it is used to evaluate the engine on ASCII texts. -/
def upperASCII (c : Nat) : JSString :=
  if 97 ≤ c ∧ c ≤ 122 then [c - 32] else [c]

/-- The word characters of `\b`: `a`..`z`, `A`..`Z`, `0`..`9` and `_`. -/
def isWordChar (c : Nat) : Bool :=
  (97 ≤ c && c ≤ 122) || (65 ≤ c && c ≤ 90) || (48 ≤ c && c ≤ 57) || c = 95

/-- Whether the code unit at a position (absent outside the input) is a word character. -/
def isWordCharAt : Option Nat → Bool
  | none => false
  | some c => isWordChar c

/-- Match the terms at one position: `prev` is the code unit before the position, `rest` the
input from the position on. The result is the number of code units consumed. -/
def matchAtoms (upper : Nat → JSString) (ignoreCase : Bool) :
    List Atom → Option Nat → JSString → Option Nat
  | [], _, _ => some 0
  | Atom.wordBoundary :: as, prev, rest =>
    if isWordCharAt prev != isWordCharAt rest.head? then matchAtoms upper ignoreCase as prev rest
    else none
  | Atom.char _ :: _, _, [] => none
  | Atom.char c :: as, _, x :: rest =>
    if canonicalize upper ignoreCase c = canonicalize upper ignoreCase x then
      (matchAtoms upper ignoreCase as (some x) rest).map (fun n => n + 1)
    else none

/-- GetSubstitution for a match without capture groups: in the replacement text `$$` stands
for `$`, `$&` for the matched text, `$` followed by a backtick for the input before the
match and `$` followed by an apostrophe for the input after it; every other code unit
stands for itself. -/
def getSubstitution (matched pre post : JSString) : JSString → JSString
  | [] => []
  | c :: rest =>
    if c = 36 then
      match rest with
      | [] => [36]
      | d :: rest2 =>
        if d = 36 then 36 :: getSubstitution matched pre post rest2
        else if d = 38 then matched ++ getSubstitution matched pre post rest2
        else if d = 96 then pre ++ getSubstitution matched pre post rest2
        else if d = 39 then post ++ getSubstitution matched pre post rest2
        else 36 :: d :: getSubstitution matched pre post rest2
    else c :: getSubstitution matched pre post rest

/-- The scan of `String.prototype.replace` with a global regular expression: `pre` is the
input already passed, the second argument the input still ahead, `skip` the number of code
units ahead that belong to the last match. -/
def replaceFrom (upper : Nat → JSString) (re : RegExp) (replacement : JSString) :
    JSString → JSString → Nat → JSString
  | pre, [], 0 =>
    match matchAtoms upper re.ignoreCase re.atoms pre.getLast? [] with
    | some _ => getSubstitution [] pre [] replacement
    | none => []
  | _, [], _ + 1 => []
  | pre, c :: rest, skip + 1 => replaceFrom upper re replacement (pre ++ [c]) rest skip
  | pre, c :: rest, 0 =>
    match matchAtoms upper re.ignoreCase re.atoms pre.getLast? (c :: rest) with
    | some len =>
      getSubstitution ((c :: rest).take len) pre ((c :: rest).drop len) replacement ++
        (if len = 0 then c :: replaceFrom upper re replacement (pre ++ [c]) rest 0
         else replaceFrom upper re replacement (pre ++ [c]) rest (len - 1))
    | none => c :: replaceFrom upper re replacement (pre ++ [c]) rest 0

/-- The call `s.replace(re, replacement)` for a global `re` and a replacement text. -/
def replaceAll (upper : Nat → JSString) (re : RegExp) (s replacement : JSString) : JSString :=
  replaceFrom upper re replacement [] s 0

/-- Whether the regular expression matches at some position of the input ahead. -/
def hasMatchFrom (upper : Nat → JSString) (re : RegExp) : JSString → JSString → Bool
  | pre, [] => (matchAtoms upper re.ignoreCase re.atoms pre.getLast? []).isSome
  | pre, c :: rest =>
    (matchAtoms upper re.ignoreCase re.atoms pre.getLast? (c :: rest)).isSome ||
      hasMatchFrom upper re (pre ++ [c]) rest

/-- Truthiness of `s.match(re)` for a global `re`: there is at least one match. -/
def hasMatch (upper : Nat → JSString) (re : RegExp) (s : JSString) : Bool :=
  hasMatchFrom upper re [] s

/-! ## The edit application engine (`applyTargetedEdits`) -/

/-- The expression `Array.isArray(v) ? v : []`. -/
def arrayOrEmpty : JSValue → List JSValue
  | .arr items => items
  | _ => []

/-- The test `typeof v === 'object'`. -/
def typeofObject : JSValue → Bool
  | .null => true
  | .arr _ => true
  | .obj _ => true
  | _ => false

/-- The callback of `skillAdditions.some(...)`: the request exists and its
`skills_to_emphasize` is a non-empty array. -/
def hasEmphasis (skill : JSValue) : Except JSError Bool :=
  if truthy skill then do
    let l ← getProp skill (utf16 "skills_to_emphasize")
    pure (truthy l && isArray l && decide (0 < (arrayOrEmpty l).length))
  else pure false

/-- The method `Array.prototype.some`. -/
def someM (f : JSValue → Except JSError Bool) : List JSValue → Except JSError Bool
  | [] => pure false
  | x :: rest => do
    if ← f x then pure true else someM f rest

/-- The condition `edit && edit.original_text && edit.new_text &&
edit.original_text !== edit.new_text` of a section edit. -/
def editCondition (edit : JSValue) : Except JSError Bool :=
  if truthy edit then do
    let o ← getProp edit (utf16 "original_text")
    let n ← getProp edit (utf16 "new_text")
    pure (truthy o && truthy n && strictNotEquals o n)
  else pure false

/-- The replacement text `edit.new_text + " % source: " + edit.section + "_" + index` (the
source writes the marker as a template literal). -/
def replacementText (edit : JSValue) (index : Nat) : Except JSError JSString := do
  let n ← getProp edit (utf16 "new_text")
  let sec ← getProp edit (utf16 "section")
  let secText ← toStringJS sec
  let nText ← toStringJS n
  pure (nText ++ (utf16 " % source: " ++ secText ++ utf16 "_" ++ natToString index))

/-- The `try` block of a section edit up to the assignment to `modifiedCV`: the value
assigned, or `none` when the document does not include the original text. A value of
`original_text` that is not a string has no `replace` method: the call throws. -/
def sectionEditReplace (upper : Nat → JSString) (modifiedCV : JSString) (edit : JSValue)
    (index : Nat) : Except JSError (Option JSString) := do
  let o ← getProp edit (utf16 "original_text")
  match o with
  | .str originalText =>
    let originalEscaped := escapeRegExp originalText
    let regex ← newRegExp originalEscaped false
    if includes modifiedCV originalText then
      let replacement ← replacementText edit index
      pure (some (replaceAll upper regex modifiedCV replacement))
    else pure none
  | _ => throw JSError.typeError

/-- The arguments of the `console.log` call that follows the assignment: the template
literal prints `edit.section` and `edit.justification || 'No justification provided'`. -/
def logApplied (edit : JSValue) : Except JSError Unit := do
  let sec ← getProp edit (utf16 "section")
  let _ ← toStringJS sec
  let j ← getProp edit (utf16 "justification")
  let _ ← toStringJS (if truthy j then j else .str (utf16 "No justification provided"))
  pure ()

/-- The whole `try` block of a section edit: the value of `modifiedCV` when the block is
left, and whether it is left normally or by an exception (which the `catch` logs). -/
def sectionEditTry (upper : Nat → JSString) (modifiedCV : JSString) (edit : JSValue)
    (index : Nat) : JSString × Except JSError Unit :=
  match sectionEditReplace upper modifiedCV edit index with
  | .error e => (modifiedCV, .error e)
  | .ok none => (modifiedCV, .ok ())
  | .ok (some cv) => (cv, logApplied edit)

/-- The callback of `sectionEdits.forEach((edit, index) => ...)`. -/
def applySectionEdit (upper : Nat → JSString) (modifiedCV : JSString) (edit : JSValue)
    (index : Nat) : Except JSError JSString := do
  if ← editCondition edit then
    pure (sectionEditTry upper modifiedCV edit index).1
  else pure modifiedCV

/-- The loop `sectionEdits.forEach(...)`, from index `index` on. -/
def applySectionEdits (upper : Nat → JSString) :
    JSString → List JSValue → Nat → Except JSError JSString
  | modifiedCV, [], _ => pure modifiedCV
  | modifiedCV, edit :: rest, index => do
    let cv ← applySectionEdit upper modifiedCV edit index
    applySectionEdits upper cv rest (index + 1)

/-- The emphasized form `\\textbf{skill}` of a skill name. -/
def emphasisText (skill : JSString) : JSString :=
  utf16 "\\textbf\x7b" ++ skill ++ utf16 "\x7d"

/-- The `try` block for one skill name. -/
def emphasizeTry (upper : Nat → JSString) (modifiedCV skill : JSString) :
    Except JSError JSString := do
  let skillRegex ← newRegExp (utf16 "\\b" ++ escapeRegExp skill ++ utf16 "\\b") true
  if hasMatch upper skillRegex modifiedCV && !includes modifiedCV (emphasisText skill) then
    pure (replaceAll upper skillRegex modifiedCV (emphasisText skill))
  else pure modifiedCV

/-- The callback of `skillEdit.skills_to_emphasize.forEach(skill => ...)`: only a non-empty
string is emphasized, and an exception of the `try` block is caught. -/
def emphasizeSkill (upper : Nat → JSString) (modifiedCV : JSString) (skill : JSValue) :
    JSString :=
  match skill with
  | .str s =>
    if truthy skill then
      match emphasizeTry upper modifiedCV s with
      | .ok cv => cv
      | .error _ => modifiedCV
    else modifiedCV
  | _ => modifiedCV

/-- The callback of `skillAdditions.forEach(...)`. -/
def applySkillEdit (upper : Nat → JSString) (modifiedCV : JSString) (skillEdit : JSValue) :
    Except JSError JSString :=
  if truthy skillEdit then do
    let l ← getProp skillEdit (utf16 "skills_to_emphasize")
    if truthy l && isArray l then
      pure ((arrayOrEmpty l).foldl (emphasizeSkill upper) modifiedCV)
    else pure modifiedCV
  else pure modifiedCV

/-- The loop `skillAdditions.forEach(...)`. -/
def applySkillEdits (upper : Nat → JSString) :
    JSString → List JSValue → Except JSError JSString
  | modifiedCV, [] => pure modifiedCV
  | modifiedCV, skillEdit :: rest => do
    let cv ← applySkillEdit upper modifiedCV skillEdit
    applySkillEdits upper cv rest

/-- The function `applyTargetedEdits(originalCV, edits)`. -/
def applyTargetedEdits (upper : Nat → JSString) (originalCV : JSString) (edits : JSValue) :
    Except JSError JSString :=
  if !truthy edits || !typeofObject edits then pure originalCV
  else do
    let sectionEdits := arrayOrEmpty (← getProp edits (utf16 "section_edits"))
    let skillAdditions := arrayOrEmpty (← getProp edits (utf16 "skill_additions"))
    let hasEdits := decide (0 < sectionEdits.length)
    let hasSkillEdits ← someM hasEmphasis skillAdditions
    if !hasEdits && !hasSkillEdits then pure originalCV
    else do
      let modifiedCV ← applySectionEdits upper originalCV sectionEdits 0
      applySkillEdits upper modifiedCV skillAdditions

/-- The regular expression that `emphasizeTry` builds for a skill name, in compiled form: a
word boundary, the characters of the name, a word boundary, with the `i` flag. -/
def skillRegExp (s : JSString) : RegExp :=
  { atoms := Atom.wordBoundary :: (s.map Atom.char ++ [Atom.wordBoundary]), ignoreCase := true }

/-! ## The runtime

Library functions the program calls and `server.js` does not define. -/

/-- What the program takes from its runtime: the Unicode case tables, `JSON.parse` (`none`
for a SyntaxError) and the relational comparison `v > n` of a value with a number. -/
structure Runtime where
  toUpperCase : Nat → JSString
  toLowerCase : JSString → JSString
  jsonParse : JSString → Option JSValue
  greaterThan : JSValue → Nat → Bool

/-! ## Extraction of a record from a service response -/

/-- WhiteSpace and LineTerminator code units: what `trim` removes and `\s` matches. -/
def isWhiteSpace (c : Nat) : Bool :=
  c = 9 || c = 10 || c = 11 || c = 12 || c = 13 || c = 32 || c = 160 || c = 5760 ||
  (8192 ≤ c && c ≤ 8202) || c = 8232 || c = 8233 || c = 8239 || c = 8287 || c = 12288 ||
  c = 65279

/-- The method `String.prototype.trim`. -/
def trim (s : JSString) : JSString :=
  ((s.dropWhile isWhiteSpace).reverse.dropWhile isWhiteSpace).reverse

/-- The call `s.indexOf(c)` for a one-unit text `c`: the first position of `c`, or `-1`. -/
def indexOf (c : Nat) : JSString → Int
  | [] => -1
  | x :: s => if x = c then 0 else if indexOf c s = -1 then -1 else indexOf c s + 1

/-- The call `s.lastIndexOf(c)` for a one-unit text `c`: the last position of `c`, or `-1`. -/
def lastIndexOf (c : Nat) : JSString → Int
  | [] => -1
  | x :: s =>
    if lastIndexOf c s = -1 then (if x = c then 0 else -1) else lastIndexOf c s + 1

/-- The call `s.substring(a, b)`: both arguments are clamped to `0..length` and swapped when
`a > b`. -/
def substring (s : JSString) (a b : Int) : JSString :=
  let a1 := min a.toNat s.length
  let b1 := min b.toNat s.length
  (s.drop (min a1 b1)).take (max a1 b1 - min a1 b1)

/-- The span that the stages hand to `JSON.parse`: the response is trimmed and cut from its
first `{` to its last `}`; without one of them the stage throws. -/
def jsonSpan (result : JSString) : Except JSError JSString :=
  let cleanedResult := trim result
  let jsonStart := indexOf 123 cleanedResult
  let jsonEnd := lastIndexOf 125 cleanedResult + 1
  if jsonStart = -1 || jsonEnd = 0 then
    throw (JSError.error (utf16 "No valid JSON found in response"))
  else pure (substring cleanedResult jsonStart jsonEnd)

/-- The statements every stage runs inside its `try` block on the service response: cut the
span and parse it. -/
def extractJSON (rt : Runtime) (result : JSString) : Except JSError JSValue := do
  let jsonString ← jsonSpan result
  match rt.jsonParse jsonString with
  | some v => pure v
  | none => throw JSError.syntaxError

/-! ## The stages

The argument `reply` of a stage is the outcome of its `await callLLM(prompt)`: the response
text, or the error that `callLLM` throws. -/

/-- The function `parseJobDescription`: the call is outside the `try` block; a failure of
the extraction is rethrown as `Failed to parse job description`. -/
def parseJobDescription (rt : Runtime) (reply : Except JSError JSString) :
    Except JSError JSValue := do
  let result ← reply
  match extractJSON rt result with
  | .ok v => pure v
  | .error _ => throw (JSError.error (utf16 "Failed to parse job description"))

/-- The function `parseCVContent`. -/
def parseCVContent (rt : Runtime) (reply : Except JSError JSString) :
    Except JSError JSValue := do
  let result ← reply
  match extractJSON rt result with
  | .ok v => pure v
  | .error _ => throw (JSError.error (utf16 "Failed to parse CV content"))

/-- The function `performGapAnalysis`. -/
def performGapAnalysis (rt : Runtime) (reply : Except JSError JSString) :
    Except JSError JSValue := do
  let result ← reply
  match extractJSON rt result with
  | .ok v => pure v
  | .error _ => throw (JSError.error (utf16 "Failed to perform gap analysis"))

/-! ### Property keys

The test `key in response` and the read `response[key]` of `validateLLMResponse` see the own
properties of a value and the properties it inherits from its prototype. -/

/-- The value of a run of decimal digits read after the value `acc`; `none` when a code
unit is not a digit. -/
def digitsValueFrom (acc : Nat) : JSString → Option Nat
  | [] => some acc
  | c :: rest =>
    if 48 ≤ c ∧ c ≤ 57 then digitsValueFrom (acc * 10 + (c - 48)) rest else none

/-- The natural number that `Number::toString` prints as `text`, if there is one. -/
def naturalOf (text : JSString) : Option Nat :=
  match digitsValueFrom 0 text with
  | some n => if natToString n = text then some n else none
  | none => none

/-- The array index that a property key is, if it is one. -/
def arrayIndexOf (key : JSString) : Option Nat :=
  match naturalOf key with
  | some n => if n < 2 ^ 32 - 1 then some n else none
  | none => none

/-- The names of the properties of `Object.prototype`, which every object literal inherits.
Each of them holds a function or an object: a truthy value without a `push` method. -/
def objectPrototypeKeys : List JSString :=
  [utf16 "constructor", utf16 "__defineGetter__", utf16 "__defineSetter__",
    utf16 "hasOwnProperty", utf16 "__lookupGetter__", utf16 "__lookupSetter__",
    utf16 "isPrototypeOf", utf16 "propertyIsEnumerable", utf16 "toString", utf16 "valueOf",
    utf16 "__proto__", utf16 "toLocaleString"]

/-- The names of the properties of `Array.prototype` (ECMAScript 2023), which every array
inherits besides those of `Object.prototype`. Each of them but `length` holds a function. -/
def arrayPrototypeKeys : List JSString :=
  [utf16 "length", utf16 "constructor", utf16 "at", utf16 "concat", utf16 "copyWithin",
    utf16 "fill", utf16 "find", utf16 "findIndex", utf16 "findLast", utf16 "findLastIndex",
    utf16 "lastIndexOf", utf16 "pop", utf16 "push", utf16 "reverse", utf16 "shift",
    utf16 "unshift", utf16 "slice", utf16 "sort", utf16 "splice", utf16 "includes",
    utf16 "indexOf", utf16 "join", utf16 "keys", utf16 "entries", utf16 "values",
    utf16 "forEach", utf16 "filter", utf16 "flat", utf16 "flatMap", utf16 "map", utf16 "every",
    utf16 "some", utf16 "reduce", utf16 "reduceRight", utf16 "toLocaleString",
    utf16 "toString", utf16 "toReversed", utf16 "toSorted", utf16 "toSpliced", utf16 "with"]

/-- What `response[key]` can be for a value of parsed data: an own property (a value of
parsed data), a function inherited from the prototype, or the prototype itself (the
inherited accessor `__proto__`), which is `Object.prototype` for a record and
`Array.prototype`, an array, for a list. -/
inductive Member where
  | data (v : JSValue) : Member
  | method : Member
  | objectPrototype : Member
  | arrayPrototype : Member

/-- The property `response[key]` of a truthy `response` of type object, `none` when the test
`key in response` is false. A record has its own properties and inherits those of
`Object.prototype`; a list has its items at the array indices below its length and its
`length`, and inherits the properties of `Array.prototype` and of `Object.prototype`. -/
def member (response : JSValue) (key : JSString) : Option Member :=
  match response with
  | .obj fields =>
    if hasOwn key fields then some (.data (lookup key fields))
    else if key = utf16 "__proto__" then some .objectPrototype
    else if key ∈ objectPrototypeKeys then some .method
    else none
  | .arr items =>
    match arrayIndexOf key with
    | some i => if i < items.length then some (.data (items.getD i .undefined)) else none
    | none =>
      if key = utf16 "length" then some (.data (.num (natToString items.length)))
      else if key = utf16 "__proto__" then some .arrayPrototype
      else if key ∈ arrayPrototypeKeys ∨ key ∈ objectPrototypeKeys then some .method
      else none
  | _ => none

/-- The test `key in response` for a truthy `response` of type object. -/
def hasProperty (response : JSValue) (key : JSString) : Bool :=
  (member response key).isSome

/-- The test `Array.isArray(response[key])`. -/
def memberIsArray : Member → Bool
  | .data v => isArray v
  | .arrayPrototype => true
  | _ => false

/-- The test `typeof response[key] === 'object'`. -/
def memberTypeofObject : Member → Bool
  | .data v => typeofObject v
  | .method => false
  | .objectPrototype => true
  | .arrayPrototype => true

/-- The loop of `validateLLMResponse` over the keys of `expectedStructure` (a list of keys
with the kind text each one expects). -/
def validateKeys (response : JSValue) : List (JSString × JSString) → Except JSError Bool
  | [] => pure true
  | (key, kind) :: rest =>
    if !hasProperty response key then pure false
    else
      let v := (member response key).getD (.data .undefined)
      if kind == utf16 "array" && !memberIsArray v then pure false
      else if kind == utf16 "object" && !memberTypeofObject v then pure false
      else validateKeys response rest

/-- The function `validateLLMResponse(response, expectedStructure)`. -/
def validateLLMResponse (response : JSValue) (expectedStructure : List (JSString × JSString)) :
    Except JSError Bool :=
  if !truthy response || !typeofObject response then pure false
  else validateKeys response expectedStructure

/-- The record `{section_edits: [], skill_additions: [], project_reordering: []}`. -/
def emptyEdits : JSValue :=
  .obj [(utf16 "section_edits", .arr []), (utf16 "skill_additions", .arr []),
    (utf16 "project_reordering", .arr [])]

/-- The expected structure of the edit proposal. -/
def editsStructure : List (JSString × JSString) :=
  [(utf16 "section_edits", utf16 "array"), (utf16 "skill_additions", utf16 "array"),
    (utf16 "project_reordering", utf16 "array")]

/-- The assignment `record.key = v` on a property list. -/
def setProp (key : JSString) (v : JSValue) :
    List (JSString × JSValue) → List (JSString × JSValue)
  | [] => [(key, v)]
  | (k, w) :: rest => if k = key then (k, v) :: rest else (k, w) :: setProp key v rest

/-- The comparison `j.length > n` for a truthy `j`: a string and an array have their length,
a record has its own `length` property, a number or `true` has none (`undefined > n` is
false). -/
def lengthExceeds (rt : Runtime) (j : JSValue) (n : Nat) : Bool :=
  match j with
  | .str s => decide (n < s.length)
  | .arr items => decide (n < items.length)
  | .obj fields => hasOwn (utf16 "length") fields && rt.greaterThan (lookup (utf16 "length") fields) n
  | _ => false

/-- The callback of the filter on `section_edits`: `edit && edit.confidence === 'HIGH' &&
edit.justification && edit.justification.length > 10`. -/
def keepEdit (rt : Runtime) (edit : JSValue) : Except JSError Bool :=
  if truthy edit then do
    let c ← getProp edit (utf16 "confidence")
    let j ← getProp edit (utf16 "justification")
    pure (!strictNotEquals c (.str (utf16 "HIGH")) && truthy j && lengthExceeds rt j 10)
  else pure false

/-- The method `Array.prototype.filter` with a callback that can throw. -/
def filterArray (f : JSValue → Except JSError Bool) : List JSValue → Except JSError (List JSValue)
  | [] => pure []
  | x :: rest => do
    let keep ← f x
    let kept ← filterArray f rest
    pure (if keep then x :: kept else kept)

/-- The `try` block of `generateTargetedEdits`: extraction, shape check, the three
`Array.isArray(...) ? ... : []` assignments and the filter on `section_edits`. Only a record
passes the shape check. -/
def generateTargetedEditsTry (rt : Runtime) (result : JSString) : Except JSError JSValue := do
  let parsed ← extractJSON rt result
  if !(← validateLLMResponse parsed editsStructure) then
    throw (JSError.error (utf16 "Invalid response structure"))
  else
    match parsed with
    | .obj fields =>
      let f1 := setProp (utf16 "section_edits")
        (.arr (arrayOrEmpty (lookup (utf16 "section_edits") fields))) fields
      let f2 := setProp (utf16 "skill_additions")
        (.arr (arrayOrEmpty (lookup (utf16 "skill_additions") f1))) f1
      let f3 := setProp (utf16 "project_reordering")
        (.arr (arrayOrEmpty (lookup (utf16 "project_reordering") f2))) f2
      if truthy (lookup (utf16 "section_edits") f3) then
        let kept ← filterArray (keepEdit rt) (arrayOrEmpty (lookup (utf16 "section_edits") f3))
        pure (.obj (setProp (utf16 "section_edits") (.arr kept) f3))
      else pure (.obj f3)
    | _ => throw JSError.typeError

/-- The function `generateTargetedEdits`: an error of the `try` block gives the empty edit
set; an error of `callLLM` is thrown to the caller. -/
def generateTargetedEdits (rt : Runtime) (reply : Except JSError JSString) :
    Except JSError JSValue := do
  let result ← reply
  match generateTargetedEditsTry rt result with
  | .ok v => pure v
  | .error _ => pure emptyEdits

/-- The default change log of `generateChangeLog`. -/
def defaultChangeLog : JSValue :=
  .obj [(utf16 "changes", .arr []),
    (utf16 "summary", .obj [(utf16 "keywords_added", .arr []),
      (utf16 "keywords_missing", .arr []), (utf16 "questions_for_user", .arr []),
      (utf16 "relevance_improvement",
        .str (utf16 "CV was optimized based on job requirements"))])]

/-- The function `generateChangeLog`. -/
def generateChangeLog (rt : Runtime) (reply : Except JSError JSString) :
    Except JSError JSValue := do
  let result ← reply
  match extractJSON rt result with
  | .ok v => pure v
  | .error _ => pure defaultChangeLog

/-! ## The optimize pipeline (`POST /api/optimize-cv`)

The handler is modelled from the destructured request on: `jobDescription` is a text,
`preferences` a value. The constant `DEFAULT_CV_TEMPLATE` is the parameter `template`. -/

/-- An array of string literals. -/
def strs (l : List String) : JSValue :=
  .arr (l.map (fun s => JSValue.str (utf16 s)))

/-- The scan of `s.split(/\s+/)`: `cur` is the piece being read, `inRun` tells that the last
code unit was white space. -/
def splitWhiteSpaceFrom : JSString → JSString → Bool → List JSString
  | [], cur, _ => [cur]
  | c :: s, cur, inRun =>
    if isWhiteSpace c then
      (if inRun then splitWhiteSpaceFrom s [] true else cur :: splitWhiteSpaceFrom s [] true)
    else splitWhiteSpaceFrom s (cur ++ [c]) false

/-- The call `s.split(/\s+/)`. -/
def splitWhiteSpace (s : JSString) : List JSString :=
  splitWhiteSpaceFrom s [] false

/-- The fallback job record of the handler. -/
def fallbackJobData (rt : Runtime) (jobDescription : JSString) : JSValue :=
  .obj [(utf16 "role_title", .str (utf16 "Software Engineer")),
    (utf16 "core_responsibilities",
      strs ["Develop software applications", "Collaborate with team"]),
    (utf16 "required_skills", strs ["Programming", "Problem solving"]),
    (utf16 "preferred_skills", .arr []),
    (utf16 "keywords",
      .arr (((splitWhiteSpace (rt.toLowerCase jobDescription)).take 20).map JSValue.str)),
    (utf16 "seniority", .str (utf16 "mid")),
    (utf16 "location", .str (utf16 "Remote")),
    (utf16 "company_type", .str (utf16 "tech"))]

/-- The fallback document record of the handler. -/
def fallbackCVData : JSValue :=
  .obj [(utf16 "header", .obj [(utf16 "name", .str (utf16 "Abdelrahman Ali Elnagar")),
      (utf16 "contact", .str (utf16 "Ulm, Germany | abdelrahmanelnagar123@gmail.com"))]),
    (utf16 "sections", .obj [
      (utf16 "education", .arr [.obj [
        (utf16 "institution", .str (utf16 "Technische Hochschule Ulm (THU)")),
        (utf16 "degree", .str (utf16 "Bachelor Thesis")),
        (utf16 "dates", .str (utf16 "Currently Ongoing")),
        (utf16 "achievements", strs ["Deep learning application for energy market"])]]),
      (utf16 "experience", .arr [.obj [
        (utf16 "role", .str (utf16 "AI Engineer")),
        (utf16 "company", .str (utf16 "BSA")),
        (utf16 "dates", .str (utf16 "June 2025 \u201a\u00c4\u00ec Present")),
        (utf16 "bullets",
          strs ["Building Machine Learning Models", "MLOps & scalable API infrastructure"])]]),
      (utf16 "skills", .obj [
        (utf16 "programming", strs ["Python", "Java", "JavaScript", "TypeScript"]),
        (utf16 "databases", strs ["SQL", "MongoDB", "Redis"]),
        (utf16 "frameworks", strs ["React", "Node.js", "NestJS"]),
        (utf16 "tools", strs ["Git", "AWS", "Jira"])]),
      (utf16 "projects", .arr [.obj [
        (utf16 "name", .str (utf16 "RAG Chatbot")),
        (utf16 "description", .str (utf16 "Job seeking website with AI chatbot")),
        (utf16 "technologies", strs ["NestJS", "Next.js", "MongoDB"])]]),
      (utf16 "achievements",
        strs ["1st place in 2 Kaggle ML Competitions", "DAAD Scholarship"])])]

/-- The fallback gap analysis of the handler. -/
def fallbackGapAnalysis : JSValue :=
  .obj [(utf16 "matched_keywords", strs ["Python", "Machine Learning", "JavaScript"]),
    (utf16 "missing_keywords", strs ["Docker", "Kubernetes"]),
    (utf16 "suggested_rewrites", .arr []),
    (utf16 "clarification_questions", .arr []),
    (utf16 "relevance_score", .str (utf16 "75%"))]

/-- The responses of the generation service to the five calls of one run: the outcome of
`callLLM` in job parsing, document parsing, gap analysis, edit proposal and change log. -/
structure Replies where
  job : Except JSError JSString
  cv : Except JSError JSString
  gap : Except JSError JSString
  edits : Except JSError JSString
  log : Except JSError JSString

/-- Step 4: the edit set. With `preferences.editing_mode === 'none'` the empty edit set is
used and no call is made; an exception in the step gives the empty edit set too. -/
def targetedEditsStep (rt : Runtime) (preferences : JSValue) (reply : Except JSError JSString) :
    JSValue :=
  match (do
    let mode ← getProp preferences (utf16 "editing_mode")
    let editingMode := if truthy mode then mode else JSValue.str (utf16 "conservative")
    if !strictNotEquals editingMode (.str (utf16 "none")) then pure emptyEdits
    else generateTargetedEdits rt reply : Except JSError JSValue) with
  | .ok v => v
  | .error _ => emptyEdits

/-- Step 4b: the tailored document; the original template when the engine throws. -/
def tailoredStep (rt : Runtime) (template : JSString) (targetedEdits : JSValue) : JSString :=
  match applyTargetedEdits rt.toUpperCase template targetedEdits with
  | .ok cv => cv
  | .error _ => template

/-- The callback of `targetedEdits.section_edits.map(...)` in the fallback of step 5; the
justification is the template literal `Targeted edit to ${edit.section} section`. -/
def fallbackChange (edit : JSValue) : Except JSError JSValue := do
  let o ← getProp edit (utf16 "original_text")
  let n ← getProp edit (utf16 "new_text")
  let sub ← getProp edit (utf16 "subsection")
  let conf ← getProp edit (utf16 "confidence")
  let sec ← getProp edit (utf16 "section")
  let secText ← toStringJS sec
  pure (.obj [(utf16 "original_text", o), (utf16 "new_text", n), (utf16 "job_reference", sub),
    (utf16 "confidence", conf),
    (utf16 "justification", .str (utf16 "Targeted edit to " ++ secText ++ utf16 " section"))])

/-- The method `Array.prototype.map` with a callback that can throw. -/
def mapArray (f : JSValue → Except JSError JSValue) : List JSValue → Except JSError (List JSValue)
  | [] => pure []
  | x :: rest => do
    let y ← f x
    let ys ← mapArray f rest
    pure (y :: ys)

/-- The fallback change log of step 5 (the `catch` block). A value of `section_edits` that
is not an array has no `map` method. -/
def fallbackChangeLog (targetedEdits gapAnalysis : JSValue) : Except JSError JSValue := do
  let sectionEdits ← getProp targetedEdits (utf16 "section_edits")
  match sectionEdits with
  | .arr items =>
    let changes ← mapArray fallbackChange items
    let matched ← getProp gapAnalysis (utf16 "matched_keywords")
    let missing ← getProp gapAnalysis (utf16 "missing_keywords")
    pure (.obj [(utf16 "changes", .arr changes),
      (utf16 "summary", .obj [
        (utf16 "keywords_added", if truthy matched then matched else .arr []),
        (utf16 "keywords_missing", if truthy missing then missing else .arr []),
        (utf16 "questions_for_user", .arr []),
        (utf16 "relevance_improvement",
          .str (utf16 "CV was optimized using targeted edits to preserve LaTeX structure"))])])
  | _ => throw JSError.typeError

/-- Step 5: the change log, with the fallback of the `catch` block. -/
def changeLogStep (rt : Runtime) (reply : Except JSError JSString)
    (targetedEdits gapAnalysis : JSValue) : Except JSError JSValue :=
  match generateChangeLog rt reply with
  | .ok v => pure v
  | .error _ => fallbackChangeLog targetedEdits gapAnalysis

/-- Step 6: the check that the tailored document holds both envelope markers. -/
def validLatex (tailoredCV : JSString) : Bool :=
  includes tailoredCV (utf16 "\\documentclass") &&
    includes tailoredCV (utf16 "\\begin\x7bdocument\x7d")

/-- The record passed to `res.json` at the end of the handler. -/
def resultRecord (jobData cvData gapAnalysis targetedEdits : JSValue) (tailoredCV : JSString)
    (changeLog : JSValue) : Except JSError JSValue := do
  let s1 ← getProp changeLog (utf16 "summary")
  let keywordsAdded ← getProp s1 (utf16 "keywords_added")
  let s2 ← getProp changeLog (utf16 "summary")
  let keywordsMissing ← getProp s2 (utf16 "keywords_missing")
  let s3 ← getProp changeLog (utf16 "summary")
  let questions ← getProp s3 (utf16 "questions_for_user")
  let s4 ← getProp changeLog (utf16 "summary")
  let improvement ← getProp s4 (utf16 "relevance_improvement")
  let sectionEdits ← getProp targetedEdits (utf16 "section_edits")
  let editsApplied ← getProp sectionEdits (utf16 "length")
  pure (.obj [(utf16 "success", .bool true),
    (utf16 "results", .obj [
      (utf16 "job_parsed", jobData),
      (utf16 "cv_parsed", cvData),
      (utf16 "gap_analysis", gapAnalysis),
      (utf16 "targeted_edits", targetedEdits),
      (utf16 "tailored_cv", .str tailoredCV),
      (utf16 "change_log", changeLog),
      (utf16 "summary", .obj [
        (utf16 "keywords_added", keywordsAdded),
        (utf16 "keywords_missing", keywordsMissing),
        (utf16 "questions_for_user", questions),
        (utf16 "relevance_improvement", improvement),
        (utf16 "edits_applied", editsApplied)])])])

/-- Steps 1 to 3: the job record, the document record and the gap analysis, each with its
fallback. -/
def jobDataStep (rt : Runtime) (jobDescription : JSString) (reply : Except JSError JSString) :
    JSValue :=
  match parseJobDescription rt reply with
  | .ok v => v
  | .error _ => fallbackJobData rt jobDescription

/-- Step 2. -/
def cvDataStep (rt : Runtime) (reply : Except JSError JSString) : JSValue :=
  match parseCVContent rt reply with
  | .ok v => v
  | .error _ => fallbackCVData

/-- Step 3. -/
def gapAnalysisStep (rt : Runtime) (reply : Except JSError JSString) : JSValue :=
  match performGapAnalysis rt reply with
  | .ok v => v
  | .error _ => fallbackGapAnalysis

/-- The body of the outer `try` block after the check of `jobDescription`. -/
def optimizeSteps (rt : Runtime) (template jobDescription : JSString) (preferences : JSValue)
    (r : Replies) : Except JSError JSValue := do
  let jobData := jobDataStep rt jobDescription r.job
  let cvData := cvDataStep rt r.cv
  let gapAnalysis := gapAnalysisStep rt r.gap
  let targetedEdits := targetedEditsStep rt preferences r.edits
  let tailoredCV := tailoredStep rt template targetedEdits
  let changeLog ← changeLogStep rt r.log targetedEdits gapAnalysis
  if !validLatex tailoredCV then
    throw (JSError.error (utf16 "Generated CV is not valid LaTeX"))
  else resultRecord jobData cvData gapAnalysis targetedEdits tailoredCV changeLog

/-- What a handler sends: status 400 with an error text, status 200 with the result
record, status 500 with the error text and the exception that ended the run, or status 404
with an error text. -/
inductive Response where
  | badRequest (error : JSString) : Response
  | success (body : JSValue) : Response
  | serverError (error : JSString) (details : JSError) : Response
  | notFound (error : JSString) : Response

/-- The handler of `POST /api/optimize-cv`; `preferences` defaults to `{}`. -/
def optimizeCV (rt : Runtime) (template jobDescription : JSString) (preferences : JSValue)
    (r : Replies) : Response :=
  if jobDescription.isEmpty then .badRequest (utf16 "Job description is required")
  else
    let prefs := match preferences with
      | .undefined => JSValue.obj []
      | p => p
    match optimizeSteps rt template jobDescription prefs r with
    | .ok body => .success body
    | .error e => .serverError (utf16 "CV optimization failed") e

/-! ## Inputs of the evaluations -/

/-- A response to the edit-proposal call: a first edit of `\\documentclass` and a second edit
whose `section` is the record `{toString: 1}`. -/
def payload9 : JSString := utf16 "\x7b\"section_edits\":[\x7b\"section\":\"s\",\"original_text\":\"\\\\documentclass\",\"new_text\":\"x\",\"confidence\":\"HIGH\",\"justification\":\"keyword from the job\"\x7d,\x7b\"section\":\x7b\"toString\":1\x7d,\"original_text\":\"q\",\"new_text\":\"r\",\"confidence\":\"HIGH\",\"justification\":\"keyword from the job\"\x7d],\"skill_additions\":[],\"project_reordering\":[]\x7d"

/-- The record that `JSON.parse` builds from `payload9`. -/
def record9 : JSValue :=
  .obj [(utf16 "section_edits", .arr [
      .obj [(utf16 "section", .str (utf16 "s")),
        (utf16 "original_text", .str (utf16 "\\documentclass")),
        (utf16 "new_text", .str (utf16 "x")),
        (utf16 "confidence", .str (utf16 "HIGH")),
        (utf16 "justification", .str (utf16 "keyword from the job"))],
      .obj [(utf16 "section", .obj [(utf16 "toString", .num (utf16 "1"))]),
        (utf16 "original_text", .str (utf16 "q")),
        (utf16 "new_text", .str (utf16 "r")),
        (utf16 "confidence", .str (utf16 "HIGH")),
        (utf16 "justification", .str (utf16 "keyword from the job"))]]),
    (utf16 "skill_additions", .arr []),
    (utf16 "project_reordering", .arr [])]

/-- The edit-proposal call answers `payload9`; every other call fails with `e`. -/
def replies9 (e : JSError) : Replies :=
  { job := .error e, cv := .error e, gap := .error e, edits := .ok payload9, log := .error e }

/-- A runtime whose `JSON.parse` knows the one text `payload9`. -/
def runtime9 : Runtime :=
  { toUpperCase := upperASCII, toLowerCase := id,
    jsonParse := fun t => if t = payload9 then some record9 else none,
    greaterThan := fun _ _ => false }

/-- Every call fails with `e`, but the change-log call answers `{}`. -/
def replies10 (e : JSError) : Replies :=
  { job := .error e, cv := .error e, gap := .error e, edits := .error e,
    log := .ok (utf16 "\x7b\x7d") }

/-- A runtime whose `JSON.parse` knows the one text `{}`. -/
def runtime10 : Runtime :=
  { toUpperCase := upperASCII, toLowerCase := id,
    jsonParse := fun t => if t = utf16 "\x7b\x7d" then some (.obj []) else none,
    greaterThan := fun _ _ => false }

/-- Every call to the generation service fails with `e`. -/
def repliesFailed (e : JSError) : Replies :=
  { job := .error e, cv := .error e, gap := .error e, edits := .error e, log := .error e }

/-- A runtime whose `JSON.parse` knows the one text `1`. -/
def runtime15 : Runtime :=
  { toUpperCase := upperASCII, toLowerCase := id,
    jsonParse := fun t => if t = utf16 "1" then some (.num (utf16 "1")) else none,
    greaterThan := fun _ _ => false }

/-- A response to the edit-proposal call: one HIGH-confidence edit whose justification is a
list of eleven one-letter texts. -/
def payload12 : JSString := utf16 "\x7b\"section_edits\":[\x7b\"confidence\":\"HIGH\",\"justification\":[\"a\",\"b\",\"c\",\"d\",\"e\",\"f\",\"g\",\"h\",\"i\",\"j\",\"k\"]\x7d],\"skill_additions\":[],\"project_reordering\":[]\x7d"

/-- The edit of `payload12`. -/
def edit12 : JSValue :=
  .obj [(utf16 "confidence", .str (utf16 "HIGH")),
    (utf16 "justification", strs ["a", "b", "c", "d", "e", "f", "g", "h", "i", "j", "k"])]

/-- The record that `JSON.parse` builds from `payload12`. -/
def record12 : JSValue :=
  .obj [(utf16 "section_edits", .arr [edit12]), (utf16 "skill_additions", .arr []),
    (utf16 "project_reordering", .arr [])]

/-- A runtime whose `JSON.parse` knows the one text `payload12`. -/
def runtime12 : Runtime :=
  { toUpperCase := upperASCII, toLowerCase := id,
    jsonParse := fun t => if t = payload12 then some record12 else none,
    greaterThan := fun _ _ => false }

/-- The filter of the edit proposal in the words of the specification: the edit has
confidence `HIGH` and a justification text longer than 10 characters. -/
def specKeepsEdit (edit : JSValue) : Bool :=
  match getProp edit (utf16 "confidence"), getProp edit (utf16 "justification") with
  | .ok (.str c), .ok (.str j) => c == utf16 "HIGH" && decide (10 < j.length)
  | _, _ => false

/-! ## The invocation layer (`callLLM`) -/

/-- The list `['openrouter', 'groq']` of `callLLM`. -/
def providers : List JSString := [utf16 "openrouter", utf16 "groq"]

/-- What surrounds one call of `callLLM`: for each provider name the `Authorization` header
of its entry in `LLM_CONFIG` (`none` when `LLM_CONFIG` has no entry of that name), and the
outcome of the HTTP request of each attempt (the message of the error it throws, or the
content of the response). -/
structure Network where
  authorization : JSString → Option JSString
  request : Nat → JSString → Except JSString JSString

/-- What `callLLM` does besides computing: an HTTP request to a provider, or a wait of some
milliseconds. -/
inductive Event where
  | request (provider : JSString) : Event
  | wait (ms : Nat) : Event
  deriving DecidableEq

/-- The test `hasBearer`: the header starts with `Bearer ` and, trimmed, is longer than
`Bearer `. -/
def hasBearer (authHeader : JSString) : Bool :=
  startsWith authHeader (utf16 "Bearer ") &&
    decide ((utf16 "Bearer ").length < (trim authHeader).length)

/-- The `try` block of one attempt: the events and the content, or the message of the error
thrown. -/
def attemptOnce (net : Network) (attempt : Nat) (currentProvider : JSString) :
    List Event × Except JSString JSString :=
  match net.authorization currentProvider with
  | none => ([], .error (utf16 "Provider " ++ currentProvider ++ utf16 " not supported"))
  | some authHeader =>
    if !hasBearer authHeader then
      ([], .error (utf16 "Missing API key for provider " ++ currentProvider ++
        utf16 ". Configure via /api/configure or set environment variable."))
    else ([Event.request currentProvider], net.request attempt currentProvider)

/-- The position `providers.indexOf(p)`, or `-1`. -/
def providerIndex (p : JSString) : List JSString → Int
  | [] => -1
  | q :: rest => if q = p then 0 else if providerIndex p rest = -1 then -1 else providerIndex p rest + 1

/-- The next provider `providers[(currentIndex + 1) % providers.length]`. -/
def nextProvider (currentProvider : JSString) : JSString :=
  providers.getD ((providerIndex currentProvider providers + 1) % providers.length).toNat []

/-- The error thrown after the loop. -/
def unavailableError (maxRetries : Nat) (lastError : Option JSString) : JSError :=
  .error (utf16 "LLM API call failed after " ++ natToString maxRetries ++ utf16 " attempts: " ++
    (match lastError with
     | some message => if message.isEmpty then utf16 "Unknown error" else message
     | none => utf16 "Unknown error"))

/-- The loop `for (attempt = 1; attempt <= maxRetries; attempt++)`: `remaining` counts the
iterations still to run. -/
def callLLMLoop (net : Network) (maxRetries : Nat) :
    Nat → Nat → JSString → Option JSString → List Event × Except JSError JSString
  | 0, _, _, lastError => ([], .error (unavailableError maxRetries lastError))
  | remaining + 1, attempt, currentProvider, _ =>
    match attemptOnce net attempt currentProvider with
    | (events, .ok content) => (events, .ok content)
    | (events, .error message) =>
      if attempt < maxRetries then
        let rest := callLLMLoop net maxRetries remaining (attempt + 1)
          (nextProvider currentProvider) (some message)
        (events ++ [Event.wait (1000 * attempt)] ++ rest.1, rest.2)
      else
        let rest := callLLMLoop net maxRetries remaining (attempt + 1) currentProvider
          (some message)
        (events ++ rest.1, rest.2)

/-- The function `callLLM(prompt, provider, maxRetries)`: its events in order and its
result. -/
def callLLM (net : Network) (provider : JSString) (maxRetries : Nat) :
    List Event × Except JSError JSString :=
  callLLMLoop net maxRetries maxRetries 1 provider none

/-- The providers of the requests among the events. -/
def requestsOf : List Event → List JSString
  | [] => []
  | Event.request p :: rest => p :: requestsOf rest
  | Event.wait _ :: rest => requestsOf rest

/-- A network in which `openrouter` has no key, `groq` has one and answers `ok`. -/
def network17 : Network :=
  { authorization := fun p =>
      if p = utf16 "openrouter" then some (utf16 "Bearer ")
      else if p = utf16 "groq" then some (utf16 "Bearer gsk_1") else none,
    request := fun _ _ => .ok (utf16 "ok") }

/-- A network in which both providers have a key and every request fails with `timeout`. -/
def networkDown : Network :=
  { authorization := fun p =>
      if p = utf16 "openrouter" then some (utf16 "Bearer sk_1")
      else if p = utf16 "groq" then some (utf16 "Bearer gsk_1") else none,
    request := fun _ _ => .error (utf16 "timeout") }

/-- The message of the error thrown for a provider without a usable key. -/
def missingKeyMessage (currentProvider : JSString) : JSString :=
  utf16 "Missing API key for provider " ++ currentProvider ++
    utf16 ". Configure via /api/configure or set environment variable."

/-! ## The assessment session (`/api/start-mock-interview`, `/api/mock-interview/...`) -/

/-- The function `generateMockInterviewQuestions`: the call is outside the `try` block; a
failure of the extraction is rethrown as `Failed to generate <difficulty> mock interview
questions`. -/
def generateMockInterviewQuestions (rt : Runtime) (difficulty : JSString)
    (reply : Except JSError JSString) : Except JSError JSValue := do
  let result ← reply
  match extractJSON rt result with
  | .ok v => pure v
  | .error _ =>
    throw (JSError.error (utf16 "Failed to generate " ++ difficulty ++
      utf16 " mock interview questions"))

/-- The call `generateHeuristicQuestions(jobData, cvData)`. No line of `server.js` declares
or imports a binding of this name (the file requires packages only), so the evaluation of the
identifier throws a ReferenceError before an argument is looked at. -/
def generateHeuristicQuestions (_jobData _cvData : JSValue) : Except JSError JSValue :=
  .error (.referenceError (utf16 "generateHeuristicQuestions"))

/-- The call `evaluateHeuristicAnswer(question, answer, cvData)`: no binding of this name
exists either, and the call throws a ReferenceError. -/
def evaluateHeuristicAnswer (_question _answer _cvData : JSValue) : Except JSError JSValue :=
  .error (.referenceError (utf16 "evaluateHeuristicAnswer"))

/-- The fallback document record of the start handler. -/
def fallbackCVDataInterview : JSValue :=
  .obj [(utf16 "header", .obj [(utf16 "name", .str (utf16 "Abdelrahman Ali Elnagar")),
      (utf16 "contact", .str (utf16 "Ulm, Germany | abdelrahmanelnagar123@gmail.com"))]),
    (utf16 "sections", .obj [(utf16 "education", .arr []), (utf16 "experience", .arr []),
      (utf16 "skills", .arr []), (utf16 "projects", .arr [])])]

/-- The list `['easy', 'medium', 'hard', 'extreme']`. -/
def difficulties : List JSString :=
  [utf16 "easy", utf16 "medium", utf16 "hard", utf16 "extreme"]

/-- The session record `currentMockInterview`. -/
structure Session where
  id : JSString
  jobData : JSValue
  cvData : JSValue
  questions : List JSValue
  currentQuestionIndex : Nat
  answers : List JSValue
  scores : List JSValue
  startTime : JSString
  status : JSString
  totalQuestions : Nat
  completedQuestions : Nat
  mode : JSValue
  endTime : Option JSString

/-- The generation service as the handler of one request sees it: `service k` is the outcome
of the call to `callLLM` that the handler makes after `k` earlier calls (the response text,
or the error that `callLLM` throws). -/
abbrev Service := Nat → Except JSError JSString

/-- One `await callLLM(prompt)` made inside the function `caller` after the calls of `log`:
the outcome that the service gives to this call, and the log with the call added. The
handlers get at an outcome of the service in no other way, so the log that a handler returns
holds exactly the calls whose outcome it has taken, in order. -/
def awaitCallLLM (service : Service) (caller : JSString) (log : List JSString) :
    Except JSError JSString × List JSString :=
  (service log.length, log ++ [caller])

/-- The expression `sets[d] || []` spread into `push`: the items of the list. -/
def tierOf (sets : JSValue) (d : JSString) : Except JSError (List JSValue) := do
  let v ← getProp sets d
  match (if truthy v then v else JSValue.arr []) with
  | .arr items => pure items
  | _ => throw JSError.typeError

/-- The loop `difficulties.forEach(d => allQuestions.push(...(sets[d] || [])))`. -/
def tiersOf (sets : JSValue) : List JSString → Except JSError (List JSValue)
  | [] => pure []
  | d :: rest => do
    let items ← tierOf sets d
    let more ← tiersOf sets rest
    pure (items ++ more)

/-- The branch `mode === 'nonai'` of the start handler: the heuristic sets are asked for
once, and the list of each difficulty is pushed. -/
def heuristicQuestions (jobData cvData : JSValue) : Except JSError (List JSValue) := do
  let sets ← generateHeuristicQuestions jobData cvData
  tiersOf sets difficulties

/-- One iteration of the loop over the difficulties in the service-backed mode, after the
calls of `log`: the questions to push, and the log with the question-generation call added.
A response whose `questions` is not a list, and every exception, lead into the `catch`
block, which asks for the heuristic sets. -/
def tierQuestions (rt : Runtime) (jobData cvData : JSValue) (difficulty : JSString)
    (service : Service) (log : List JSString) :
    Except JSError (List JSValue) × List JSString :=
  let call := awaitCallLLM service (utf16 "generateMockInterviewQuestions " ++ difficulty) log
  (match (do
      let questions ← generateMockInterviewQuestions rt difficulty call.1
      if truthy questions then
        let qs ← getProp questions (utf16 "questions")
        if truthy qs && isArray qs then pure (arrayOrEmpty qs)
        else throw (JSError.error (utf16 "Invalid questions structure received"))
      else throw (JSError.error (utf16 "Invalid questions structure received"))
        : Except JSError (List JSValue)) with
    | .ok items => pure items
    | .error _ => do
      let sets ← generateHeuristicQuestions jobData cvData
      tierOf sets difficulty,
    call.2)

/-- The loop `for (const difficulty of difficulties)` of the service-backed mode, for the
difficulties still to run after the calls of `log`: the questions pushed, or the exception
that leaves the loop, and the log of the calls made. -/
def allQuestionsFrom (rt : Runtime) (jobData cvData : JSValue) (service : Service) :
    List JSString → List JSString → Except JSError (List JSValue) × List JSString
  | [], log => (pure [], log)
  | d :: rest, log =>
    match tierQuestions rt jobData cvData d service log with
    | (.error e, log1) => (.error e, log1)
    | (.ok items, log1) =>
      match allQuestionsFrom rt jobData cvData service rest log1 with
      | (.error e, log2) => (.error e, log2)
      | (.ok more, log2) => (.ok (items ++ more), log2)

/-- What a handler of the session leaves: its response, the value of
`currentMockInterview` afterwards, and the log of the calls to `callLLM` it made. -/
structure Outcome where
  response : Response
  session : Option Session
  calls : List JSString

/-- The default `mode = 'ai'` of the destructured request. -/
def defaultMode (modeArg : JSValue) : JSValue :=
  match modeArg with
  | .undefined => JSValue.str (utf16 "ai")
  | m => m

/-- The document record of the start handler, with its fallback. -/
def cvDataInterviewStep (rt : Runtime) (reply : Except JSError JSString) : JSValue :=
  match parseCVContent rt reply with
  | .ok v => v
  | .error _ => fallbackCVDataInterview

/-- The start handler from the generation of the questions on, after the calls of `log`.
`id` and `startTime` are the clock readings `Date.now().toString()` and
`new Date().toISOString()`. The session is stored before the response is built; an
exception while the questions are generated leaves `currentMockInterview` as it was. -/
def startSession (rt : Runtime) (previous : Option Session) (jobData cvData mode : JSValue)
    (id startTime : JSString) (service : Service) (log : List JSString) : Outcome :=
  let generated :=
    if !strictNotEquals mode (.str (utf16 "nonai")) then (heuristicQuestions jobData cvData, log)
    else allQuestionsFrom rt jobData cvData service difficulties log
  match generated.1 with
  | .error e =>
    { response := .serverError (utf16 "Failed to start mock interview") e,
      session := previous, calls := generated.2 }
  | .ok allQuestions =>
    let session : Session :=
      { id := id, jobData := jobData, cvData := cvData, questions := allQuestions,
        currentQuestionIndex := 0, answers := [], scores := [], startTime := startTime,
        status := utf16 "active", totalQuestions := allQuestions.length,
        completedQuestions := 0, mode := mode, endTime := none }
    match getProp jobData (utf16 "role_title") with
    | .error e =>
      { response := .serverError (utf16 "Failed to start mock interview") e,
        session := some session, calls := generated.2 }
    | .ok jobTitle =>
      { response := .success (.obj [(utf16 "success", .bool true),
          (utf16 "session", .obj [(utf16 "id", .str id),
            (utf16 "totalQuestions", .num (natToString allQuestions.length)),
            (utf16 "estimatedDuration", .num (natToString (allQuestions.length * 5))),
            (utf16 "jobTitle", jobTitle),
            (utf16 "difficultyLevels", .arr (difficulties.map JSValue.str)),
            (utf16 "currentQuestion", allQuestions.getD 0 .undefined),
            (utf16 "mode", mode)])]),
        session := some session, calls := generated.2 }

/-- The handler of `POST /api/start-mock-interview`: the job description is parsed with one
call, then the document with one call, each with its fallback, before the mode is looked
at. -/
def startMockInterview (rt : Runtime) (previous : Option Session)
    (jobDescription : JSString) (modeArg : JSValue) (id startTime : JSString)
    (service : Service) : Outcome :=
  if jobDescription.isEmpty then
    { response := .badRequest (utf16 "Job description is required"), session := previous,
      calls := [] }
  else
    let job := awaitCallLLM service (utf16 "parseJobDescription") []
    let cv := awaitCallLLM service (utf16 "parseCVContent") job.2
    startSession rt previous (jobDataStep rt jobDescription job.1) (cvDataInterviewStep rt cv.1)
      (defaultMode modeArg) id startTime service cv.2

/-- The default evaluation of `evaluateMockInterviewAnswer`. -/
def defaultEvaluation : JSValue :=
  .obj [(utf16 "score", .num (utf16 "50")),
    (utf16 "feedback", .obj [
      (utf16 "strengths", strs ["Attempted to answer the question"]),
      (utf16 "improvements", strs ["Could provide more detailed explanation"]),
      (utf16 "technical_accuracy", .str (utf16 "fair")),
      (utf16 "completeness", .str (utf16 "partial")),
      (utf16 "communication", .str (utf16 "mostly_clear"))]),
    (utf16 "detailed_analysis", .obj [
      (utf16 "correct_concepts", .arr []),
      (utf16 "missing_concepts", strs ["Detailed technical explanation"]),
      (utf16 "suggested_improvements", strs ["Provide more specific examples"]),
      (utf16 "follow_up_questions", strs ["Can you elaborate on this approach?"])]),
    (utf16 "skill_demonstration", .obj [
      (utf16 "demonstrated_skills", strs ["Basic understanding"]),
      (utf16 "missing_skills", strs ["Advanced technical knowledge"]),
      (utf16 "skill_level", .str (utf16 "beginner"))]),
    (utf16 "overall_assessment", .str (utf16 "needs_improvement"))]

/-- The function `evaluateMockInterviewAnswer`, called after the calls of `log`: the prompt
holds `${userAnswer}`, whose conversion to text can throw before the call is made; an error
of the extraction gives the default evaluation; an error of `callLLM` is thrown to the
caller. -/
def evaluateMockInterviewAnswer (rt : Runtime) (userAnswer : JSValue) (service : Service)
    (log : List JSString) : Except JSError JSValue × List JSString :=
  match toStringJS userAnswer with
  | .error e => (.error e, log)
  | .ok _ =>
    let call := awaitCallLLM service (utf16 "evaluateMockInterviewAnswer") log
    (match call.1 with
      | .error e => .error e
      | .ok result =>
        match extractJSON rt result with
        | .ok v => .ok v
        | .error _ => .ok defaultEvaluation,
      call.2)

/-- The arithmetic of the runtime on scores outside the integers that are modelled exactly
below, applied after the scores were converted to primitives: `roundedMean` is the text of the
number `Math.round(scores.reduce((a, b) => a + b, 0) / scores.length)`, `lessThan` is `v < k`,
and `meanLessThan` is `scores.reduce((a, b) => a + b, 0) / scores.length < k`. -/
structure Helpers where
  roundedMean : List JSValue → JSString
  lessThan : JSValue → Nat → Bool
  meanLessThan : List JSValue → Nat → Bool

/-! ### Scores

A score is a number of the runtime, kept as its `Number::toString` text. The integers are
modelled exactly: a list of integer scores whose absolute values and whose length sum to
less than `2 ^ 52` is added without rounding error, and the quotient of its sum by its length
is rounded by the division to a double that lies on the same side of every half-integer and
of every integer as the exact quotient (two such bounds differ from the exact quotient by at
least `1 / (2 * length)`, more than half a unit in the last place). On these lists
`Math.round` of the quotient is therefore the floor of the exact quotient plus one half, and
a comparison of the quotient with an integer is the comparison of the exact quotient. -/

/-- The text of an integer as `Number::toString` prints it. -/
def intToString (n : Int) : JSString :=
  if n < 0 then 45 :: natToString n.natAbs else natToString n.natAbs

/-- The integer that a value is, when it is a number whose text is the text of an
integer. -/
def integerOf : JSValue → Option Int
  | .num text =>
    match text with
    | 45 :: digits =>
      match naturalOf digits with
      | some n => if n = 0 then none else some (-(n : Int))
      | none => none
    | _ => (naturalOf text).map Int.ofNat
  | _ => none

/-- The integers that the values of a list are, when all of them are integers. -/
def integersOf : List JSValue → Option (List Int)
  | [] => some []
  | v :: rest =>
    match integerOf v, integersOf rest with
    | some n, some ns => some (n :: ns)
    | _, _ => none

/-- The lists of integers on which the sum and the quotient by the length are modelled
exactly. -/
def exactRange (ns : List Int) : Bool :=
  decide ((ns.map Int.natAbs).sum + ns.length < 2 ^ 52)

/-- The value `Math.round(total / count)` for an integer `total` and a positive `count`: the
floor of `total / count + 1 / 2` (the division of integers by a positive integer rounds
down). -/
def roundHalfUp (total : Int) (count : Nat) : Int :=
  (2 * total + count) / (2 * count)

/-- The conversions to a primitive that the additions of `scores.reduce((a, b) => a + b, 0)`
make, one for each score in order. A score that is a record with an own `toString` property,
which parsed data cannot call (or a list that holds such a record), makes its addition throw
a TypeError. -/
def addends : List JSValue → Except JSError (List JSString)
  | [] => pure []
  | v :: rest => do
    let t ← toStringJS v
    let ts ← addends rest
    pure (t :: ts)

/-- The expression `Math.round(scores.reduce((a, b) => a + b, 0) / scores.length)`. On the
empty list it is `Math.round(0 / 0)`, which is `NaN`. -/
def averageScore (hp : Helpers) (scores : List JSValue) : Except JSError JSValue :=
  match scores with
  | [] => pure (.num (utf16 "NaN"))
  | _ :: _ => do
    let _ ← addends scores
    match integersOf scores with
    | some ns =>
      if exactRange ns then pure (.num (intToString (roundHalfUp ns.sum ns.length)))
      else pure (.num (hp.roundedMean scores))
    | none => pure (.num (hp.roundedMean scores))

/-- The comparison `v < k` of a value with the number literal `k`; the conversion of `v` to
a primitive can throw. -/
def lessThan (hp : Helpers) (v : JSValue) (k : Nat) : Except JSError Bool := do
  let _ ← toStringJS v
  match integerOf v with
  | some n => pure (decide (n < (k : Int)))
  | none => pure (hp.lessThan v k)

/-- The comparison `scores.reduce((a, b) => a + b, 0) / scores.length < k` for a non-empty
list of scores. -/
def meanLessThan (hp : Helpers) (scores : List JSValue) (k : Nat) : Except JSError Bool := do
  let _ ← addends scores
  match integersOf scores with
  | some ns =>
    if exactRange ns && !ns.isEmpty then pure (decide (ns.sum < (k : Int) * (ns.length : Int)))
    else pure (hp.meanLessThan scores k)
  | none => pure (hp.meanLessThan scores k)

/-- The statements of the submit handler after the evaluation: the answer record and the
score are pushed, the two counters advance, and the session is completed when the index
reaches the number of questions. Reading `evaluation.score` can throw after the answer was
pushed. -/
def recordAnswer (s : Session) (currentQuestion answer questionId evaluation : JSValue)
    (timestamp : JSString) : Session × Except JSError Unit :=
  match getProp currentQuestion (utf16 "question"),
      getProp currentQuestion (utf16 "difficulty") with
  | .ok question, .ok difficulty =>
    let answerData := JSValue.obj [(utf16 "questionId", questionId),
      (utf16 "question", question), (utf16 "difficulty", difficulty),
      (utf16 "userAnswer", answer), (utf16 "evaluation", evaluation),
      (utf16 "timestamp", .str timestamp)]
    let s1 := { s with answers := s.answers ++ [answerData] }
    match getProp evaluation (utf16 "score") with
    | .error e => (s1, .error e)
    | .ok score =>
      let s2 := { s1 with scores := s1.scores ++ [score],
                          currentQuestionIndex := s1.currentQuestionIndex + 1,
                          completedQuestions := s1.completedQuestions + 1 }
      if s2.questions.length ≤ s2.currentQuestionIndex then
        ({ s2 with status := utf16 "completed", endTime := some timestamp }, .ok ())
      else (s2, .ok ())
  | .error e, _ => (s, .error e)
  | _, .error e => (s, .error e)

/-- The evaluation that the submit handler obtains (lines 1617 to 1631), with the log of the
calls made: the heuristic one in the mode `nonai`, otherwise the one of the service, and the
heuristic one in the `catch` block when that throws. -/
def evaluateAnswer (rt : Runtime) (s : Session) (currentQuestion answer : JSValue)
    (service : Service) : Except JSError JSValue × List JSString :=
  if !strictNotEquals s.mode (.str (utf16 "nonai")) then
    (evaluateHeuristicAnswer currentQuestion answer s.cvData, [])
  else
    match evaluateMockInterviewAnswer rt answer service [] with
    | (.ok v, log) => (.ok v, log)
    | (.error _, log) => (evaluateHeuristicAnswer currentQuestion answer s.cvData, log)

/-- The handler of `POST /api/mock-interview/submit-answer`; `timestamp` is the clock
reading. An exception before the answer record is pushed leaves the session as it was; the
running average is computed while the response is built, after the session was updated. -/
def submitAnswer (rt : Runtime) (hp : Helpers) (current : Option Session)
    (answer questionId : JSValue) (timestamp : JSString) (service : Service) : Outcome :=
  match current with
  | none =>
    { response := .notFound (utf16 "No active mock interview session"), session := none,
      calls := [] }
  | some s =>
    if !truthy answer then
      { response := .badRequest (utf16 "Answer is required"), session := some s, calls := [] }
    else
      let currentQuestion := s.questions.getD s.currentQuestionIndex .undefined
      match getProp currentQuestion (utf16 "id") with
      | .error e =>
        { response := .serverError [] e, session := some s, calls := [] }
      | .ok qid =>
        if strictNotEquals qid questionId then
          { response := .badRequest (utf16 "Question ID mismatch"), session := some s,
            calls := [] }
        else
          match evaluateAnswer rt s currentQuestion answer service with
          | (.error e, calls) =>
            { response := .serverError [] e, session := some s, calls := calls }
          | (.ok evaluation, calls) =>
            match recordAnswer s currentQuestion answer questionId evaluation timestamp with
            | (s2, .error e) =>
              { response := .serverError [] e, session := some s2, calls := calls }
            | (s2, .ok ()) =>
              match (if 0 < s2.scores.length then averageScore hp s2.scores
                  else pure (.num (utf16 "0"))) with
              | .error e =>
                { response := .serverError [] e, session := some s2, calls := calls }
              | .ok currentScore =>
                { response := .success (.obj [(utf16 "success", .bool true),
                    (utf16 "evaluation", evaluation),
                    (utf16 "isComplete",
                      .bool (decide (s2.questions.length ≤ s2.currentQuestionIndex))),
                    (utf16 "progress", .obj [
                      (utf16 "completed", .num (natToString s2.completedQuestions)),
                      (utf16 "total", .num (natToString s2.totalQuestions)),
                      (utf16 "currentScore", currentScore)])]),
                  session := some s2, calls := calls }

/-- A response to a question-generation call: an empty list of questions. -/
def payload18 : JSString := utf16 "\x7b\"questions\":[]\x7d"

/-- A runtime whose `JSON.parse` knows the one text `payload18`. -/
def runtime18 : Runtime :=
  { toUpperCase := upperASCII, toLowerCase := id,
    jsonParse := fun t =>
      if t = payload18 then some (.obj [(utf16 "questions", .arr [])]) else none,
    greaterThan := fun _ _ => false }

/-- A service each call of which fails with `e`. -/
def serviceFailed (e : JSError) : Service :=
  fun _ => .error e

/-- A service each call of which answers `text`. -/
def serviceAnswers (text : JSString) : Service :=
  fun _ => .ok text

/-- A session on two questions with the identifiers `q1` and `q2`, at its first question. -/
def session20 : Session :=
  { id := utf16 "1", jobData := .obj [], cvData := .obj [],
    questions := [.obj [(utf16 "id", .str (utf16 "q1"))], .obj [(utf16 "id", .str (utf16 "q2"))]],
    currentQuestionIndex := 0, answers := [], scores := [], startTime := utf16 "t0",
    status := utf16 "active", totalQuestions := 2, completedQuestions := 0,
    mode := .str (utf16 "nonai"), endTime := none }

/-- An arithmetic for the evaluations; the scores of the evaluations are integers, on which
it is not used. -/
def helpers20 : Helpers :=
  { roundedMean := fun _ => utf16 "50",
    lessThan := fun _ _ => false,
    meanLessThan := fun _ _ => false }

/-! ## The session: next question, results, recommendations -/

/-- The handler of `GET /api/mock-interview/next-question`. The view of the question is
built from ten reads; a question that is `null` or `undefined` makes the first one throw. -/
def nextQuestion (current : Option Session) : Outcome :=
  match current with
  | none =>
    { response := .notFound (utf16 "No active mock interview session"), session := none,
      calls := [] }
  | some s =>
    if s.questions.length ≤ s.currentQuestionIndex then
      { response := .success (.obj [(utf16 "success", .bool true),
          (utf16 "completed", .bool true),
          (utf16 "message", .str (utf16 "All questions completed"))]),
        session := some s, calls := [] }
    else
      let question := s.questions.getD s.currentQuestionIndex .undefined
      match (do
        let id ← getProp question (utf16 "id")
        let type ← getProp question (utf16 "type")
        let difficulty ← getProp question (utf16 "difficulty")
        let category ← getProp question (utf16 "category")
        let text ← getProp question (utf16 "question")
        let options ← getProp question (utf16 "options")
        let timeLimit ← getProp question (utf16 "time_limit")
        let hints ← getProp question (utf16 "hints")
        pure (JSValue.obj [(utf16 "success", .bool true),
          (utf16 "question", .obj [(utf16 "id", id), (utf16 "type", type),
            (utf16 "difficulty", difficulty), (utf16 "category", category),
            (utf16 "question", text),
            (utf16 "options", if truthy options then options else .null),
            (utf16 "timeLimit", timeLimit),
            (utf16 "hints", if truthy hints then hints else .arr []),
            (utf16 "questionNumber", .num (natToString (s.currentQuestionIndex + 1))),
            (utf16 "totalQuestions", .num (natToString s.totalQuestions))])])
          : Except JSError JSValue) with
      | .ok body => { response := .success body, session := some s, calls := [] }
      | .error e => { response := .serverError [] e, session := some s, calls := [] }

/-- The two statements `if (!difficultyScores[key]) difficultyScores[key] = []` and
`difficultyScores[key].push(score)` for a key that `Object.prototype` does not have. The
record keeps its own keys in the order of their creation. -/
def pushScore (key : JSString) (score : JSValue) :
    List (JSString × List JSValue) → List (JSString × List JSValue)
  | [] => [(key, [score])]
  | (k, l) :: rest =>
    if k = key then (k, l ++ [score]) :: rest else (k, l) :: pushScore key score rest

/-- The loop `answers.forEach(answer => ...)` of `generateInterviewRecommendations`, from
the record `acc` on. The key is `answer.difficulty` converted to a property key; for a name
of `Object.prototype` the inherited value is found and the call of its `push` throws. -/
def groupScores : List JSValue → List (JSString × List JSValue) →
    Except JSError (List (JSString × List JSValue))
  | [], acc => pure acc
  | answer :: rest, acc => do
    let d ← getProp answer (utf16 "difficulty")
    let key ← toStringJS d
    if key ∈ objectPrototypeKeys then throw JSError.typeError
    else
      let evaluation ← getProp answer (utf16 "evaluation")
      let score ← getProp evaluation (utf16 "score")
      groupScores rest (pushScore key score acc)

/-- The order of `Object.keys`: the keys that are array indices in ascending order, then the
other keys in the order of their creation. -/
def objectKeys (fields : List (JSString × List JSValue)) : List (JSString × List JSValue) :=
  (fields.filter (fun f => (arrayIndexOf f.1).isSome)).insertionSort
      (fun a b => (arrayIndexOf a.1).getD 0 ≤ (arrayIndexOf b.1).getD 0) ++
    fields.filter (fun f => (arrayIndexOf f.1).isNone)

/-- The text of the recommendation for a difficulty. -/
def focusText (difficulty : JSString) : JSString :=
  utf16 "Focus more on " ++ difficulty ++ utf16 " level questions and concepts"

/-- The first recommendation, chosen by the overall score. -/
def overallText (hp : Helpers) (overallScore : JSValue) : Except JSError JSString := do
  let below60 ← lessThan hp overallScore 60
  if below60 then
    pure (utf16 "Focus on fundamental concepts and practice basic problem-solving")
  else
    let below80 ← lessThan hp overallScore 80
    if below80 then
      pure (utf16 "Continue practicing intermediate-level problems and system design")
    else
      pure (utf16 "Excellent performance! Consider advanced topics and leadership scenarios")

/-- The loop `Object.keys(difficultyScores).forEach(...)`: the recommendation of each
difficulty whose average score is below 60, in the order of the keys. -/
def focusRecommendations (hp : Helpers) :
    List (JSString × List JSValue) → Except JSError (List JSString)
  | [] => pure []
  | f :: rest => do
    let below ← meanLessThan hp f.2 60
    let more ← focusRecommendations hp rest
    pure (if below then focusText f.1 :: more else more)

/-- The function `generateInterviewRecommendations(answers, overallScore)`. -/
def generateInterviewRecommendations (hp : Helpers) (answers : List JSValue)
    (overallScore : JSValue) : Except JSError (List JSString) := do
  let first ← overallText hp overallScore
  let difficultyScores ← groupScores answers []
  let more ← focusRecommendations hp (objectKeys difficultyScores)
  pure (first :: more)

/-- The callback `a => a.difficulty === difficulty`. -/
def hasDifficulty (difficulty : JSString) (a : JSValue) : Except JSError Bool := do
  let d ← getProp a (utf16 "difficulty")
  pure (!strictNotEquals d (.str difficulty))

/-- The callback `a => a.evaluation.score`. -/
def evaluationScore (a : JSValue) : Except JSError JSValue := do
  let evaluation ← getProp a (utf16 "evaluation")
  getProp evaluation (utf16 "score")

/-- The callback of `['easy', 'medium', 'hard', 'extreme'].forEach(...)` in the results
handler: the entry of `difficultyStats` for one difficulty, if it has answers. -/
def tierStats (hp : Helpers) (answers : List JSValue) (difficulty : JSString) :
    Except JSError (Option (JSString × JSValue)) := do
  let difficultyAnswers ← filterArray (hasDifficulty difficulty) answers
  if 0 < difficultyAnswers.length then
    let difficultyScores ← mapArray evaluationScore difficultyAnswers
    let average ← averageScore hp difficultyScores
    pure (some (difficulty, .obj [
      (utf16 "count", .num (natToString difficultyAnswers.length)),
      (utf16 "averageScore", average),
      (utf16 "scores", .arr difficultyScores)]))
  else pure none

/-- The record `difficultyStats` after the loop over the given difficulties. -/
def difficultyStats (hp : Helpers) (answers : List JSValue) :
    List JSString → Except JSError (List (JSString × JSValue))
  | [] => pure []
  | difficulty :: rest => do
    let entry ← tierStats hp answers difficulty
    let more ← difficultyStats hp answers rest
    pure (match entry with
      | some f => f :: more
      | none => more)

/-- The handler of `GET /api/mock-interview/results`: the overall score, the statistics of
the four difficulties, then the record `results` with the job title and the
recommendations. -/
def mockInterviewResults (hp : Helpers) (current : Option Session) : Outcome :=
  match current with
  | none =>
    { response := .notFound (utf16 "No mock interview session found"), session := none,
      calls := [] }
  | some s =>
    if s.status ≠ utf16 "completed" then
      { response := .badRequest (utf16 "Mock interview not completed yet"), session := some s,
        calls := [] }
    else
      match (do
        let overall ← averageScore hp s.scores
        let stats ← difficultyStats hp s.answers difficulties
        let jobTitle ← getProp s.jobData (utf16 "role_title")
        let recommendations ← generateInterviewRecommendations hp s.answers overall
        pure (JSValue.obj [(utf16 "success", .bool true),
          (utf16 "results", .obj [(utf16 "sessionId", .str s.id),
            (utf16 "jobTitle", jobTitle),
            (utf16 "startTime", .str s.startTime),
            (utf16 "endTime", match s.endTime with
              | some t => .str t
              | none => .undefined),
            (utf16 "totalQuestions", .num (natToString s.totalQuestions)),
            (utf16 "completedQuestions", .num (natToString s.completedQuestions)),
            (utf16 "overallScore", overall),
            (utf16 "difficultyStats", .obj stats),
            (utf16 "answers", .arr s.answers),
            (utf16 "recommendations", .arr (recommendations.map JSValue.str))])])
          : Except JSError JSValue) with
      | .ok body => { response := .success body, session := some s, calls := [] }
      | .error e => { response := .serverError [] e, session := some s, calls := [] }

/-- One request to the session endpoints, with what its environment supplies: the clock
readings and the generation service. -/
inductive Request where
  | start (jobDescription : JSString) (modeArg : JSValue) (id startTime : JSString)
      (service : Service) : Request
  | next : Request
  | submit (answer questionId : JSValue) (timestamp : JSString) (service : Service) : Request
  | results : Request

/-- The handler that serves a request. -/
def handle (rt : Runtime) (hp : Helpers) (current : Option Session) : Request → Outcome
  | .start jobDescription modeArg id startTime service =>
    startMockInterview rt current jobDescription modeArg id startTime service
  | .next => nextQuestion current
  | .submit answer questionId timestamp service =>
    submitAnswer rt hp current answer questionId timestamp service
  | .results => mockInterviewResults hp current

/-- The value of `currentMockInterview` after a sequence of requests. -/
def serve (rt : Runtime) (hp : Helpers) : Option Session → List Request → Option Session
  | current, [] => current
  | current, req :: rest => serve rt hp (handle rt hp current req).session rest

/-- The number of section edits for which the engine runs the assignment of line 830: the
loop of `applySectionEdits`, counting the edits whose condition holds and whose original text
the document includes when their turn comes. -/
def appliedSectionEdits (upper : Nat → JSString) : JSString → List JSValue → Nat → Nat
  | _, [], _ => 0
  | modifiedCV, edit :: rest, index =>
    match editCondition edit with
    | .ok true =>
      (match sectionEditReplace upper modifiedCV edit index with
        | .ok (some _) => 1
        | _ => 0) +
        appliedSectionEdits upper (sectionEditTry upper modifiedCV edit index).1 rest
          (index + 1)
    | .ok false => appliedSectionEdits upper modifiedCV rest (index + 1)
    | .error _ => 0

/-- A question without its canonical answer: the record without the property
`correct_answer`. -/
def withoutAnswer : JSValue → JSValue
  | .obj fields => .obj (fields.filter (fun f => f.1 ≠ utf16 "correct_answer"))
  | v => v

/-! ## The submit handler, step by step -/

/-- The record `answerData` of the submit handler. -/
def answerData (questionId question difficulty answer evaluation : JSValue)
    (timestamp : JSString) : JSValue :=
  .obj [(utf16 "questionId", questionId), (utf16 "question", question),
    (utf16 "difficulty", difficulty), (utf16 "userAnswer", answer),
    (utf16 "evaluation", evaluation), (utf16 "timestamp", .str timestamp)]

/-- The session after one answer in the words of the specification: one answer record and
one score are appended, the index and the completed count advance, and the status becomes
`completed`, with the end timestamp, when the index reaches the number of questions. -/
def answered (s : Session) (record score : JSValue) (timestamp : JSString) : Session :=
  { s with
    answers := s.answers ++ [record]
    scores := s.scores ++ [score]
    currentQuestionIndex := s.currentQuestionIndex + 1
    completedQuestions := s.completedQuestions + 1
    status :=
      if s.questions.length ≤ s.currentQuestionIndex + 1 then utf16 "completed" else s.status
    endTime :=
      if s.questions.length ≤ s.currentQuestionIndex + 1 then some timestamp else s.endTime }

/-- The body that the submit handler sends after a scored answer, for the running average
`currentScore`. -/
def submitBody (s : Session) (evaluation currentScore : JSValue) : JSValue :=
  .obj [(utf16 "success", .bool true),
    (utf16 "evaluation", evaluation),
    (utf16 "isComplete", .bool (decide (s.questions.length ≤ s.currentQuestionIndex + 1))),
    (utf16 "progress", .obj [
      (utf16 "completed", .num (natToString (s.completedQuestions + 1))),
      (utf16 "total", .num (natToString s.totalQuestions)),
      (utf16 "currentScore", currentScore)])]

/-- A runtime whose `JSON.parse` knows the one text `null`. -/
def runtime21 : Runtime :=
  { toUpperCase := upperASCII, toLowerCase := id,
    jsonParse := fun t => if t = utf16 "null" then some .null else none,
    greaterThan := fun _ _ => false }

/-- A session in the service-backed mode on the one question `q1`, at that question. -/
def session21 : Session :=
  { id := utf16 "1", jobData := .obj [], cvData := .obj [],
    questions := [.obj [(utf16 "id", .str (utf16 "q1")),
      (utf16 "difficulty", .str (utf16 "easy"))]],
    currentQuestionIndex := 0, answers := [], scores := [], startTime := utf16 "t0",
    status := utf16 "active", totalQuestions := 1, completedQuestions := 0,
    mode := .str (utf16 "ai"), endTime := none }

/-- A completed session: its one question `q1` is answered with the score 50. -/
def session23 : Session :=
  { id := utf16 "1", jobData := .obj [(utf16 "role_title", .str (utf16 "Engineer"))],
    cvData := .obj [],
    questions := [.obj [(utf16 "id", .str (utf16 "q1")),
      (utf16 "difficulty", .str (utf16 "easy"))]],
    currentQuestionIndex := 1,
    answers := [answerData (.str (utf16 "q1")) .undefined (.str (utf16 "easy"))
      (.str (utf16 "my answer")) defaultEvaluation (utf16 "t1")],
    scores := [.num (utf16 "50")], startTime := utf16 "t0",
    status := utf16 "completed", totalQuestions := 1, completedQuestions := 1,
    mode := .str (utf16 "nonai"), endTime := some (utf16 "t1") }

/-- A response to an evaluation call: an evaluation whose score is a record with an own
property `toString`. -/
def payload22 : JSString := utf16 "\x7b\"score\":\x7b\"toString\":1\x7d\x7d"

/-- A runtime whose `JSON.parse` knows the one text `payload22`. -/
def runtime22 : Runtime :=
  { toUpperCase := upperASCII, toLowerCase := id,
    jsonParse := fun t =>
      if t = payload22 then
        some (.obj [(utf16 "score", .obj [(utf16 "toString", .num (utf16 "1"))])])
      else none,
    greaterThan := fun _ _ => false }

/-- A completed session whose one question has the difficulty `constructor`; it is answered
with the score 50. -/
def session24 : Session :=
  { id := utf16 "1", jobData := .obj [(utf16 "role_title", .str (utf16 "Engineer"))],
    cvData := .obj [],
    questions := [.obj [(utf16 "id", .str (utf16 "q1")),
      (utf16 "difficulty", .str (utf16 "constructor"))]],
    currentQuestionIndex := 1,
    answers := [answerData (.str (utf16 "q1")) .undefined (.str (utf16 "constructor"))
      (.str (utf16 "my answer")) defaultEvaluation (utf16 "t1")],
    scores := [.num (utf16 "50")], startTime := utf16 "t0",
    status := utf16 "completed", totalQuestions := 1, completedQuestions := 1,
    mode := .str (utf16 "ai"), endTime := some (utf16 "t1") }

/-- The completion signal of the next-question handler. -/
def completionSignal : Response :=
  .success (.obj [(utf16 "success", .bool true), (utf16 "completed", .bool true),
    (utf16 "message", .str (utf16 "All questions completed"))])

/-- A session at the second of its two questions; the questions carry canonical answers. -/
def session26 : Session :=
  { id := utf16 "1", jobData := .obj [(utf16 "role_title", .str (utf16 "Engineer"))],
    cvData := .obj [],
    questions := [
      .obj [(utf16 "id", .str (utf16 "q1")), (utf16 "question", .str (utf16 "2 + 2?")),
        (utf16 "correct_answer", .str (utf16 "4"))],
      .obj [(utf16 "id", .str (utf16 "q2")), (utf16 "type", .str (utf16 "mcq")),
        (utf16 "difficulty", .str (utf16 "easy")), (utf16 "question", .str (utf16 "3 + 3?")),
        (utf16 "options", strs ["5", "6"]), (utf16 "correct_answer", .str (utf16 "6")),
        (utf16 "time_limit", .num (utf16 "60"))]],
    currentQuestionIndex := 1,
    answers := [answerData (.str (utf16 "q1")) (.str (utf16 "2 + 2?")) .undefined
      (.str (utf16 "4")) defaultEvaluation (utf16 "t1")],
    scores := [.num (utf16 "50")], startTime := utf16 "t0",
    status := utf16 "active", totalQuestions := 2, completedQuestions := 1,
    mode := .str (utf16 "nonai"), endTime := none }

/-- A response to a question-generation call: one question with the canonical answer `4`. -/
def payload30 : JSString := utf16 "\x7b\"questions\":[\x7b\"id\":\"q1\",\"difficulty\":\"easy\",\"question\":\"2 + 2?\",\"correct_answer\":\"4\"\x7d]\x7d"

/-- The same response with the canonical answer `5`. -/
def payload30b : JSString := utf16 "\x7b\"questions\":[\x7b\"id\":\"q1\",\"difficulty\":\"easy\",\"question\":\"2 + 2?\",\"correct_answer\":\"5\"\x7d]\x7d"

/-- The question of `payload30` and of `payload30b`, for its canonical answer. -/
def question30 (answer : String) : JSValue :=
  .obj [(utf16 "id", .str (utf16 "q1")), (utf16 "difficulty", .str (utf16 "easy")),
    (utf16 "question", .str (utf16 "2 + 2?")), (utf16 "correct_answer", .str (utf16 answer))]

/-- A runtime whose `JSON.parse` knows the texts `payload30`, `payload30b`, `payload18` and
`null`. -/
def runtime30 : Runtime :=
  { toUpperCase := upperASCII, toLowerCase := id,
    jsonParse := fun t =>
      if t = payload30 then some (.obj [(utf16 "questions", .arr [question30 "4"])])
      else if t = payload30b then some (.obj [(utf16 "questions", .arr [question30 "5"])])
      else if t = payload18 then some (.obj [(utf16 "questions", .arr [])])
      else if t = utf16 "null" then some .null
      else none,
    greaterThan := fun _ _ => false }

/-- The two parsing calls fail, the call for the tier `easy` (the third call) answers `p`,
and the calls for the other tiers answer `payload18`. -/
def service30 (p : JSString) : Service :=
  fun k => if k < 2 then .error .typeError else if k = 2 then .ok p else .ok payload18

/-- The session that a start with `service30` creates, for the canonical answer of its one
question. -/
def session30 (answer : String) : Session :=
  { id := utf16 "1", jobData := fallbackJobData runtime30 (utf16 "x"),
    cvData := fallbackCVDataInterview, questions := [question30 answer],
    currentQuestionIndex := 0, answers := [], scores := [], startTime := utf16 "t0",
    status := utf16 "active", totalQuestions := 1, completedQuestions := 0,
    mode := .str (utf16 "ai"), endTime := none }

/-- A response to the edit-proposal call: one HIGH-confidence edit whose original text `zzz`
does not occur in the template of the evaluations. -/
def payload27 : JSString := utf16 "\x7b\"section_edits\":[\x7b\"section\":\"s\",\"original_text\":\"zzz\",\"new_text\":\"y\",\"confidence\":\"HIGH\",\"justification\":\"keyword from the job\"\x7d],\"skill_additions\":[],\"project_reordering\":[]\x7d"

/-- The edit of `payload27`. -/
def edit27 : JSValue :=
  .obj [(utf16 "section", .str (utf16 "s")), (utf16 "original_text", .str (utf16 "zzz")),
    (utf16 "new_text", .str (utf16 "y")), (utf16 "confidence", .str (utf16 "HIGH")),
    (utf16 "justification", .str (utf16 "keyword from the job"))]

/-- The record that `JSON.parse` builds from `payload27`. -/
def record27 : JSValue :=
  .obj [(utf16 "section_edits", .arr [edit27]), (utf16 "skill_additions", .arr []),
    (utf16 "project_reordering", .arr [])]

/-- A runtime whose `JSON.parse` knows the one text `payload27`. -/
def runtime27 : Runtime :=
  { toUpperCase := upperASCII, toLowerCase := id,
    jsonParse := fun t => if t = payload27 then some record27 else none,
    greaterThan := fun _ _ => false }

/-- The edit-proposal call answers `payload27`; every other call fails. -/
def replies27 : Replies :=
  { job := .error .typeError, cv := .error .typeError, gap := .error .typeError,
    edits := .ok payload27, log := .error .typeError }

/-- A text cut at some of its parts: each pair holds the text before a part and the part
itself, `tail` is the text after the last part, and `rewrite` gives what stands in place of
each part. With the identity for `rewrite` this is the text itself. -/
def joinParts (rewrite : JSString → JSString) :
    List (JSString × JSString) → JSString → JSString
  | [], tail => tail
  | (gap, m) :: rest, tail => gap ++ rewrite m ++ joinParts rewrite rest tail

/-- Two texts that a regular expression with the `i` flag does not tell apart: the same
code units up to Canonicalize. -/
def sameLetters (upper : Nat → JSString) (a b : JSString) : Prop :=
  a.map (canonicalize upper true) = b.map (canonicalize upper true)

/-- The last code unit of a text, or `prev` when the text is empty. -/
def lastOr (prev : Option Nat) (l : JSString) : Option Nat :=
  match l.getLast? with
  | some x => some x
  | none => prev

/-- A whole-word occurrence of a non-empty name `s`, up to letter case, at a position of a
text: `prev` is the code unit before the position (none at the start of the text) and
`after` the text from the position on. The text ahead starts with as many code units as `s`
has, the same as those of `s` up to letter case; exactly one of the code units before and at
the position is a word character, and exactly one of the last code unit of the occurrence
and the code unit after it is. -/
def wholeWordAt (upper : Nat → JSString) (s : JSString) (prev : Option Nat)
    (after : JSString) : Prop :=
  s.length ≤ after.length ∧ sameLetters upper (after.take s.length) s ∧
    isWordCharAt prev ≠ isWordCharAt after.head? ∧
    isWordCharAt (after.take s.length).getLast? ≠ isWordCharAt (after.drop s.length).head?

/-- The text `joinParts id parts tail`, standing after the text `pre`, is cut at the
whole-word occurrences of `s` that a scan from left to right finds: every part is such an
occurrence, no such occurrence starts at a position of a gap or of the tail, and the scan
goes on behind each part. -/
def Scanned (upper : Nat → JSString) (s : JSString) :
    JSString → List (JSString × JSString) → JSString → Prop
  | pre, [], tail => ∀ a b, tail = a ++ b → ¬ wholeWordAt upper s (pre ++ a).getLast? b
  | pre, (gap, m) :: rest, tail =>
    (∀ a b, gap = a ++ b → b ≠ [] →
      ¬ wholeWordAt upper s (pre ++ a).getLast? (b ++ m ++ joinParts id rest tail)) ∧
    m.length = s.length ∧
    wholeWordAt upper s (pre ++ gap).getLast? (m ++ joinParts id rest tail) ∧
    Scanned upper s (pre ++ gap ++ m) rest tail

/-! ## Answer records in the words of the claims -/

/-- The difficulty stored in an answer record: `answer.difficulty`. -/
def answerDifficulty (a : JSValue) : JSValue :=
  match getProp a (utf16 "difficulty") with
  | .ok d => d
  | .error _ => .undefined

/-- The difficulty of an answer record as a property key. -/
def answerKey (a : JSValue) : JSString :=
  match toStringJS (answerDifficulty a) with
  | .ok key => key
  | .error _ => []

/-- The score stored in an answer record: `answer.evaluation.score`. -/
def answerScore (a : JSValue) : JSValue :=
  match evaluationScore a with
  | .ok score => score
  | .error _ => .undefined

/-- The score of an answer record as an integer (0 when it is not one). -/
def answerPoints (a : JSValue) : Int :=
  (integerOf (answerScore a)).getD 0

/-- An answer record whose difficulty and score can be read, the difficulty not being the
name of a property of `Object.prototype`. -/
def ReadableAnswer (a : JSValue) : Prop :=
  (∃ d key, getProp a (utf16 "difficulty") = .ok d ∧ toStringJS d = .ok key ∧
    key ∉ objectPrototypeKeys) ∧
  ∃ score, evaluationScore a = .ok score

/-- The integer scores of the answers of one difficulty, in the order of the answers. -/
def tierPoints (answers : List JSValue) (key : JSString) : List Int :=
  (answers.filter (fun a => answerKey a = key)).map answerPoints

/-- The list that `difficultyScores` holds for a key (empty when the key is absent). -/
def scoresOf (key : JSString) : List (JSString × List JSValue) → List JSValue
  | [] => []
  | (k, l) :: rest => if k = key then l else scoresOf key rest

/-- Two answer records: an answer of difficulty `easy` with the score 50 and an answer of
difficulty `hard` with the score 90. -/
def answers25 : List JSValue :=
  [answerData (.str (utf16 "q1")) (.str (utf16 "2 + 2?")) (.str (utf16 "easy"))
      (.str (utf16 "4")) (.obj [(utf16 "score", .num (utf16 "50"))]) (utf16 "t1"),
    answerData (.str (utf16 "q2")) (.str (utf16 "3 + 3?")) (.str (utf16 "hard"))
      (.str (utf16 "6")) (.obj [(utf16 "score", .num (utf16 "90"))]) (utf16 "t2")]

/-- The entry of `difficultyStats` for a difficulty in the words of the claim: absent when
no answer has the difficulty; otherwise the number of the answers of the difficulty, the
mean of their scores rounded to the nearest integer (halves up), and the scores. -/
def tierEntry (answers : List JSValue) (difficulty : JSString) : Option (JSString × JSValue) :=
  match answers.filter (fun a => !strictNotEquals (answerDifficulty a) (.str difficulty)) with
  | [] => none
  | a :: rest =>
    some (difficulty, .obj [
      (utf16 "count", .num (natToString (a :: rest).length)),
      (utf16 "averageScore", .num (intToString
        (roundHalfUp ((a :: rest).map answerPoints).sum (a :: rest).length))),
      (utf16 "scores", .arr ((a :: rest).map answerScore))])

/-! ## Sequences of requests in the words of the claims -/

/-- The invariant of the session record that every handler keeps: the scores, the completed
count and the index agree, the index is at most the number of questions and at most the
number of answer records, the total is the number of questions, and the status is
`completed` exactly when the index has reached the number of questions after an answer. -/
def SessionInvariant (s : Session) : Prop :=
  s.scores.length = s.currentQuestionIndex ∧
  s.completedQuestions = s.currentQuestionIndex ∧
  s.currentQuestionIndex ≤ s.questions.length ∧
  s.currentQuestionIndex ≤ s.answers.length ∧
  s.totalQuestions = s.questions.length ∧
  ((s.status = utf16 "completed" ∧ s.currentQuestionIndex = s.questions.length ∧
      0 < s.questions.length) ∨
    (s.status = utf16 "active" ∧
      (s.currentQuestionIndex < s.questions.length ∨ s.questions = [])))

/-- Whether a response has the status 200. -/
def isSuccess : Response → Bool
  | .success _ => true
  | _ => false

/-- Whether every request of a list is a submit-answer call that is answered with the
status 200 at its turn. -/
def submitsSucceed (rt : Runtime) (hp : Helpers) : Option Session → List Request → Bool
  | _, [] => true
  | current, .submit answer questionId timestamp service :: rest =>
    isSuccess (submitAnswer rt hp current answer questionId timestamp service).response &&
      submitsSucceed rt hp
        (submitAnswer rt hp current answer questionId timestamp service).session rest
  | _, _ :: _ => false

/-- Whether a request is a start. -/
def isStart : Request → Bool
  | .start _ _ _ _ _ => true
  | _ => false

/-- A session all of whose answer records come from scored answers: it keeps the invariant,
holds as many answer records as its index says, every record can be read, and every score,
in the records and in the list of the scores, can be converted to a primitive. -/
def CleanSession (s : Session) : Prop :=
  SessionInvariant s ∧ s.answers.length = s.currentQuestionIndex ∧
    (∀ a ∈ s.answers, ReadableAnswer a ∧ ∃ t, toStringJS (answerScore a) = .ok t) ∧
    ∀ v ∈ s.scores, ∃ t, toStringJS v = .ok t

/-- The questions whose difficulty, when it can be read, is not the name of a property of
`Object.prototype`. -/
def PlainDifficulties (questions : List JSValue) : Prop :=
  ∀ q ∈ questions, ∀ d, getProp q (utf16 "difficulty") = .ok d →
    ∃ key, toStringJS d = .ok key ∧ key ∉ objectPrototypeKeys

/-- The list that a question-generation call contributes, in the words of the claims: the
property `questions` of the record extracted from the response, when the call succeeds, the
extracted value is truthy and the property is a list. -/
def answeredList (rt : Runtime) (reply : Except JSError JSString) : Option (List JSValue) :=
  match reply with
  | .error _ => none
  | .ok text =>
    match extractJSON rt text with
    | .error _ => none
    | .ok v =>
      if truthy v then
        match getProp v (utf16 "questions") with
        | .ok (.arr items) => some items
        | _ => none
      else none

/-! # Properties -/

/-! ## Basic facts about values -/

theorem getProp_of_truthy {v : JSValue} (key : JSString) (h : truthy v = true) :
    ∃ w, getProp v key = .ok w := by
  cases v with
  | undefined => simp [truthy] at h
  | null => simp [truthy] at h
  | bool b => exact ⟨_, rfl⟩
  | num t => exact ⟨_, rfl⟩
  | str s => unfold getProp; split_ifs <;> exact ⟨_, rfl⟩
  | arr items => unfold getProp; split_ifs <;> exact ⟨_, rfl⟩
  | obj fields => exact ⟨_, rfl⟩

theorem hasEmphasis_eq_false (r : JSValue)
    (h : ∀ l, getProp r (utf16 "skills_to_emphasize") = .ok (.arr l) → l = []) :
    hasEmphasis r = .ok false := by
  unfold hasEmphasis
  by_cases ht : truthy r = true
  · obtain ⟨w, hw⟩ := getProp_of_truthy (utf16 "skills_to_emphasize") ht
    rw [if_pos ht, hw]
    cases w <;> simp [isArray, arrayOrEmpty, bind, Except.bind, pure, Except.pure]
    rename_i items
    simp [h items hw]
  · rw [if_neg ht]; rfl

theorem someM_hasEmphasis_eq_false (reqs : List JSValue)
    (h : ∀ r ∈ reqs, ∀ l, getProp r (utf16 "skills_to_emphasize") = .ok (.arr l) → l = []) :
    someM hasEmphasis reqs = .ok false := by
  induction reqs with
  | nil => rfl
  | cons r rest ih =>
    have h1 := hasEmphasis_eq_false r (h r (List.mem_cons_self _ _))
    have h2 := ih (fun r hr => h r (List.mem_cons_of_mem _ hr))
    simp [someM, h1, h2, bind, Except.bind]

/-- C1. An edit set without section edits and without a skill-emphasis request that has a
non-empty `skills_to_emphasize` list (any value `E`: `null`, an empty record, ...) is a
no-op: `applyTargetedEdits(D, E)` returns exactly `D`. -/
theorem applyTargetedEdits_no_edits (upper : Nat → JSString) (D : JSString) (E : JSValue)
    (hSec : ∀ xs, getProp E (utf16 "section_edits") = .ok (.arr xs) → xs = [])
    (hSkill : ∀ reqs, getProp E (utf16 "skill_additions") = .ok (.arr reqs) →
      ∀ r ∈ reqs, ∀ l, getProp r (utf16 "skills_to_emphasize") = .ok (.arr l) → l = []) :
    applyTargetedEdits upper D E = .ok D := by
  unfold applyTargetedEdits
  by_cases hg : (!truthy E || !typeofObject E) = true
  · rw [if_pos hg]; rfl
  · rw [if_neg hg]
    have ht : truthy E = true := by
      cases h : truthy E <;> simp [h] at hg ⊢
    obtain ⟨v1, hv1⟩ := getProp_of_truthy (utf16 "section_edits") ht
    obtain ⟨v2, hv2⟩ := getProp_of_truthy (utf16 "skill_additions") ht
    have e1 : arrayOrEmpty v1 = [] := by
      cases v1 <;> simp [arrayOrEmpty]
      exact hSec _ hv1
    have e2 : someM hasEmphasis (arrayOrEmpty v2) = .ok false := by
      apply someM_hasEmphasis_eq_false
      cases v2 <;> simp [arrayOrEmpty]
      exact hSkill _ hv2
    simp [hv1, hv2, e1, e2, bind, Except.bind, pure, Except.pure]

theorem applyTargetedEdits_no_edits_witness :
    applyTargetedEdits upperASCII (utf16 "\\documentclass")
      (.obj [(utf16 "section_edits", .arr []),
        (utf16 "skill_additions", .arr [.obj [(utf16 "skills_to_emphasize", .arr [])]])]) =
      .ok (utf16 "\\documentclass") :=
  applyTargetedEdits_no_edits upperASCII _ _
    (by intro xs h; simp [getProp, lookup] at h; exact h)
    (by
      intro reqs h r hr l hl
      have hk : utf16 "section_edits" ≠ utf16 "skill_additions" := by decide
      simp only [getProp, lookup, if_neg hk, if_true, Except.ok.injEq, JSValue.arr.injEq] at h
      subst h
      simp only [List.mem_singleton] at hr
      subst hr
      simp only [getProp, lookup, if_true, Except.ok.injEq, JSValue.arr.injEq] at hl
      exact hl.symm)
theorem startsWith_iff (s p : JSString) : startsWith s p = true ↔ p <+: s := by
  induction s generalizing p with
  | nil => cases p <;> simp [startsWith]
  | cons c s ih =>
    cases p with
    | nil => simp [startsWith]
    | cons d p =>
      simp only [startsWith, Bool.and_eq_true, beq_iff_eq, ih, List.cons_prefix_cons]
      constructor
      · rintro ⟨h1, h2⟩; exact ⟨h1.symm, h2⟩
      · rintro ⟨h1, h2⟩; exact ⟨h1.symm, h2⟩

theorem includes_iff (s p : JSString) : includes s p = true ↔ p <:+: s := by
  induction s with
  | nil => cases p <;> simp [includes, startsWith]
  | cons c s ih =>
    simp only [includes, Bool.or_eq_true, startsWith_iff, ih, List.infix_cons_iff]

theorem editCondition_ok (e : JSValue) : ∃ b, editCondition e = .ok b := by
  unfold editCondition
  by_cases ht : truthy e = true
  · obtain ⟨o, ho⟩ := getProp_of_truthy (utf16 "original_text") ht
    obtain ⟨n, hn⟩ := getProp_of_truthy (utf16 "new_text") ht
    rw [if_pos ht, ho, hn]
    exact ⟨_, rfl⟩
  · rw [if_neg ht]; exact ⟨_, rfl⟩

theorem applySectionEdit_of_condition_false (upper : Nat → JSString) (cv : JSString)
    (e : JSValue) (i : Nat) (h : editCondition e = .ok false) :
    applySectionEdit upper cv e i = .ok cv := by
  simp [applySectionEdit, h, bind, Except.bind, pure, Except.pure]

theorem applySectionEdits_unchanged (upper : Nat → JSString) (cv : JSString)
    (es : List JSValue) (i : Nat)
    (h : ∀ e ∈ es, ∀ j, applySectionEdit upper cv e j = .ok cv) :
    applySectionEdits upper cv es i = .ok cv := by
  induction es generalizing i with
  | nil => rfl
  | cons e rest ih =>
    have h1 := h e (List.mem_cons_self _ _) i
    have h2 := ih (i + 1) (fun e he => h e (List.mem_cons_of_mem _ he))
    simp [applySectionEdits, h1, h2, bind, Except.bind]

theorem someM_hasEmphasis_ok (reqs : List JSValue) : ∃ b, someM hasEmphasis reqs = .ok b := by
  induction reqs with
  | nil => exact ⟨_, rfl⟩
  | cons r rest ih =>
    have h1 : ∃ b, hasEmphasis r = .ok b := by
      unfold hasEmphasis
      by_cases ht : truthy r = true
      · obtain ⟨w, hw⟩ := getProp_of_truthy (utf16 "skills_to_emphasize") ht
        rw [if_pos ht, hw]; exact ⟨_, rfl⟩
      · rw [if_neg ht]; exact ⟨_, rfl⟩
    obtain ⟨b, hb⟩ := h1
    obtain ⟨b2, hb2⟩ := ih
    cases b <;> simp [someM, hb, hb2, bind, Except.bind, pure, Except.pure]

/-- The engine on an edit set whose section edits are `es` and whose skill requests are none:
when every edit leaves the document as it is, so does the engine. -/
theorem applyTargetedEdits_of_unchanged (upper : Nat → JSString) (D : JSString) (E : JSValue)
    (hSkill : ∀ reqs, getProp E (utf16 "skill_additions") = .ok (.arr reqs) → reqs = [])
    (h : ∀ xs, getProp E (utf16 "section_edits") = .ok (.arr xs) →
      ∀ e ∈ xs, ∀ j, applySectionEdit upper D e j = .ok D) :
    applyTargetedEdits upper D E = .ok D := by
  unfold applyTargetedEdits
  by_cases hg : (!truthy E || !typeofObject E) = true
  · rw [if_pos hg]; rfl
  · rw [if_neg hg]
    have ht : truthy E = true := by
      cases h : truthy E <;> simp [h] at hg ⊢
    obtain ⟨v1, hv1⟩ := getProp_of_truthy (utf16 "section_edits") ht
    obtain ⟨v2, hv2⟩ := getProp_of_truthy (utf16 "skill_additions") ht
    have e2 : arrayOrEmpty v2 = [] := by
      cases v2 <;> simp [arrayOrEmpty]
      exact hSkill _ hv2
    have e1 : applySectionEdits upper D (arrayOrEmpty v1) 0 = .ok D := by
      apply applySectionEdits_unchanged
      cases v1 <;> simp [arrayOrEmpty]
      exact h _ hv1
    simp only [hv1, hv2, e2, e1, bind, Except.bind, pure, Except.pure, someM, applySkillEdits]
    split_ifs <;> rfl

/-- C2. An edit set whose section edits all have `original_text` equal to `new_text`, and
which has no skill-emphasis request, leaves every document unchanged. -/
theorem applyTargetedEdits_identical_pairs (upper : Nat → JSString) (D : JSString)
    (E : JSValue)
    (hEdits : ∀ xs, getProp E (utf16 "section_edits") = .ok (.arr xs) → ∀ e ∈ xs,
      ∃ t, getProp e (utf16 "original_text") = .ok (.str t) ∧
        getProp e (utf16 "new_text") = .ok (.str t))
    (hSkill : ∀ reqs, getProp E (utf16 "skill_additions") = .ok (.arr reqs) → reqs = []) :
    applyTargetedEdits upper D E = .ok D := by
  apply applyTargetedEdits_of_unchanged upper D E hSkill
  intro xs hxs e he j
  obtain ⟨t, ho, hn⟩ := hEdits xs hxs e he
  apply applySectionEdit_of_condition_false
  unfold editCondition
  split_ifs
  · simp [ho, hn, strictNotEquals, bind, Except.bind, pure, Except.pure]
  · rfl

theorem applyTargetedEdits_identical_pairs_witness :
    applyTargetedEdits upperASCII (utf16 "Python and Java")
      (.obj [(utf16 "section_edits", .arr [.obj [(utf16 "section", .str (utf16 "skills")),
        (utf16 "original_text", .str (utf16 "Java")),
        (utf16 "new_text", .str (utf16 "Java"))]])]) = .ok (utf16 "Python and Java") :=
  applyTargetedEdits_identical_pairs upperASCII _ _
    (by
      intro xs h e he
      simp only [getProp, lookup, if_true, Except.ok.injEq, JSValue.arr.injEq] at h
      subst h
      simp only [List.mem_singleton] at he
      subst he
      exact ⟨utf16 "Java", rfl, rfl⟩)
    (by
      intro reqs h
      have hk : utf16 "section_edits" ≠ utf16 "skill_additions" := by decide
      simp [getProp, lookup, if_neg hk] at h)

/-- C3. A section edit whose `original_text` is not a substring of the current document
leaves the document exactly as it is (at every list index); in particular the engine returns
`D` for an edit set that consists of one such edit. -/
theorem applySectionEdit_absent_original (upper : Nat → JSString) (D : JSString)
    (e : JSValue)
    (hAbsent : ∀ t, getProp e (utf16 "original_text") = .ok (.str t) → ¬ t <:+: D) :
    (∀ i, applySectionEdit upper D e i = .ok D) ∧
    ∀ E, getProp E (utf16 "section_edits") = .ok (.arr [e]) →
      (∀ reqs, getProp E (utf16 "skill_additions") = .ok (.arr reqs) → reqs = []) →
      applyTargetedEdits upper D E = .ok D := by
  have key : ∀ i, applySectionEdit upper D e i = .ok D := by
    intro i
    unfold applySectionEdit
    obtain ⟨b, hb⟩ := editCondition_ok e
    cases b
    · simp [hb, bind, Except.bind, pure, Except.pure]
    · simp only [hb, bind, Except.bind, pure, Except.pure, if_true]
      congr 1
      unfold sectionEditTry sectionEditReplace
      cases ho : getProp e (utf16 "original_text") with
      | error err => simp [bind, Except.bind]
      | ok o =>
        cases o with
        | str t =>
          have hinc : includes D t = false := by
            cases h : includes D t
            · rfl
            · exact absurd ((includes_iff D t).1 h) (hAbsent t ho)
          simp only [bind, Except.bind, hinc]
          cases newRegExp (escapeRegExp t) false <;> simp [pure, Except.pure]
        | _ => simp [bind, Except.bind, throw, throwThe, MonadExceptOf.throw]
  refine ⟨key, ?_⟩
  intro E hE hSkill
  apply applyTargetedEdits_of_unchanged upper D E hSkill
  intro xs hxs e2 he2 j
  rw [hE] at hxs
  simp only [Except.ok.injEq, JSValue.arr.injEq] at hxs
  subst hxs
  simp only [List.mem_singleton] at he2
  subst he2
  exact key j

theorem applySectionEdit_absent_original_witness :
    (∀ i, applySectionEdit upperASCII (utf16 "Python and Java")
      (.obj [(utf16 "section", .str (utf16 "skills")),
        (utf16 "original_text", .str (utf16 "Rust")),
        (utf16 "new_text", .str (utf16 "Go"))]) i = .ok (utf16 "Python and Java")) ∧
    ∀ E, getProp E (utf16 "section_edits") = .ok (.arr [.obj [(utf16 "section", .str (utf16 "skills")),
        (utf16 "original_text", .str (utf16 "Rust")),
        (utf16 "new_text", .str (utf16 "Go"))]]) →
      (∀ reqs, getProp E (utf16 "skill_additions") = .ok (.arr reqs) → reqs = []) →
      applyTargetedEdits upperASCII (utf16 "Python and Java") E = .ok (utf16 "Python and Java") :=
  applySectionEdit_absent_original upperASCII _ _
    (by
      intro t h
      have hk : utf16 "section" ≠ utf16 "original_text" := by decide
      simp only [getProp, lookup, if_neg hk, if_true, Except.ok.injEq, JSValue.str.injEq] at h
      subst h
      rw [← includes_iff]
      decide)
/-- C4 (code evaluated at the failing input). The document `A` with the single section edit
`{section: "s", original_text: "A", new_text: "$$x$$"}` becomes `$x$ % source: s_0`: the
`$$` of the replacement text is read as a substitution pattern, so the text put in the
document is not the literal `new_text`. -/
theorem applyTargetedEdits_dollar_new_text :
    applyTargetedEdits upperASCII (utf16 "A")
      (.obj [(utf16 "section_edits", .arr [.obj [(utf16 "section", .str (utf16 "s")),
        (utf16 "original_text", .str (utf16 "A")),
        (utf16 "new_text", .str (utf16 "$$x$$"))]])]) = .ok (utf16 "$x$ % source: s_0") ∧
    utf16 "$x$ % source: s_0" ≠ utf16 "$$x$$ % source: s_0" := by
  decide

/-- C5 (the example as the specification states it fails). The engine does not return
`B % source: x_0 % source: edits_0` for the document `A % source: x_0` and the edit of `A`
to `B` in section `edits`. -/
theorem applyTargetedEdits_marker_example_refuted :
    applyTargetedEdits upperASCII (utf16 "A % source: x_0")
      (.obj [(utf16 "section_edits", .arr [.obj [(utf16 "section", .str (utf16 "edits")),
        (utf16 "original_text", .str (utf16 "A")),
        (utf16 "new_text", .str (utf16 "B"))]])]) ≠
      .ok (utf16 "B % source: x_0 % source: edits_0") := by
  decide

/-- C5 (amended). For the document `A % source: x_0` and the single section edit at index 0
with section `edits`, original text `A` and new text `B`, the engine returns
`B % source: edits_0 % source: x_0`: the marker directly follows the replacement text. -/
theorem applyTargetedEdits_marker_example (upper : Nat → JSString) :
    applyTargetedEdits upper (utf16 "A % source: x_0")
      (.obj [(utf16 "section_edits", .arr [.obj [(utf16 "section", .str (utf16 "edits")),
        (utf16 "original_text", .str (utf16 "A")),
        (utf16 "new_text", .str (utf16 "B"))]])]) =
      .ok (utf16 "B % source: edits_0 % source: x_0") := by
  rfl
/-! ## The engine never throws -/

theorem applySectionEdit_ok (upper : Nat → JSString) (cv : JSString) (e : JSValue) (i : Nat) :
    ∃ cv2, applySectionEdit upper cv e i = .ok cv2 := by
  obtain ⟨b, hb⟩ := editCondition_ok e
  cases b <;> simp [applySectionEdit, hb, bind, Except.bind, pure, Except.pure]

theorem applySectionEdits_ok (upper : Nat → JSString) (cv : JSString) (es : List JSValue)
    (i : Nat) : ∃ cv2, applySectionEdits upper cv es i = .ok cv2 := by
  induction es generalizing cv i with
  | nil => exact ⟨cv, rfl⟩
  | cons e rest ih =>
    obtain ⟨cv1, h1⟩ := applySectionEdit_ok upper cv e i
    obtain ⟨cv2, h2⟩ := ih cv1 (i + 1)
    exact ⟨cv2, by simp [applySectionEdits, h1, h2, bind, Except.bind]⟩

theorem applySkillEdit_ok (upper : Nat → JSString) (cv : JSString) (r : JSValue) :
    ∃ cv2, applySkillEdit upper cv r = .ok cv2 := by
  unfold applySkillEdit
  by_cases ht : truthy r = true
  · obtain ⟨l, hl⟩ := getProp_of_truthy (utf16 "skills_to_emphasize") ht
    rw [if_pos ht, hl]
    simp only [bind, Except.bind]
    split_ifs <;> exact ⟨_, rfl⟩
  · rw [if_neg ht]; exact ⟨_, rfl⟩

theorem applySkillEdits_ok (upper : Nat → JSString) (cv : JSString) (rs : List JSValue) :
    ∃ cv2, applySkillEdits upper cv rs = .ok cv2 := by
  induction rs generalizing cv with
  | nil => exact ⟨cv, rfl⟩
  | cons r rest ih =>
    obtain ⟨cv1, h1⟩ := applySkillEdit_ok upper cv r
    obtain ⟨cv2, h2⟩ := ih cv1
    exact ⟨cv2, by simp [applySkillEdits, h1, h2, bind, Except.bind]⟩

/-- The engine returns a document text for every document and every edit-set value. -/
theorem applyTargetedEdits_ok (upper : Nat → JSString) (D : JSString) (E : JSValue) :
    ∃ D2, applyTargetedEdits upper D E = .ok D2 := by
  unfold applyTargetedEdits
  by_cases hg : (!truthy E || !typeofObject E) = true
  · rw [if_pos hg]; exact ⟨D, rfl⟩
  · rw [if_neg hg]
    have ht : truthy E = true := by
      cases h : truthy E <;> simp [h] at hg ⊢
    obtain ⟨v1, hv1⟩ := getProp_of_truthy (utf16 "section_edits") ht
    obtain ⟨v2, hv2⟩ := getProp_of_truthy (utf16 "skill_additions") ht
    obtain ⟨b, hb⟩ := someM_hasEmphasis_ok (arrayOrEmpty v2)
    obtain ⟨cv1, h1⟩ := applySectionEdits_ok upper D (arrayOrEmpty v1) 0
    obtain ⟨cv2, h2⟩ := applySkillEdits_ok upper cv1 (arrayOrEmpty v2)
    simp only [hv1, hv2, hb, h1, h2, bind, Except.bind, pure, Except.pure]
    split_ifs
    · exact ⟨D, rfl⟩
    · exact ⟨cv2, rfl⟩

/-- C7 (code evaluated at the failing input). The engine returns a document text for every
input, but an edit can both change the document and end in a caught exception: for the
document `A` and the edit `{section: "s", original_text: "A", new_text: "B",
justification: {toString: 1}}` the `try` block is left by a TypeError (the log line cannot
print the justification) after `modifiedCV` has become `B % source: s_0`, which is what the
engine returns. -/
theorem sectionEditTry_error_after_change :
    (∀ (upper : Nat → JSString) (D : JSString) (E : JSValue),
      ∃ D2, applyTargetedEdits upper D E = .ok D2) ∧
    sectionEditTry upperASCII (utf16 "A")
      (.obj [(utf16 "section", .str (utf16 "s")),
        (utf16 "original_text", .str (utf16 "A")),
        (utf16 "new_text", .str (utf16 "B")),
        (utf16 "justification", .obj [(utf16 "toString", .num (utf16 "1"))])]) 0 =
      (utf16 "B % source: s_0", .error .typeError) ∧
    applyTargetedEdits upperASCII (utf16 "A")
      (.obj [(utf16 "section_edits", .arr [.obj [(utf16 "section", .str (utf16 "s")),
        (utf16 "original_text", .str (utf16 "A")),
        (utf16 "new_text", .str (utf16 "B")),
        (utf16 "justification", .obj [(utf16 "toString", .num (utf16 "1"))])]])]) =
      .ok (utf16 "B % source: s_0") :=
  ⟨applyTargetedEdits_ok, by decide, by decide⟩

/-! ## Patterns built from escaped text -/

theorem parsePattern_cons_char (c : Nat) (rest : JSString) (h92 : c ≠ 92)
    (hc : isSyntaxChar c = false) :
    parsePattern (c :: rest) = (parsePattern rest).map (fun as => Atom.char c :: as) := by
  rw [parsePattern.eq_def]
  simp [h92, hc]

theorem parsePattern_cons_escape (d : Nat) (rest : JSString) (hd : isSyntaxChar d = true) :
    parsePattern (92 :: d :: rest) = (parsePattern rest).map (fun as => Atom.char d :: as) := by
  have hb : d ≠ 98 := by
    intro h; rw [h] at hd; exact absurd hd (by decide)
  rw [parsePattern.eq_def]
  simp [hb, hd]

theorem parsePattern_cons_boundary (rest : JSString) :
    parsePattern (92 :: 98 :: rest) =
      (parsePattern rest).map (fun as => Atom.wordBoundary :: as) := by
  rw [parsePattern.eq_def]
  simp

/-- Escaping makes the pattern literal: the pattern `escapeRegExp s` followed by `t` parses
as the characters of `s` followed by the terms of `t`. -/
theorem parsePattern_escapeRegExp_append (s t : JSString) :
    parsePattern (escapeRegExp s ++ t) =
      (parsePattern t).map (fun as => s.map Atom.char ++ as) := by
  induction s with
  | nil => simp [escapeRegExp]
  | cons c s ih =>
    by_cases hc : isSyntaxChar c = true
    · simp only [escapeRegExp, if_pos hc, List.cons_append]
      rw [parsePattern_cons_escape c _ hc, ih, Option.map_map]
      rfl
    · have h92 : c ≠ 92 := by
        intro h; rw [h] at hc; exact hc (by decide)
      simp only [escapeRegExp, if_neg hc, List.cons_append]
      rw [parsePattern_cons_char c _ h92 (by simpa using hc), ih, Option.map_map]
      rfl

theorem parsePattern_escapeRegExp (s : JSString) :
    parsePattern (escapeRegExp s) = some (s.map Atom.char) := by
  have h := parsePattern_escapeRegExp_append s []
  simpa [parsePattern] using h

/-- The regular expression of a section edit matches the original text literally. -/
theorem newRegExp_escapeRegExp (s : JSString) :
    newRegExp (escapeRegExp s) false = .ok { atoms := s.map Atom.char, ignoreCase := false } := by
  simp [newRegExp, parsePattern_escapeRegExp]

/-- The regular expression of a skill name: a word boundary, the characters of the name, a
word boundary. -/
theorem newRegExp_skill (s : JSString) :
    newRegExp (utf16 "\\b" ++ escapeRegExp s ++ utf16 "\\b") true =
      .ok { atoms := Atom.wordBoundary :: (s.map Atom.char ++ [Atom.wordBoundary]),
            ignoreCase := true } := by
  have h1 : utf16 "\\b" = [92, 98] := by decide
  have h2 : parsePattern [92, 98] = some [Atom.wordBoundary] := by decide
  rw [h1]
  simp only [newRegExp, List.cons_append, List.nil_append, List.append_assoc]
  rw [parsePattern_cons_boundary, parsePattern_escapeRegExp_append, h2]
  rfl

/-! ## Replacement texts without `$` -/

theorem getSubstitution_of_no_dollar (matched pre post t : JSString) (h : 36 ∉ t) :
    getSubstitution matched pre post t = t := by
  induction t with
  | nil => rfl
  | cons c t ih =>
    have hc : c ≠ 36 := fun hc => h (hc ▸ List.mem_cons_self _ _)
    have ht : 36 ∉ t := fun ht => h (List.mem_cons_of_mem _ ht)
    rw [getSubstitution.eq_def]
    simp [hc, ih ht]

/-- When the regular expression matches somewhere ahead, the result of the replacement
contains the replacement text (a text without `$`). -/
theorem infix_replaceFrom_of_hasMatchFrom (upper : Nat → JSString) (re : RegExp)
    (t : JSString) (ht : 36 ∉ t) (pre rest : JSString)
    (h : hasMatchFrom upper re pre rest = true) :
    t <:+: replaceFrom upper re t pre rest 0 := by
  induction rest generalizing pre with
  | nil =>
    simp only [hasMatchFrom] at h
    simp only [replaceFrom]
    cases hm : matchAtoms upper re.ignoreCase re.atoms pre.getLast? [] with
    | none => simp [hm] at h
    | some n =>
      simp only [getSubstitution_of_no_dollar _ _ _ t ht]
      exact List.infix_refl t
  | cons c rest ih =>
    simp only [hasMatchFrom, Bool.or_eq_true] at h
    simp only [replaceFrom]
    cases hm : matchAtoms upper re.ignoreCase re.atoms pre.getLast? (c :: rest) with
    | some n =>
      simp only [getSubstitution_of_no_dollar _ _ _ t ht]
      exact (List.prefix_append t _).isInfix
    | none =>
      simp only [hm, Option.isSome_none, Bool.false_eq_true, false_or] at h
      obtain ⟨a, b, hab⟩ := ih (pre ++ [c]) h
      exact ⟨c :: a, b, by simp [← hab]⟩

/-! ## Skill emphasis -/

theorem emphasizeTry_eq (upper : Nat → JSString) (cv s : JSString) :
    emphasizeTry upper cv s =
      .ok (if hasMatch upper (skillRegExp s) cv && !includes cv (emphasisText s) then
        replaceAll upper (skillRegExp s) cv (emphasisText s) else cv) := by
  unfold emphasizeTry
  rw [newRegExp_skill]
  simp only [bind, Except.bind, skillRegExp]
  split_ifs <;> rfl

theorem emphasisText_no_dollar (s : JSString) (h : 36 ∉ s) : 36 ∉ emphasisText s := by
  have h1 : 36 ∉ utf16 "\\textbf\x7b" := by decide
  have h2 : 36 ∉ utf16 "\x7d" := by decide
  simp only [emphasisText, List.mem_append, not_or]
  exact ⟨⟨h1, h⟩, h2⟩

/-- Emphasis of one skill name without `$`, applied twice, gives what one application
gives. -/
theorem emphasizeSkill_idempotent (upper : Nat → JSString) (cv s : JSString) (h : 36 ∉ s) :
    emphasizeSkill upper (emphasizeSkill upper cv (.str s)) (.str s) =
      emphasizeSkill upper cv (.str s) := by
  simp only [emphasizeSkill, emphasizeTry_eq]
  by_cases ht : truthy (.str s) = true
  · simp only [if_pos ht]
    by_cases hc : (hasMatch upper (skillRegExp s) cv && !includes cv (emphasisText s)) = true
    · simp only [if_pos hc]
      have hm : hasMatch upper (skillRegExp s) cv = true := by
        simp only [Bool.and_eq_true] at hc; exact hc.1
      have hinc : includes (replaceAll upper (skillRegExp s) cv (emphasisText s))
          (emphasisText s) = true := by
        rw [includes_iff]
        exact infix_replaceFrom_of_hasMatchFrom upper _ _ (emphasisText_no_dollar s h) [] cv hm
      simp [hinc]
    · simp only [if_neg hc]
  · simp only [if_neg ht]

/-- The engine on an edit set without section edits whose only skill request names the
single skill `s`. -/
theorem applyTargetedEdits_single_skill (upper : Nat → JSString) (D : JSString) (E r : JSValue)
    (s : JSString)
    (hSec : ∀ xs, getProp E (utf16 "section_edits") = .ok (.arr xs) → xs = [])
    (hReq : getProp E (utf16 "skill_additions") = .ok (.arr [r]))
    (hSkill : getProp r (utf16 "skills_to_emphasize") = .ok (.arr [.str s])) :
    applyTargetedEdits upper D E = .ok (emphasizeSkill upper D (.str s)) := by
  have hk : utf16 "skill_additions" ≠ utf16 "length" := by decide
  have hk2 : utf16 "skills_to_emphasize" ≠ utf16 "length" := by decide
  have hE : truthy E = true ∧ typeofObject E = true := by
    cases E <;> simp [getProp, hk] at hReq <;> simp [truthy, typeofObject]
  have hr : truthy r = true := by
    cases r <;> simp [getProp, hk2] at hSkill <;> simp [truthy]
  obtain ⟨v1, hv1⟩ := getProp_of_truthy (utf16 "section_edits") hE.1
  have e1 : arrayOrEmpty v1 = [] := by
    cases v1 <;> simp [arrayOrEmpty]
    exact hSec _ hv1
  have htl : truthy (JSValue.arr [JSValue.str s]) = true := rfl
  have e2 : hasEmphasis r = .ok true := by
    simp [hasEmphasis, hr, hSkill, htl, isArray, arrayOrEmpty, bind, Except.bind, pure,
      Except.pure]
  unfold applyTargetedEdits
  have ea : arrayOrEmpty (JSValue.arr [r]) = [r] := rfl
  have eb : arrayOrEmpty (JSValue.arr [JSValue.str s]) = [JSValue.str s] := rfl
  simp [hE.1, hE.2, hv1, e1, hReq, ea, eb, someM, e2, applySectionEdits, applySkillEdits,
    applySkillEdit, hr, hSkill, htl, isArray, bind, Except.bind, pure, Except.pure]

/-- C6 (the claim as stated fails). With the skill list `["textbf", "x"]` the document `x`
becomes `\textbf{x}`; applying the same request to that result changes it again. -/
theorem applyTargetedEdits_emphasis_not_idempotent :
    applyTargetedEdits upperASCII (utf16 "x")
      (.obj [(utf16 "skill_additions", .arr [.obj [(utf16 "skills_to_emphasize",
        .arr [.str (utf16 "textbf"), .str (utf16 "x")])]])]) =
      .ok (utf16 "\\textbf\x7bx\x7d") ∧
    applyTargetedEdits upperASCII (utf16 "\\textbf\x7bx\x7d")
      (.obj [(utf16 "skill_additions", .arr [.obj [(utf16 "skills_to_emphasize",
        .arr [.str (utf16 "textbf"), .str (utf16 "x")])]])]) =
      .ok (utf16 "\\\\textbf\x7btextbf\x7d\x7b\\textbf\x7bx\x7d\x7d") ∧
    utf16 "\\\\textbf\x7btextbf\x7d\x7b\\textbf\x7bx\x7d\x7d" ≠ utf16 "\\textbf\x7bx\x7d" := by
  decide

/-- C6 (amended). Emphasis of a single skill name that contains no `$` is idempotent: for
every document `D` and every edit set `E` without section edits whose only skill request
names the single skill `s`, applying `E` to `applyTargetedEdits(D, E)` returns it unchanged. -/
theorem applyTargetedEdits_emphasis_idempotent (upper : Nat → JSString) (D : JSString)
    (E r : JSValue) (s : JSString)
    (hSec : ∀ xs, getProp E (utf16 "section_edits") = .ok (.arr xs) → xs = [])
    (hReq : getProp E (utf16 "skill_additions") = .ok (.arr [r]))
    (hSkill : getProp r (utf16 "skills_to_emphasize") = .ok (.arr [.str s]))
    (hDollar : 36 ∉ s) :
    ∃ D1, applyTargetedEdits upper D E = .ok D1 ∧ applyTargetedEdits upper D1 E = .ok D1 := by
  refine ⟨emphasizeSkill upper D (.str s), ?_, ?_⟩
  · exact applyTargetedEdits_single_skill upper D E r s hSec hReq hSkill
  · rw [applyTargetedEdits_single_skill upper _ E r s hSec hReq hSkill,
      emphasizeSkill_idempotent upper D s hDollar]

theorem applyTargetedEdits_emphasis_idempotent_witness :
    ∃ D1, applyTargetedEdits upperASCII (utf16 "I know java and Java.")
        (.obj [(utf16 "skill_additions", .arr [.obj [(utf16 "skills_to_emphasize",
          .arr [.str (utf16 "Java")])]])]) = .ok D1 ∧
      applyTargetedEdits upperASCII D1
        (.obj [(utf16 "skill_additions", .arr [.obj [(utf16 "skills_to_emphasize",
          .arr [.str (utf16 "Java")])]])]) = .ok D1 :=
  applyTargetedEdits_emphasis_idempotent upperASCII _ _
    (.obj [(utf16 "skills_to_emphasize", .arr [.str (utf16 "Java")])]) (utf16 "Java")
    (by
      intro xs h
      have hk : utf16 "skill_additions" ≠ utf16 "section_edits" := by decide
      simp [getProp, lookup, if_neg hk] at h)
    rfl rfl (by decide)

/-! ## Envelope markers -/

theorem canonicalize_caseSensitive (upper : Nat → JSString) (c : Nat) :
    canonicalize upper false c = c := by
  simp [canonicalize]

/-- A match of a literal pattern is an occurrence of the text at the position. -/
theorem matchAtoms_chars (upper : Nat → JSString) (o : JSString) (prev : Option Nat)
    (rest : JSString) (n : Nat)
    (h : matchAtoms upper false (o.map Atom.char) prev rest = some n) :
    n = o.length ∧ o <+: rest := by
  induction o generalizing prev rest n with
  | nil =>
    simp only [List.map_nil, matchAtoms, Option.some.injEq] at h
    exact ⟨h.symm, List.nil_prefix⟩
  | cons c o ih =>
    cases rest with
    | nil => simp [matchAtoms] at h
    | cons x r =>
      simp only [List.map_cons, matchAtoms, canonicalize_caseSensitive] at h
      by_cases hcx : c = x
      · rw [if_pos hcx] at h
        cases hm : matchAtoms upper false (o.map Atom.char) (some x) r with
        | none => simp [hm] at h
        | some m =>
          simp only [hm, Option.map_some', Option.some.injEq] at h
          obtain ⟨h1, h2⟩ := ih (some x) r m hm
          refine ⟨by simp [← h, h1], ?_⟩
          rw [hcx]
          exact List.cons_prefix_cons.2 ⟨rfl, h2⟩
      · rw [if_neg hcx] at h
        exact absurd h (by simp)

theorem replaceFrom_cons_skip (upper : Nat → JSString) (re : RegExp) (t pre rest : JSString)
    (c k : Nat) :
    replaceFrom upper re t pre (c :: rest) (k + 1) = replaceFrom upper re t (pre ++ [c]) rest k := by
  simp only [replaceFrom]

theorem replaceFrom_cons_none (upper : Nat → JSString) (re : RegExp) (t pre rest : JSString)
    (c : Nat) (h : matchAtoms upper re.ignoreCase re.atoms pre.getLast? (c :: rest) = none) :
    replaceFrom upper re t pre (c :: rest) 0 =
      c :: replaceFrom upper re t (pre ++ [c]) rest 0 := by
  simp only [replaceFrom, h]

theorem replaceFrom_cons_some (upper : Nat → JSString) (re : RegExp) (t pre rest : JSString)
    (c n : Nat) (h : matchAtoms upper re.ignoreCase re.atoms pre.getLast? (c :: rest) = some n)
    (hn : n ≠ 0) :
    replaceFrom upper re t pre (c :: rest) 0 =
      getSubstitution ((c :: rest).take n) pre ((c :: rest).drop n) t ++
        replaceFrom upper re t (pre ++ [c]) rest (n - 1) := by
  simp only [replaceFrom, h, if_neg hn]

/-- The scan copies a stretch of input in which the literal pattern has no occurrence that
starts there. -/
theorem replaceFrom_copy (upper : Nat → JSString) (o t : JSString) (M B pre : JSString)
    (hM : ∀ X Y, M ++ B = X ++ o ++ Y → M.length ≤ X.length) :
    replaceFrom upper { atoms := o.map Atom.char, ignoreCase := false } t pre (M ++ B) 0 =
      M ++ replaceFrom upper { atoms := o.map Atom.char, ignoreCase := false } t (pre ++ M) B
        0 := by
  induction M generalizing pre with
  | nil => simp
  | cons c M ih =>
    have hnone : matchAtoms upper false (o.map Atom.char) pre.getLast? (c :: (M ++ B)) =
        none := by
      cases hm : matchAtoms upper false (o.map Atom.char) pre.getLast? (c :: (M ++ B)) with
      | none => rfl
      | some n =>
        obtain ⟨Y, hY⟩ := (matchAtoms_chars upper o _ _ n hm).2
        have := hM [] Y (by simp [hY])
        simp at this
    have ih2 := ih (pre ++ [c]) (by
      intro X Y hXY
      have := hM (c :: X) Y (by simp [hXY])
      simpa using this)
    rw [List.cons_append, replaceFrom_cons_none upper _ t pre (M ++ B) c hnone, ih2]
    simp

/-- The scan keeps a stretch `M` of the input that no occurrence of the literal pattern
overlaps: the result contains `M`. -/
theorem infix_replaceFrom_of_apart (upper : Nat → JSString) (o t : JSString)
    (A M B pre : JSString) (skip : Nat) (hskip : skip ≤ A.length) (ho : o ≠ [])
    (hApart : ∀ X Y, A ++ M ++ B = X ++ o ++ Y →
      X.length + o.length ≤ A.length ∨ A.length + M.length ≤ X.length) :
    M <:+: replaceFrom upper { atoms := o.map Atom.char, ignoreCase := false } t pre
      (A ++ M ++ B) skip := by
  induction A generalizing pre skip with
  | nil =>
    have hs : skip = 0 := by simpa using hskip
    subst hs
    have hlen : 0 < o.length := List.length_pos.2 ho
    rw [List.nil_append, replaceFrom_copy upper o t M B pre (by
      intro X Y hXY
      have := hApart X Y (by simpa using hXY)
      simp only [List.length_nil, Nat.le_zero_eq, Nat.add_eq_zero, zero_add] at this
      rcases this with h | h
      · omega
      · exact h)]
    exact (List.prefix_append M _).isInfix
  | cons c A ih =>
    have hA : ∀ X Y, A ++ M ++ B = X ++ o ++ Y →
        X.length + o.length ≤ A.length ∨ A.length + M.length ≤ X.length := by
      intro X Y hXY
      have := hApart (c :: X) Y (by simp [hXY])
      simp only [List.length_cons] at this
      omega
    have hcons : c :: A ++ M ++ B = c :: (A ++ M ++ B) := by simp
    rw [hcons]
    cases skip with
    | succ k =>
      rw [replaceFrom_cons_skip]
      exact ih (pre ++ [c]) k (by simpa using hskip) hA
    | zero =>
      cases hm : matchAtoms upper false (o.map Atom.char) pre.getLast?
          (c :: (A ++ M ++ B)) with
      | none =>
        rw [replaceFrom_cons_none upper _ t pre _ c hm]
        obtain ⟨X, Y, hXY⟩ := ih (pre ++ [c]) 0 (Nat.zero_le _) hA
        exact ⟨c :: X, Y, by rw [← hXY]; simp⟩
      | some n =>
        obtain ⟨hn, Y, hY⟩ := matchAtoms_chars upper o _ _ n hm
        have hlen : 0 < o.length := List.length_pos.2 ho
        have := hApart [] Y (by simp [hY])
        simp only [List.length_nil, zero_add, List.length_cons] at this
        have hle : n - 1 ≤ A.length := by omega
        have hn0 : n ≠ 0 := by omega
        rw [replaceFrom_cons_some upper _ t pre _ c n hm hn0]
        obtain ⟨X, Z, hXZ⟩ := ih (pre ++ [c]) (n - 1) hle hA
        exact ⟨getSubstitution ((c :: (A ++ M ++ B)).take n) pre ((c :: (A ++ M ++ B)).drop n) t ++ X,
          Z, by rw [← hXZ]; simp⟩

theorem original_ne_nil_of_editCondition (e : JSValue) (t : JSString)
    (hc : editCondition e = .ok true)
    (ho : getProp e (utf16 "original_text") = .ok (.str t)) : t ≠ [] := by
  intro ht
  subst ht
  unfold editCondition at hc
  by_cases hte : truthy e = true
  · obtain ⟨n, hn⟩ := getProp_of_truthy (utf16 "new_text") hte
    rw [if_pos hte, ho, hn] at hc
    simp [bind, Except.bind, pure, Except.pure, truthy] at hc
  · rw [if_neg hte] at hc
    simp [pure, Except.pure] at hc

/-- One section edit keeps a stretch `M` of the document that no occurrence of its original
text overlaps. -/
theorem applySectionEdit_keeps (upper : Nat → JSString) (A M B : JSString) (e : JSValue)
    (i : Nat)
    (hApart : ∀ o X Y, getProp e (utf16 "original_text") = .ok (.str o) →
      A ++ M ++ B = X ++ o ++ Y →
      X.length + o.length ≤ A.length ∨ A.length + M.length ≤ X.length) :
    ∃ D2, applySectionEdit upper (A ++ M ++ B) e i = .ok D2 ∧ M <:+: D2 := by
  have hD : M <:+: A ++ M ++ B := ⟨A, B, rfl⟩
  obtain ⟨b, hb⟩ := editCondition_ok e
  cases b
  · exact ⟨_, applySectionEdit_of_condition_false upper _ e i hb, hD⟩
  · refine ⟨(sectionEditTry upper (A ++ M ++ B) e i).1, ?_, ?_⟩
    · simp [applySectionEdit, hb, bind, Except.bind, pure, Except.pure]
    · unfold sectionEditTry sectionEditReplace
      cases ho : getProp e (utf16 "original_text") with
      | error err => simpa [bind, Except.bind] using hD
      | ok o =>
        cases o with
        | str t =>
          have ht := original_ne_nil_of_editCondition e t hb ho
          simp only [bind, Except.bind, newRegExp_escapeRegExp]
          by_cases hinc : includes (A ++ M ++ B) t = true
          · simp only [if_pos hinc]
            cases replacementText e i with
            | error err => simpa [pure, Except.pure] using hD
            | ok repl =>
              simp only [pure, Except.pure, replaceAll]
              exact infix_replaceFrom_of_apart upper t repl A M B [] 0 (Nat.zero_le _) ht
                (fun X Y h => hApart t X Y ho h)
          · simp only [if_neg hinc]
            simpa [pure, Except.pure] using hD
        | _ => simpa [bind, Except.bind, throw, throwThe, MonadExceptOf.throw] using hD

/-- The engine on an edit set made of one section edit and no skill request. -/
theorem applyTargetedEdits_single_edit (upper : Nat → JSString) (D : JSString) (E e : JSValue)
    (hE : getProp E (utf16 "section_edits") = .ok (.arr [e]))
    (hSkill : ∀ reqs, getProp E (utf16 "skill_additions") = .ok (.arr reqs) → reqs = []) :
    applyTargetedEdits upper D E = applySectionEdit upper D e 0 := by
  have hk : utf16 "section_edits" ≠ utf16 "length" := by decide
  have hT : truthy E = true ∧ typeofObject E = true := by
    cases E <;> simp [getProp, hk] at hE <;> simp [truthy, typeofObject]
  obtain ⟨v2, hv2⟩ := getProp_of_truthy (utf16 "skill_additions") hT.1
  have e2 : arrayOrEmpty v2 = [] := by
    cases v2 <;> simp [arrayOrEmpty]
    exact hSkill _ hv2
  have ea : arrayOrEmpty (JSValue.arr [e]) = [e] := rfl
  obtain ⟨cv, hcv⟩ := applySectionEdit_ok upper D e 0
  unfold applyTargetedEdits
  simp [hT.1, hT.2, hE, hv2, e2, ea, someM, applySectionEdits, applySkillEdits, hcv, bind,
    Except.bind, pure, Except.pure]

/-- C8 (the claim as stated fails). The document `\documentclass\begin{document}` contains
both envelope markers; after the section edit that replaces `\documentclass` by `x` the
result no longer contains `\documentclass`. -/
theorem applyTargetedEdits_removes_marker :
    includes (utf16 "\\documentclass\\begin\x7bdocument\x7d") (utf16 "\\documentclass") = true ∧
    includes (utf16 "\\documentclass\\begin\x7bdocument\x7d")
      (utf16 "\\begin\x7bdocument\x7d") = true ∧
    applyTargetedEdits upperASCII (utf16 "\\documentclass\\begin\x7bdocument\x7d")
      (.obj [(utf16 "section_edits", .arr [.obj [(utf16 "section", .str (utf16 "s")),
        (utf16 "original_text", .str (utf16 "\\documentclass")),
        (utf16 "new_text", .str (utf16 "x"))]])]) =
      .ok (utf16 "x % source: s_0\\begin\x7bdocument\x7d") ∧
    includes (utf16 "x % source: s_0\\begin\x7bdocument\x7d") (utf16 "\\documentclass") =
      false := by
  decide

theorem occurrence_of_split (D X o Y : JSString) (h : D = X ++ o ++ Y) :
    X.length ≤ D.length ∧ startsWith (D.drop X.length) o = true := by
  subst h
  refine ⟨by simp, ?_⟩
  rw [startsWith_iff, List.append_assoc, List.drop_left]
  exact List.prefix_append o Y

/-- C8 (amended). A section edit keeps the envelope markers it does not touch: when the
document contains `\documentclass` (after `A1`) and `\begin{document}` (after `A2`), the edit
set consists of one section edit and no skill request, and no occurrence of the edit's
original text in the document (at any position `i`) overlaps either of these two marker
occurrences, the result of `applyTargetedEdits` still contains both markers. -/
theorem applyTargetedEdits_keeps_markers (upper : Nat → JSString) (D A1 B1 A2 B2 : JSString)
    (E e : JSValue)
    (h1 : D = A1 ++ utf16 "\\documentclass" ++ B1)
    (h2 : D = A2 ++ utf16 "\\begin\x7bdocument\x7d" ++ B2)
    (hE : getProp E (utf16 "section_edits") = .ok (.arr [e]))
    (hSkill : ∀ reqs, getProp E (utf16 "skill_additions") = .ok (.arr reqs) → reqs = [])
    (hApart : ∀ o, getProp e (utf16 "original_text") = .ok (.str o) →
      ∀ i, i ≤ D.length → startsWith (D.drop i) o = true →
        (i + o.length ≤ A1.length ∨ A1.length + (utf16 "\\documentclass").length ≤ i) ∧
        (i + o.length ≤ A2.length ∨
          A2.length + (utf16 "\\begin\x7bdocument\x7d").length ≤ i)) :
    ∃ D2, applyTargetedEdits upper D E = .ok D2 ∧
      includes D2 (utf16 "\\documentclass") = true ∧
      includes D2 (utf16 "\\begin\x7bdocument\x7d") = true := by
  rw [applyTargetedEdits_single_edit upper D E e hE hSkill]
  obtain ⟨D2, hD2, hM1⟩ := applySectionEdit_keeps upper A1 _ B1 e 0
    (fun o X Y ho h =>
      (hApart o ho X.length (occurrence_of_split D X o Y (h1.trans h)).1
        (occurrence_of_split D X o Y (h1.trans h)).2).1)
  obtain ⟨D3, hD3, hM2⟩ := applySectionEdit_keeps upper A2 _ B2 e 0
    (fun o X Y ho h =>
      (hApart o ho X.length (occurrence_of_split D X o Y (h2.trans h)).1
        (occurrence_of_split D X o Y (h2.trans h)).2).2)
  rw [← h1] at hD2
  rw [← h2] at hD3
  have : D3 = D2 := by
    rw [hD2] at hD3
    exact (Except.ok.inj hD3).symm
  subst this
  exact ⟨D3, hD2, (includes_iff _ _).2 hM1, (includes_iff _ _).2 hM2⟩

theorem applyTargetedEdits_keeps_markers_witness :
    ∃ D2, applyTargetedEdits upperASCII (utf16 "\\documentclass\\begin\x7bdocument\x7dJava")
        (.obj [(utf16 "section_edits", .arr [.obj [(utf16 "section", .str (utf16 "skills")),
          (utf16 "original_text", .str (utf16 "Java")),
          (utf16 "new_text", .str (utf16 "Go"))]])]) = .ok D2 ∧
      includes D2 (utf16 "\\documentclass") = true ∧
      includes D2 (utf16 "\\begin\x7bdocument\x7d") = true :=
  applyTargetedEdits_keeps_markers upperASCII _ [] (utf16 "\\begin\x7bdocument\x7dJava")
    (utf16 "\\documentclass") (utf16 "Java") _
    (.obj [(utf16 "section", .str (utf16 "skills")),
          (utf16 "original_text", .str (utf16 "Java")),
          (utf16 "new_text", .str (utf16 "Go"))])
    (by decide) (by decide) rfl
    (by
      intro reqs h
      have hk : utf16 "section_edits" ≠ utf16 "skill_additions" := by decide
      simp [getProp, lookup, if_neg hk] at h)
    (by
      intro o ho
      have hk : utf16 "section" ≠ utf16 "original_text" := by decide
      simp only [getProp, lookup, if_neg hk, if_true, Except.ok.injEq, JSValue.str.injEq] at ho
      subst ho
      decide)

set_option maxRecDepth 100000 in
theorem jsonSpan_payload9 : jsonSpan payload9 = .ok payload9 := by decide

theorem generateTargetedEdits_payload9 (rt : Runtime)
    (h : rt.jsonParse payload9 = some record9) :
    generateTargetedEdits rt (.ok payload9) = .ok record9 := by
  simp only [generateTargetedEdits, generateTargetedEditsTry, extractJSON, jsonSpan_payload9, bind,
    Except.bind, h, pure, Except.pure]
  rfl

theorem targetedEditsStep_payload9 (rt : Runtime)
    (h : rt.jsonParse payload9 = some record9) :
    targetedEditsStep rt (.obj []) (.ok payload9) = record9 := by
  have h1 : getProp (JSValue.obj []) (utf16 "editing_mode") = .ok .undefined := rfl
  have h2 : truthy JSValue.undefined = false := rfl
  have h3 : strictNotEquals (JSValue.str (utf16 "conservative")) (.str (utf16 "none")) = true := by
    decide
  simp only [targetedEditsStep, h1, h2, h3, bind, Except.bind, generateTargetedEdits_payload9 rt h]
  rfl

theorem changeLogStep_record9 (rt : Runtime) (e : JSError) (gap : JSValue) :
    changeLogStep rt (.error e) record9 gap = .error .typeError := rfl

/-- C9 (code evaluated at the failing input). The edit proposal holds one edit that removes
`\documentclass` and one edit whose `section` is the record `{toString: 1}`; every other call
to the service fails. The tailored document then lacks a marker, but the run does not end
with the error `Generated CV is not valid LaTeX`: the fallback of step 5 throws a TypeError
before the check of step 6 is reached. -/
theorem optimizeCV_fallback_throws_before_check (rt : Runtime) (e : JSError)
    (h : rt.jsonParse payload9 = some record9) :
    validLatex (tailoredStep rt (utf16 "\\documentclass\\begin\x7bdocument\x7d")
      (targetedEditsStep rt (.obj []) (.ok payload9))) = false ∧
    optimizeCV rt (utf16 "\\documentclass\\begin\x7bdocument\x7d") (utf16 "x") .undefined
      (replies9 e) =
      .serverError (utf16 "CV optimization failed") .typeError := by
  constructor
  · rw [targetedEditsStep_payload9 rt h]
    rfl
  · have hjd : (utf16 "x").isEmpty = false := rfl
    have hs : optimizeSteps rt (utf16 "\\documentclass\\begin\x7bdocument\x7d") (utf16 "x")
        (.obj []) (replies9 e) = .error .typeError := by
      unfold optimizeSteps replies9
      dsimp only
      rw [targetedEditsStep_payload9 rt h, changeLogStep_record9]
      rfl
    unfold optimizeCV
    rw [hjd]
    dsimp only
    rw [hs]
    rfl

theorem runtime9_jsonParse : runtime9.jsonParse payload9 = some record9 := by
  simp [runtime9]

theorem optimizeCV_fallback_throws_before_check_witness :
    validLatex (tailoredStep runtime9 (utf16 "\\documentclass\\begin\x7bdocument\x7d")
      (targetedEditsStep runtime9 (.obj []) (.ok payload9))) = false ∧
    optimizeCV runtime9
      (utf16 "\\documentclass\\begin\x7bdocument\x7d") (utf16 "x") .undefined
      (replies9 .typeError) =
      .serverError (utf16 "CV optimization failed") .typeError :=
  optimizeCV_fallback_throws_before_check runtime9 .typeError runtime9_jsonParse

/-! ## The optimize pipeline -/

theorem applyTargetedEdits_emptyEdits (upper : Nat → JSString) (D : JSString) :
    applyTargetedEdits upper D emptyEdits = .ok D := rfl

theorem tailoredStep_emptyEdits (rt : Runtime) (template : JSString) :
    tailoredStep rt template emptyEdits = template := rfl

theorem targetedEditsStep_of_failed (rt : Runtime) (preferences : JSValue) (e : JSError) :
    targetedEditsStep rt preferences (.error e) = emptyEdits := by
  unfold targetedEditsStep
  cases getProp preferences (utf16 "editing_mode") with
  | error err => rfl
  | ok mode =>
    simp only [bind, Except.bind]
    split_ifs <;> rfl

theorem isEmpty_eq_false {jd : JSString} (h : jd ≠ []) : jd.isEmpty = false := by
  cases jd with
  | nil => exact absurd rfl h
  | cons c s => rfl

/-- C10 (code evaluated at the failing input). Every stage fails except the change-log stage,
whose response `{}` parses to a record without a `summary`: the template is valid, yet the
run is aborted by a TypeError (reading `changeLog.summary.keywords_added`), which is neither
the result record nor the structural-validity error. -/
theorem optimizeCV_changeLog_without_summary (rt : Runtime) (template jobDescription : JSString)
    (preferences : JSValue) (e : JSError)
    (hjd : jobDescription ≠ [])
    (hT : validLatex template = true)
    (h : rt.jsonParse (utf16 "\x7b\x7d") = some (.obj [])) :
    optimizeCV rt template jobDescription preferences (replies10 e) =
      .serverError (utf16 "CV optimization failed") .typeError := by
  have hspan : jsonSpan (utf16 "\x7b\x7d") = .ok (utf16 "\x7b\x7d") := by decide
  have hlog : ∀ a b, changeLogStep rt (.ok (utf16 "\x7b\x7d")) a b = .ok (.obj []) := by
    intro a b
    simp only [changeLogStep, generateChangeLog, extractJSON, hspan, h, bind, Except.bind, pure,
      Except.pure]
  have hs : ∀ p, optimizeSteps rt template jobDescription p (replies10 e) =
      .error .typeError := by
    intro p
    unfold optimizeSteps replies10
    dsimp only
    rw [targetedEditsStep_of_failed, tailoredStep_emptyEdits, hlog]
    simp only [bind, Except.bind, hT]
    rfl
  unfold optimizeCV
  rw [isEmpty_eq_false hjd]
  simp only [hs]
  rfl

theorem optimizeCV_changeLog_without_summary_witness :
    optimizeCV runtime10 (utf16 "\\documentclass\\begin\x7bdocument\x7d")
      (utf16 "Python developer") .undefined (replies10 .typeError) =
      .serverError (utf16 "CV optimization failed") .typeError :=
  optimizeCV_changeLog_without_summary runtime10 _ _ _ _ (by decide) (by decide)
    (by simp [runtime10])

theorem optimizeCV_of_steps (rt : Runtime) (template jobDescription : JSString)
    (preferences : JSValue) (r : Replies) (body : JSValue) (hjd : jobDescription ≠ [])
    (h : ∀ p, optimizeSteps rt template jobDescription p r = .ok body) :
    optimizeCV rt template jobDescription preferences r = .success body := by
  unfold optimizeCV
  rw [isEmpty_eq_false hjd]
  simp only [h]
  rfl

/-- C11. When every call to the generation service fails, the pipeline succeeds for every
non-empty job description (the template holding both envelope markers, as
`DEFAULT_CV_TEMPLATE` does): the edit set is empty, the tailored document is the template
itself, the edits-applied count is 0 and every stage result is the fallback of that stage. -/
theorem optimizeCV_all_calls_fail (rt : Runtime) (template jobDescription : JSString)
    (preferences : JSValue) (e : JSError)
    (hjd : jobDescription ≠ [])
    (hT : validLatex template = true) :
    optimizeCV rt template jobDescription preferences (repliesFailed e) =
      .success (.obj [(utf16 "success", .bool true),
        (utf16 "results", .obj [
          (utf16 "job_parsed", fallbackJobData rt jobDescription),
          (utf16 "cv_parsed", fallbackCVData),
          (utf16 "gap_analysis", fallbackGapAnalysis),
          (utf16 "targeted_edits", emptyEdits),
          (utf16 "tailored_cv", .str template),
          (utf16 "change_log", .obj [(utf16 "changes", .arr []),
            (utf16 "summary", .obj [
              (utf16 "keywords_added", strs ["Python", "Machine Learning", "JavaScript"]),
              (utf16 "keywords_missing", strs ["Docker", "Kubernetes"]),
              (utf16 "questions_for_user", .arr []),
              (utf16 "relevance_improvement", .str (utf16
                "CV was optimized using targeted edits to preserve LaTeX structure"))])]),
          (utf16 "summary", .obj [
            (utf16 "keywords_added", strs ["Python", "Machine Learning", "JavaScript"]),
            (utf16 "keywords_missing", strs ["Docker", "Kubernetes"]),
            (utf16 "questions_for_user", .arr []),
            (utf16 "relevance_improvement", .str (utf16
              "CV was optimized using targeted edits to preserve LaTeX structure")),
            (utf16 "edits_applied", .num (utf16 "0"))])])]) := by
  apply optimizeCV_of_steps rt template jobDescription preferences _ _ hjd
  intro p
  unfold optimizeSteps repliesFailed
  dsimp only
  rw [targetedEditsStep_of_failed, tailoredStep_emptyEdits]
  have hlog : changeLogStep rt (.error e) emptyEdits (gapAnalysisStep rt (.error e)) =
      .ok (.obj [(utf16 "changes", .arr []),
          (utf16 "summary", .obj [
            (utf16 "keywords_added", strs ["Python", "Machine Learning", "JavaScript"]),
            (utf16 "keywords_missing", strs ["Docker", "Kubernetes"]),
            (utf16 "questions_for_user", .arr []),
            (utf16 "relevance_improvement", .str (utf16
              "CV was optimized using targeted edits to preserve LaTeX structure"))])]) := rfl
  rw [hlog]
  simp only [bind, Except.bind, hT]
  rfl

theorem optimizeCV_all_calls_fail_witness :
    optimizeCV runtime10 (utf16 "\\documentclass\\begin\x7bdocument\x7d")
      (utf16 "Python developer") .undefined (repliesFailed .typeError) =
      .success (.obj [(utf16 "success", .bool true),
        (utf16 "results", .obj [
          (utf16 "job_parsed", fallbackJobData runtime10 (utf16 "Python developer")),
          (utf16 "cv_parsed", fallbackCVData),
          (utf16 "gap_analysis", fallbackGapAnalysis),
          (utf16 "targeted_edits", emptyEdits),
          (utf16 "tailored_cv", .str (utf16 "\\documentclass\\begin\x7bdocument\x7d")),
          (utf16 "change_log", .obj [(utf16 "changes", .arr []),
            (utf16 "summary", .obj [
              (utf16 "keywords_added", strs ["Python", "Machine Learning", "JavaScript"]),
              (utf16 "keywords_missing", strs ["Docker", "Kubernetes"]),
              (utf16 "questions_for_user", .arr []),
              (utf16 "relevance_improvement", .str (utf16
                "CV was optimized using targeted edits to preserve LaTeX structure"))])]),
          (utf16 "summary", .obj [
            (utf16 "keywords_added", strs ["Python", "Machine Learning", "JavaScript"]),
            (utf16 "keywords_missing", strs ["Docker", "Kubernetes"]),
            (utf16 "questions_for_user", .arr []),
            (utf16 "relevance_improvement", .str (utf16
              "CV was optimized using targeted edits to preserve LaTeX structure")),
            (utf16 "edits_applied", .num (utf16 "0"))])])]) :=
  optimizeCV_all_calls_fail runtime10 _ _ _ _ (by decide) (by decide)

/-! ## Shape validation and extraction -/

/-- C13 (code evaluated at the failing input). For the expected kind `object` the validator
accepts `null` and a list: `validateLLMResponse({a: null}, {a: 'object'})` and
`validateLLMResponse({a: []}, {a: 'object'})` are both `true`; and a list is accepted as the
response of an empty expected structure. -/
theorem validateLLMResponse_accepts_null :
    validateLLMResponse (.obj [(utf16 "a", .null)]) [(utf16 "a", utf16 "object")] = .ok true ∧
    validateLLMResponse (.obj [(utf16 "a", .arr [])]) [(utf16 "a", utf16 "object")] =
      .ok true ∧
    validateLLMResponse (.arr []) [] = .ok true := by
  decide

/-- C15 (code evaluated at the failing input). In the response `}1{` the last `}` comes
before the first `{`: both index checks pass, `substring(2, 1)` swaps its arguments and
gives `1`, which parses. The throwing variants return the number 1 instead of failing, and
the change-log variant returns it instead of its default record. -/
theorem parseJobDescription_reversed_braces (rt : Runtime)
    (h : rt.jsonParse (utf16 "1") = some (.num (utf16 "1"))) :
    jsonSpan (utf16 "\x7d1\x7b") = .ok (utf16 "1") ∧
    parseJobDescription rt (.ok (utf16 "\x7d1\x7b")) = .ok (.num (utf16 "1")) ∧
    parseCVContent rt (.ok (utf16 "\x7d1\x7b")) = .ok (.num (utf16 "1")) ∧
    performGapAnalysis rt (.ok (utf16 "\x7d1\x7b")) = .ok (.num (utf16 "1")) ∧
    generateChangeLog rt (.ok (utf16 "\x7d1\x7b")) = .ok (.num (utf16 "1")) := by
  have hspan : jsonSpan (utf16 "\x7d1\x7b") = .ok (utf16 "1") := by decide
  refine ⟨hspan, ?_, ?_, ?_, ?_⟩ <;>
    simp only [parseJobDescription, parseCVContent, performGapAnalysis, generateChangeLog,
      extractJSON, hspan, h, bind, Except.bind, pure, Except.pure]

theorem parseJobDescription_reversed_braces_witness :
    jsonSpan (utf16 "\x7d1\x7b") = .ok (utf16 "1") ∧
    parseJobDescription runtime15 (.ok (utf16 "\x7d1\x7b")) = .ok (.num (utf16 "1")) ∧
    parseCVContent runtime15 (.ok (utf16 "\x7d1\x7b")) = .ok (.num (utf16 "1")) ∧
    performGapAnalysis runtime15 (.ok (utf16 "\x7d1\x7b")) = .ok (.num (utf16 "1")) ∧
    generateChangeLog runtime15 (.ok (utf16 "\x7d1\x7b")) = .ok (.num (utf16 "1")) :=
  parseJobDescription_reversed_braces runtime15 (by simp [runtime15])

theorem dropWhile_append_cons (p : Nat → Bool) (A R : JSString) (c : Nat) (hc : p c = false) :
    (A ++ c :: R).dropWhile p = A.dropWhile p ++ c :: R := by
  induction A with
  | nil => simp [List.dropWhile, hc]
  | cons a A ih =>
    by_cases ha : p a = true
    · simp [List.dropWhile, ha, ih]
    · simp [List.dropWhile, ha]

theorem not_mem_dropWhile (p : Nat → Bool) (A : JSString) (c : Nat) (h : c ∉ A) :
    c ∉ A.dropWhile p :=
  fun hc => h ((List.dropWhile_sublist p).subset hc)

/-- The function `trim` removes nothing from a stretch that begins and ends with a code unit that is not
white space. -/
theorem trim_append (A P B : JSString) (c d : Nat) (P1 : JSString)
    (hP : P = c :: P1) (P0 : JSString) (hP0 : P = P0 ++ [d])
    (hc : isWhiteSpace c = false) (hd : isWhiteSpace d = false) :
    trim (A ++ P ++ B) =
      A.dropWhile isWhiteSpace ++ P ++ (B.reverse.dropWhile isWhiteSpace).reverse := by
  unfold trim
  have h1 : (A ++ P ++ B).dropWhile isWhiteSpace = A.dropWhile isWhiteSpace ++ P ++ B := by
    rw [hP, List.append_assoc, List.cons_append, dropWhile_append_cons _ _ _ _ hc]
    simp
  rw [h1]
  have h2 : (A.dropWhile isWhiteSpace ++ P ++ B).reverse =
      B.reverse ++ d :: (P0.reverse ++ (A.dropWhile isWhiteSpace).reverse) := by
    rw [hP0]; simp
  rw [h2, dropWhile_append_cons _ _ _ _ hd]
  rw [hP0]
  simp

theorem indexOf_cons (c x : Nat) (s : JSString) :
    indexOf c (x :: s) =
      if x = c then 0 else if indexOf c s = -1 then -1 else indexOf c s + 1 := rfl

theorem lastIndexOf_cons (c x : Nat) (s : JSString) :
    lastIndexOf c (x :: s) =
      if lastIndexOf c s = -1 then (if x = c then 0 else -1) else lastIndexOf c s + 1 := rfl

theorem indexOf_eq_neg_one (c : Nat) (s : JSString) (h : c ∉ s) : indexOf c s = -1 := by
  induction s with
  | nil => rfl
  | cons x s ih =>
    have hx : x ≠ c := fun hx => h (hx ▸ List.mem_cons_self _ _)
    have hs : c ∉ s := fun hs => h (List.mem_cons_of_mem _ hs)
    simp [indexOf, hx, ih hs]

theorem indexOf_append_cons (c : Nat) (A R : JSString) (h : c ∉ A) :
    indexOf c (A ++ c :: R) = A.length := by
  induction A with
  | nil => simp [indexOf]
  | cons x A ih =>
    have hx : x ≠ c := fun hx => h (hx ▸ List.mem_cons_self _ _)
    have hs : c ∉ A := fun hs => h (List.mem_cons_of_mem _ hs)
    have hne : ¬ ((A.length : Int) = -1) := by omega
    rw [List.cons_append, indexOf_cons, if_neg hx, ih hs, if_neg hne, List.length_cons]
    push_cast; ring

theorem lastIndexOf_eq_neg_one (c : Nat) (s : JSString) (h : c ∉ s) : lastIndexOf c s = -1 := by
  induction s with
  | nil => rfl
  | cons x s ih =>
    have hx : x ≠ c := fun hx => h (hx ▸ List.mem_cons_self _ _)
    have hs : c ∉ s := fun hs => h (List.mem_cons_of_mem _ hs)
    simp [lastIndexOf, hx, ih hs]

theorem lastIndexOf_append_cons (c : Nat) (X B : JSString) (h : c ∉ B) :
    lastIndexOf c (X ++ c :: B) = X.length := by
  induction X with
  | nil => simp [lastIndexOf, lastIndexOf_eq_neg_one c B h]
  | cons x X ih =>
    have hne : ¬ ((X.length : Int) = -1) := by omega
    rw [List.cons_append, lastIndexOf_cons, ih, if_neg hne, List.length_cons]
    push_cast; ring

theorem substring_middle (A P B : JSString) :
    substring (A ++ P ++ B) (A.length : Int) ((A.length + P.length : Nat) : Int) = P := by
  unfold substring
  simp only [Int.toNat_ofNat, List.length_append]
  have h1 : min A.length (A.length + P.length + B.length) = A.length := by omega
  have h2 : min (A.length + P.length) (A.length + P.length + B.length) =
      A.length + P.length := by omega
  have h3 : min A.length (A.length + P.length) = A.length := by omega
  have h4 : max A.length (A.length + P.length) - A.length = P.length := by omega
  rw [h1, h2, h3, h4, List.append_assoc, List.drop_left, List.take_left]

/-- The span of a response that holds a payload `P` (a text from `{` to `}`) after a text
without `{` and before a text without `}` is `P`. -/
theorem jsonSpan_payload (A P B P1 P0 : JSString) (hP : P = 123 :: P1) (hP0 : P = P0 ++ [125])
    (hA : 123 ∉ A) (hB : 125 ∉ B) :
    jsonSpan (A ++ P ++ B) = .ok P := by
  unfold jsonSpan
  rw [trim_append A P B 123 125 P1 hP P0 hP0 (by decide) (by decide)]
  have hA2 := not_mem_dropWhile isWhiteSpace A 123 hA
  have hB2 : 125 ∉ (B.reverse.dropWhile isWhiteSpace).reverse := by
    intro hmem
    rw [List.mem_reverse] at hmem
    exact not_mem_dropWhile isWhiteSpace B.reverse 125 (by simpa using hB) hmem
  generalize A.dropWhile isWhiteSpace = A2 at hA2 ⊢
  generalize (B.reverse.dropWhile isWhiteSpace).reverse = B2 at hB2 ⊢
  have hi : indexOf 123 (A2 ++ P ++ B2) = A2.length := by
    rw [hP, List.append_assoc, List.cons_append, indexOf_append_cons 123 A2 _ hA2]
  have hl : lastIndexOf 125 (A2 ++ P ++ B2) = (A2 ++ P0).length := by
    rw [hP0]
    have : A2 ++ (P0 ++ [125]) ++ B2 = (A2 ++ P0) ++ 125 :: B2 := by simp
    rw [this, lastIndexOf_append_cons 125 _ _ hB2]
  have hlen : P.length = P0.length + 1 := by rw [hP0]; simp
  have hend : ((A2 ++ P0).length : Int) + 1 = ((A2.length + P.length : Nat) : Int) := by
    rw [hlen]; simp; ring
  simp only [hi, hl, hend]
  have hc1 : ((A2.length : Int) = -1) = False := by
    simp only [eq_iff_iff, iff_false]; omega
  have hc2 : (((A2.length + P.length : Nat) : Int) = 0) = False := by
    simp only [eq_iff_iff, iff_false]; omega
  simp only [hc1, hc2, decide_False, Bool.or_self, Bool.false_eq_true, if_false]
  rw [substring_middle]
  rfl

/-- C14 (the claim as stated fails). With the text `Note {draft}: ` before the payload
`{"a":1}` the span starts at the first `{` of the text before the payload, so the span is
not the payload. -/
theorem jsonSpan_brace_before_payload :
    jsonSpan (utf16 "Note \x7bdraft\x7d: " ++ utf16 "\x7b\"a\":1\x7d" ++ utf16 "") =
      .ok (utf16 "\x7bdraft\x7d: \x7b\"a\":1\x7d") ∧
    utf16 "\x7bdraft\x7d: \x7b\"a\":1\x7d" ≠ utf16 "\x7b\"a\":1\x7d" := by
  decide

/-- C14 (amended). For every payload `P` that starts with `{` and ends with `}`, every text
`A` without `{` placed before it and every text `B` without `}` placed after it, the
extraction step applied to `A ++ P ++ B` selects exactly `P` as the span, so the parsed
record is the parse of `P`. -/
theorem extractJSON_payload (rt : Runtime) (A P B P1 P0 : JSString) (hP : P = 123 :: P1)
    (hP0 : P = P0 ++ [125]) (hA : 123 ∉ A) (hB : 125 ∉ B) :
    jsonSpan (A ++ P ++ B) = .ok P ∧ extractJSON rt (A ++ P ++ B) = extractJSON rt P := by
  have h1 := jsonSpan_payload A P B P1 P0 hP hP0 hA hB
  have h2 := jsonSpan_payload [] P [] P1 P0 hP hP0 (by simp) (by simp)
  simp only [List.nil_append, List.append_nil] at h2
  exact ⟨h1, by simp only [extractJSON, h1, h2]⟩

theorem extractJSON_payload_witness :
    jsonSpan (utf16 "Here is the record: " ++ utf16 "\x7b\"a\":1\x7d" ++ utf16 " Thanks.") =
      .ok (utf16 "\x7b\"a\":1\x7d") ∧
    extractJSON runtime10
      (utf16 "Here is the record: " ++ utf16 "\x7b\"a\":1\x7d" ++ utf16 " Thanks.") =
      extractJSON runtime10 (utf16 "\x7b\"a\":1\x7d") :=
  extractJSON_payload runtime10 _ _ _ (utf16 "\"a\":1\x7d") (utf16 "\x7b\"a\":1")
    (by decide) (by decide) (by decide) (by decide)

/-! ## The filter of the edit proposal -/

theorem lookup_setProp_same (key : JSString) (v : JSValue) (f : List (JSString × JSValue)) :
    lookup key (setProp key v f) = v := by
  induction f with
  | nil => simp [setProp, lookup]
  | cons kv rest ih =>
    obtain ⟨k, w⟩ := kv
    by_cases hk : k = key
    · simp [setProp, lookup, hk]
    · simp [setProp, lookup, hk, ih]

theorem lookup_setProp_ne (key key2 : JSString) (v : JSValue) (f : List (JSString × JSValue))
    (h : key ≠ key2) : lookup key (setProp key2 v f) = lookup key f := by
  induction f with
  | nil => simp [setProp, lookup, Ne.symm h]
  | cons kv rest ih =>
    obtain ⟨k, w⟩ := kv
    by_cases hk : k = key2
    · have hk2 : k ≠ key := fun hh => h (hh ▸ hk)
      simp [setProp, lookup, hk, Ne.symm h]
    · by_cases hk3 : k = key
      · subst hk3
        simp [setProp, lookup, h]
      · simp [setProp, lookup, hk, hk3, ih]

/-- On an edit whose justification is a text (or is absent or falsy), the filter of the
source keeps exactly what the specification says. -/
theorem keepEdit_eq_spec (rt : Runtime) (e : JSValue)
    (hTyped : ∀ j, getProp e (utf16 "justification") = .ok j →
      (∃ t, j = .str t) ∨ truthy j = false) :
    keepEdit rt e = .ok (specKeepsEdit e) := by
  unfold keepEdit specKeepsEdit
  by_cases ht : truthy e = true
  · obtain ⟨c, hc⟩ := getProp_of_truthy (utf16 "confidence") ht
    obtain ⟨j, hj⟩ := getProp_of_truthy (utf16 "justification") ht
    rw [if_pos ht, hc, hj]
    simp only [bind, Except.bind, pure, Except.pure]
    congr 1
    rcases hTyped j hj with ⟨t, rfl⟩ | hf
    · cases c <;> simp [strictNotEquals, truthy, lengthExceeds]
      rename_i c
      cases t with
      | nil => simp
      | cons x t =>
        by_cases hh : c = utf16 "HIGH"
        · simp [hh]
        · simp [hh, bne]
    · cases j <;> cases c <;> simp_all [strictNotEquals, truthy, lengthExceeds]
  · rw [if_neg ht]
    have hk1 : utf16 "confidence" ≠ utf16 "length" := by decide
    cases e <;> simp_all [truthy, getProp, pure, Except.pure]

theorem filterArray_keepEdit (rt : Runtime) (edits : List JSValue)
    (hTyped : ∀ e ∈ edits, ∀ j, getProp e (utf16 "justification") = .ok j →
      (∃ t, j = .str t) ∨ truthy j = false) :
    filterArray (keepEdit rt) edits = .ok (edits.filter specKeepsEdit) := by
  induction edits with
  | nil => rfl
  | cons e rest ih =>
    have h1 := keepEdit_eq_spec rt e (hTyped e (List.mem_cons_self _ _))
    have h2 := ih (fun e he => hTyped e (List.mem_cons_of_mem _ he))
    simp only [filterArray, h1, h2, bind, Except.bind, pure, Except.pure, List.filter_cons]

theorem isArray_iff (v : JSValue) : isArray v = true ↔ ∃ a, v = .arr a := by
  cases v <;> simp [isArray]

theorem lookup_of_not_hasOwn (key : JSString) (fields : List (JSString × JSValue))
    (h : hasOwn key fields = false) : lookup key fields = .undefined := by
  induction fields with
  | nil => rfl
  | cons f rest ih =>
    obtain ⟨k, v⟩ := f
    simp only [hasOwn, Bool.or_eq_false_iff, beq_eq_false_iff_ne, ne_eq] at h
    simp only [lookup, if_neg h.1, ih h.2]

/-- One step of the key loop for a key of kind `array` that no prototype has and that is
neither an array index nor `length`. -/
theorem validateKeys_plain_array (key : JSString) (rest : List (JSString × JSString))
    (h1 : key ≠ utf16 "__proto__") (h2 : key ∉ objectPrototypeKeys)
    (h3 : key ∉ arrayPrototypeKeys) (h4 : arrayIndexOf key = none)
    (h5 : key ≠ utf16 "length") :
    (∀ fields, validateKeys (.obj fields) ((key, utf16 "array") :: rest) =
      if isArray (lookup key fields) then validateKeys (.obj fields) rest else .ok false) ∧
    ∀ items, validateKeys (.arr items) ((key, utf16 "array") :: rest) = .ok false := by
  have k2 : (utf16 "array" == utf16 "array") = true := by decide
  have k3 : (utf16 "array" == utf16 "object") = false := by decide
  constructor
  · intro fields
    by_cases ho : hasOwn key fields = true
    · simp only [validateKeys, hasProperty, member, ho, if_true, memberIsArray, k2, k3,
        Bool.true_and, Bool.false_and, Bool.false_eq_true, if_false, Option.isSome_some,
        Bool.not_true, Option.getD_some]
      cases isArray (lookup key fields) <;> rfl
    · have ho2 : hasOwn key fields = false := by simpa using ho
      simp only [validateKeys, hasProperty, member, ho2, Bool.false_eq_true, if_false, h1, h2,
        lookup_of_not_hasOwn key fields ho2, isArray, Option.isSome_none, Bool.not_false,
        if_true]
      rfl
  · intro items
    simp only [validateKeys, hasProperty, member, h4, h5, h1, h2, h3, if_false, or_self,
      Option.isSome_none, Bool.not_false, if_true]
    rfl

/-- The test `key in response` sees the index keys of a list and the inherited keys: the
list `['x']` has the key `0`, which holds a text, and a record has the key `constructor`,
which holds a function and so passes neither for a list nor for a value of type object. -/
theorem validateLLMResponse_index_key :
    validateLLMResponse (.arr [.str (utf16 "x")]) [(utf16 "0", utf16 "string")] = .ok true ∧
    validateLLMResponse (.arr [.str (utf16 "x")]) [(utf16 "1", utf16 "string")] = .ok false ∧
    validateLLMResponse (.obj []) [(utf16 "constructor", utf16 "function")] = .ok true ∧
    validateLLMResponse (.obj []) [(utf16 "constructor", utf16 "object")] = .ok false ∧
    validateLLMResponse (.obj []) [(utf16 "a", utf16 "string")] = .ok false := by
  decide

/-- A response that passes the shape check of the edit proposal is a record whose three
keys hold lists. -/
theorem shape_of_validate (parsed : JSValue)
    (h : validateLLMResponse parsed editsStructure = .ok true) :
    ∃ fields a b c, parsed = .obj fields ∧
      lookup (utf16 "section_edits") fields = .arr a ∧
      lookup (utf16 "skill_additions") fields = .arr b ∧
      lookup (utf16 "project_reordering") fields = .arr c := by
  have s1 := validateKeys_plain_array (utf16 "section_edits")
    [(utf16 "skill_additions", utf16 "array"), (utf16 "project_reordering", utf16 "array")]
    (by decide) (by decide) (by decide) (by decide) (by decide)
  have s2 := validateKeys_plain_array (utf16 "skill_additions")
    [(utf16 "project_reordering", utf16 "array")]
    (by decide) (by decide) (by decide) (by decide) (by decide)
  have s3 := validateKeys_plain_array (utf16 "project_reordering") []
    (by decide) (by decide) (by decide) (by decide) (by decide)
  cases parsed with
  | obj fields =>
    refine ⟨fields, ?_⟩
    simp only [validateLLMResponse, truthy, typeofObject, Bool.not_true, Bool.or_self,
      Bool.false_eq_true, if_false, editsStructure, s1.1, s2.1, s3.1] at h
    by_cases h1 : isArray (lookup (utf16 "section_edits") fields) = true
    · by_cases h2 : isArray (lookup (utf16 "skill_additions") fields) = true
      · by_cases h3 : isArray (lookup (utf16 "project_reordering") fields) = true
        · obtain ⟨a, ha⟩ := (isArray_iff _).1 h1
          obtain ⟨b, hb⟩ := (isArray_iff _).1 h2
          obtain ⟨c, hc⟩ := (isArray_iff _).1 h3
          exact ⟨a, b, c, rfl, ha, hb, hc⟩
        · simp [h1, h2, h3] at h
      · simp [h1, h2] at h
    · simp [h1] at h
  | arr items =>
    simp only [validateLLMResponse, truthy, typeofObject, Bool.not_true, Bool.or_self,
      Bool.false_eq_true, if_false, editsStructure, s1.2] at h
    cases h
  | undefined => simp [validateLLMResponse, truthy, pure, Except.pure] at h
  | null => simp [validateLLMResponse, truthy, pure, Except.pure] at h
  | bool b => simp [validateLLMResponse, typeofObject, pure, Except.pure] at h
  | num t => simp [validateLLMResponse, typeofObject, pure, Except.pure] at h
  | str t => simp [validateLLMResponse, typeofObject, pure, Except.pure] at h

set_option maxRecDepth 100000 in
/-- C12 (the claim as stated fails). The edit of `payload12` has confidence `HIGH` and a
justification that is a list of eleven texts: `generateTargetedEdits` keeps it, although its
justification is not a text longer than 10 characters. -/
theorem generateTargetedEdits_keeps_list_justification :
    generateTargetedEdits runtime12 (.ok payload12) = .ok record12 ∧
    specKeepsEdit edit12 = false := by
  have hspan : jsonSpan payload12 = .ok payload12 := by decide
  have hp : runtime12.jsonParse payload12 = some record12 := by simp [runtime12]
  refine ⟨?_, rfl⟩
  simp only [generateTargetedEdits, generateTargetedEditsTry, extractJSON, hspan, bind,
    Except.bind, hp, pure, Except.pure]
  rfl

/-- C12 (amended). For every response whose payload parses and passes the shape check, and
in which the justification of every section edit is a text (or is absent or falsy),
`generateTargetedEdits` returns as `section_edits` exactly the sub-list, in the original
order, of the parsed section edits whose confidence is `HIGH` and whose justification is
longer than 10 characters. -/
theorem generateTargetedEdits_filters (rt : Runtime) (result : JSString) (parsed : JSValue)
    (hParse : extractJSON rt result = .ok parsed)
    (hShape : validateLLMResponse parsed editsStructure = .ok true)
    (hTyped : ∀ edits, getProp parsed (utf16 "section_edits") = .ok (.arr edits) →
      ∀ e ∈ edits, ∀ j, getProp e (utf16 "justification") = .ok j →
        (∃ t, j = .str t) ∨ truthy j = false) :
    ∃ out edits, getProp parsed (utf16 "section_edits") = .ok (.arr edits) ∧
      generateTargetedEdits rt (.ok result) = .ok out ∧
      getProp out (utf16 "section_edits") = .ok (.arr (edits.filter specKeepsEdit)) := by
  obtain ⟨fields, a, b, c, rfl, ha, hb, hc⟩ := shape_of_validate parsed hShape
  have n1 : utf16 "skill_additions" ≠ utf16 "section_edits" := by decide
  have n2 : utf16 "project_reordering" ≠ utf16 "section_edits" := by decide
  have n3 : utf16 "project_reordering" ≠ utf16 "skill_additions" := by decide
  have hget : getProp (JSValue.obj fields) (utf16 "section_edits") = .ok (.arr a) := by
    simp [getProp, ha]
  have hf := filterArray_keepEdit rt a (hTyped a hget)
  refine ⟨.obj (setProp (utf16 "section_edits") (.arr (a.filter specKeepsEdit))
    (setProp (utf16 "project_reordering") (.arr c) (setProp (utf16 "skill_additions") (.arr b)
      (setProp (utf16 "section_edits") (.arr a) fields)))), a, hget, ?_, ?_⟩
  · simp only [generateTargetedEdits, generateTargetedEditsTry, hParse, hShape, bind,
      Except.bind, pure, Except.pure, Bool.not_true, Bool.false_eq_true, if_false, ha,
      arrayOrEmpty, lookup_setProp_same, lookup_setProp_ne _ _ _ _ n1, lookup_setProp_ne _ _ _ _ n2,
      lookup_setProp_ne _ _ _ _ n3, lookup_setProp_ne _ _ _ _ n1.symm,
      lookup_setProp_ne _ _ _ _ n2.symm, lookup_setProp_ne _ _ _ _ n3.symm, hb, hc, truthy,
      if_true, hf]
  · simp [getProp, lookup_setProp_same]

theorem generateTargetedEdits_filters_witness :
    ∃ out edits, getProp record9 (utf16 "section_edits") = .ok (.arr edits) ∧
      generateTargetedEdits runtime9 (.ok payload9) = .ok out ∧
      getProp out (utf16 "section_edits") = .ok (.arr (edits.filter specKeepsEdit)) :=
  generateTargetedEdits_filters runtime9 payload9 record9
    (by simp only [extractJSON, jsonSpan_payload9, runtime9_jsonParse, bind, Except.bind, pure,
      Except.pure])
    (by rfl)
    (by
      intro edits h e he j hj
      have h0 : getProp record9 (utf16 "section_edits") = .ok (.arr [
          .obj [(utf16 "section", .str (utf16 "s")),
            (utf16 "original_text", .str (utf16 "\\documentclass")),
            (utf16 "new_text", .str (utf16 "x")),
            (utf16 "confidence", .str (utf16 "HIGH")),
            (utf16 "justification", .str (utf16 "keyword from the job"))],
          .obj [(utf16 "section", .obj [(utf16 "toString", .num (utf16 "1"))]),
            (utf16 "original_text", .str (utf16 "q")),
            (utf16 "new_text", .str (utf16 "r")),
            (utf16 "confidence", .str (utf16 "HIGH")),
            (utf16 "justification", .str (utf16 "keyword from the job"))]]) := rfl
      rw [h0] at h
      simp only [Except.ok.injEq, JSValue.arr.injEq] at h
      subst h
      simp only [List.mem_cons, List.mem_singleton, List.not_mem_nil, or_false] at he
      rcases he with rfl | rfl
      · have h1 : getProp (JSValue.obj [(utf16 "section", .str (utf16 "s")),
            (utf16 "original_text", .str (utf16 "\\documentclass")),
            (utf16 "new_text", .str (utf16 "x")),
            (utf16 "confidence", .str (utf16 "HIGH")),
            (utf16 "justification", .str (utf16 "keyword from the job"))])
            (utf16 "justification") = .ok (.str (utf16 "keyword from the job")) := rfl
        rw [h1] at hj
        exact Or.inl ⟨_, (Except.ok.inj hj).symm⟩
      · have h1 : getProp (JSValue.obj [
            (utf16 "section", .obj [(utf16 "toString", .num (utf16 "1"))]),
            (utf16 "original_text", .str (utf16 "q")),
            (utf16 "new_text", .str (utf16 "r")),
            (utf16 "confidence", .str (utf16 "HIGH")),
            (utf16 "justification", .str (utf16 "keyword from the job"))])
            (utf16 "justification") = .ok (.str (utf16 "keyword from the job")) := rfl
        rw [h1] at hj
        exact Or.inl ⟨_, (Except.ok.inj hj).symm⟩)

/-! ## The invocation layer -/

theorem requestsOf_append (a b : List Event) :
    requestsOf (a ++ b) = requestsOf a ++ requestsOf b := by
  induction a with
  | nil => rfl
  | cons e a ih => cases e <;> simp [requestsOf, ih]

theorem nextProvider_mem (q : JSString) (hq : q ∈ providers) : nextProvider q ∈ providers := by
  simp only [providers, List.mem_cons, List.mem_singleton, List.not_mem_nil, or_false] at hq
  rcases hq with rfl | rfl <;> decide

theorem attemptOnce_of_fail (net : Network) (msg : Nat → JSString → JSString) (k : Nat)
    (q : JSString) (hq : q ∈ providers)
    (hCred : ∀ q ∈ providers, ∃ h, net.authorization q = some h ∧ hasBearer h = true)
    (hFail : ∀ k q, net.request k q = .error (msg k q)) :
    attemptOnce net k q = ([Event.request q], .error (msg k q)) := by
  obtain ⟨h, h1, h2⟩ := hCred q hq
  simp [attemptOnce, h1, h2, hFail]

theorem callLLMLoop_all_fail (net : Network) (msg : Nat → JSString → JSString) (M : Nat)
    (hCred : ∀ q ∈ providers, ∃ h, net.authorization q = some h ∧ hasBearer h = true)
    (hFail : ∀ k q, net.request k q = .error (msg k q))
    (remaining attempt : Nat) (cur : JSString) (last : Option JSString) (hcur : cur ∈ providers)
    (hsum : attempt + remaining = M) :
    requestsOf (callLLMLoop net M (remaining + 1) attempt cur last).1 =
        (List.range (remaining + 1)).map (fun k => nextProvider^[k] cur) ∧
      (callLLMLoop net M (remaining + 1) attempt cur last).2 =
        .error (unavailableError M (some (msg M (nextProvider^[remaining] cur)))) := by
  induction remaining generalizing attempt cur last with
  | zero =>
    have ha : ¬ attempt < M := by omega
    have hM : attempt = M := by omega
    simp only [callLLMLoop, attemptOnce_of_fail net msg attempt cur hcur hCred hFail, if_neg ha]
    subst hM
    simp [requestsOf]
  | succ r ih =>
    have ha : attempt < M := by omega
    obtain ⟨h1, h2⟩ := ih (attempt + 1) (nextProvider cur) (some (msg attempt cur))
      (nextProvider_mem cur hcur) (by omega)
    rw [callLLMLoop, attemptOnce_of_fail net msg attempt cur hcur hCred hFail]
    simp only [if_pos ha]
    constructor
    · have e : List.map (fun k => nextProvider^[k] cur) (List.range (r + 1 + 1)) =
          cur :: List.map (fun k => nextProvider^[k] (nextProvider cur))
            (List.range (r + 1)) := by
        rw [List.range_succ_eq_map, List.map_cons, List.map_map]
        rfl
      rw [requestsOf_append, requestsOf_append, h1, e]
      rfl
    · rw [h2, Function.iterate_succ_apply]

/-- C16. When both providers have a usable key and every request fails, `callLLM` with
`maxRetries = m >= 1` makes exactly `m` requests; the provider of the first is the preferred
one and the provider of each later attempt is the round-robin successor of the one before
(with `m = 2`: the preferred provider, then the other one); it then throws an error whose
message is the text `LLM API call failed after `, the decimal digits of `m`, the text
` attempts: ` and the message of the last failed request (`Unknown error` when that message
is empty). -/
theorem callLLM_all_requests_fail (net : Network) (msg : Nat → JSString → JSString)
    (p : JSString) (m : Nat) (hp : p ∈ providers) (hm : 1 ≤ m)
    (hCred : ∀ q ∈ providers, ∃ h, net.authorization q = some h ∧ hasBearer h = true)
    (hFail : ∀ k q, net.request k q = .error (msg k q)) :
    requestsOf (callLLM net p m).1 = (List.range m).map (fun k => nextProvider^[k] p) ∧
    (requestsOf (callLLM net p m).1).length = m ∧
    (m = 2 → requestsOf (callLLM net p m).1 = [p, nextProvider p]) ∧
    (callLLM net p m).2 =
      .error (JSError.error (utf16 "LLM API call failed after " ++ natToString m ++
        utf16 " attempts: " ++
        (if (msg m (nextProvider^[m - 1] p)).isEmpty then utf16 "Unknown error"
          else msg m (nextProvider^[m - 1] p)))) ∧
    nextProvider (utf16 "openrouter") = utf16 "groq" ∧
    nextProvider (utf16 "groq") = utf16 "openrouter" := by
  obtain ⟨r, rfl⟩ : ∃ r, m = r + 1 := ⟨m - 1, by omega⟩
  obtain ⟨h1, h2⟩ := callLLMLoop_all_fail net msg (r + 1) hCred hFail r 1 p none hp (by omega)
  refine ⟨h1, ?_, ?_, ?_, by decide, by decide⟩
  · unfold callLLM; rw [h1]; simp
  · intro h2'
    have hr : r = 1 := by omega
    subst hr
    unfold callLLM; rw [h1]
    simp [List.range_succ]
  · unfold callLLM
    rw [h2]
    simp only [Nat.add_sub_cancel]
    rfl

theorem callLLM_all_requests_fail_witness :
    requestsOf (callLLM networkDown (utf16 "groq") 3).1 =
      (List.range 3).map (fun k => nextProvider^[k] (utf16 "groq")) ∧
    (requestsOf (callLLM networkDown (utf16 "groq") 3).1).length = 3 ∧
    (3 = 2 → requestsOf (callLLM networkDown (utf16 "groq") 3).1 =
      [utf16 "groq", nextProvider (utf16 "groq")]) ∧
    (callLLM networkDown (utf16 "groq") 3).2 =
      .error (JSError.error (utf16 "LLM API call failed after " ++ natToString 3 ++
        utf16 " attempts: " ++
        (if (utf16 "timeout").isEmpty then utf16 "Unknown error" else utf16 "timeout"))) ∧
    nextProvider (utf16 "openrouter") = utf16 "groq" ∧
    nextProvider (utf16 "groq") = utf16 "openrouter" :=
  callLLM_all_requests_fail networkDown (fun _ _ => utf16 "timeout") (utf16 "groq") 3
    (by decide) (by decide)
    (by
      intro q hq
      simp only [providers, List.mem_cons, List.mem_singleton, List.not_mem_nil, or_false] at hq
      rcases hq with rfl | rfl
      · exact ⟨utf16 "Bearer sk_1", by decide, by decide⟩
      · exact ⟨utf16 "Bearer gsk_1", by decide, by decide⟩)
    (fun _ _ => rfl)

/-- C17 (the claim as stated fails). `openrouter` has no key (its header is `Bearer `), `groq`
has one: `callLLM` with the default `maxRetries = 3` does not fail; it waits 1000 ms,
switches to `groq`, makes the request and returns its content. -/
theorem callLLM_missing_key_retries :
    callLLM network17 (utf16 "openrouter") 3 =
      ([Event.wait 1000, Event.request (utf16 "groq")], .ok (utf16 "ok")) := by
  decide

/-- C17 (amended). An attempt whose provider has no usable key fails without a request and
is handled like every failed attempt: the missing-key error becomes the last error; when
attempts remain, `callLLM` waits `1000 * attempt` ms and goes on with the next provider of
the list; when it was the last attempt, `callLLM` throws
`LLM API call failed after m attempts: Missing API key for provider ...`. -/
theorem callLLMLoop_missing_key (net : Network) (maxRetries remaining attempt : Nat)
    (currentProvider authHeader : JSString) (lastError : Option JSString)
    (hAuth : net.authorization currentProvider = some authHeader)
    (hNo : hasBearer authHeader = false) :
    (attempt < maxRetries →
      callLLMLoop net maxRetries (remaining + 1) attempt currentProvider lastError =
        (Event.wait (1000 * attempt) ::
          (callLLMLoop net maxRetries remaining (attempt + 1) (nextProvider currentProvider)
            (some (missingKeyMessage currentProvider))).1,
         (callLLMLoop net maxRetries remaining (attempt + 1) (nextProvider currentProvider)
            (some (missingKeyMessage currentProvider))).2)) ∧
    (¬ attempt < maxRetries →
      callLLMLoop net maxRetries 1 attempt currentProvider lastError =
        ([], .error (JSError.error (utf16 "LLM API call failed after " ++
          natToString maxRetries ++ utf16 " attempts: " ++
          missingKeyMessage currentProvider)))) := by
  have h1 : attemptOnce net attempt currentProvider =
      ([], .error (missingKeyMessage currentProvider)) := by
    simp [attemptOnce, hAuth, hNo, missingKeyMessage]
  constructor
  · intro ha
    rw [callLLMLoop, h1]
    simp only [if_pos ha]
    rfl
  · intro ha
    rw [callLLMLoop, h1]
    simp only [if_neg ha]
    rfl

theorem callLLMLoop_missing_key_witness :
    (1 < 3 →
      callLLMLoop network17 3 (2 + 1) 1 (utf16 "openrouter") none =
        (Event.wait (1000 * 1) ::
          (callLLMLoop network17 3 2 (1 + 1) (nextProvider (utf16 "openrouter"))
            (some (missingKeyMessage (utf16 "openrouter")))).1,
         (callLLMLoop network17 3 2 (1 + 1) (nextProvider (utf16 "openrouter"))
            (some (missingKeyMessage (utf16 "openrouter")))).2)) ∧
    (¬ 1 < 3 →
      callLLMLoop network17 3 1 1 (utf16 "openrouter") none =
        ([], .error (JSError.error (utf16 "LLM API call failed after " ++
          natToString 3 ++ utf16 " attempts: " ++
          missingKeyMessage (utf16 "openrouter"))))) :=
  callLLMLoop_missing_key network17 3 2 1 (utf16 "openrouter") (utf16 "Bearer ") none
    (by decide) (by decide)

/-! ## The assessment session -/

theorem getProp_ok_of_ok {v x : JSValue} {k : JSString} (h : getProp v k = .ok x)
    (k2 : JSString) : ∃ y, getProp v k2 = .ok y := by
  cases v with
  | undefined => simp [getProp] at h
  | null => simp [getProp] at h
  | bool b => exact ⟨_, rfl⟩
  | num t => exact ⟨_, rfl⟩
  | str t => simp only [getProp]; split_ifs <;> exact ⟨_, rfl⟩
  | arr l => simp only [getProp]; split_ifs <;> exact ⟨_, rfl⟩
  | obj f => exact ⟨_, rfl⟩

/-- One iteration of the loop of the service-backed mode: the call is made; the list it
returns is pushed, and without such a list the `catch` block throws the ReferenceError. -/
theorem tierQuestions_eq (rt : Runtime) (jobData cvData : JSValue) (d : JSString)
    (service : Service) (log : List JSString) :
    tierQuestions rt jobData cvData d service log =
      (match answeredList rt (service log.length) with
        | some items => .ok items
        | none => .error (.referenceError (utf16 "generateHeuristicQuestions")),
       log ++ [utf16 "generateMockInterviewQuestions " ++ d]) := by
  unfold tierQuestions answeredList awaitCallLLM
  dsimp only
  congr 1
  cases hs : service log.length with
  | error e => rfl
  | ok text =>
    cases hx : extractJSON rt text with
    | error e =>
      simp only [generateMockInterviewQuestions, hx, bind, Except.bind, throw, throwThe,
        MonadExceptOf.throw]
      rfl
    | ok v =>
      simp only [generateMockInterviewQuestions, hx, bind, Except.bind, pure, Except.pure]
      by_cases ht : truthy v = true
      · obtain ⟨qs, hq⟩ := getProp_of_truthy (utf16 "questions") ht
        simp only [ht, if_true, hq]
        cases qs <;>
          simp [isArray, arrayOrEmpty, generateHeuristicQuestions, throw, throwThe,
            MonadExceptOf.throw, truthy]
      · have ht2 : truthy v = false := by simpa using ht
        simp only [ht2, Bool.false_eq_true, if_false]
        rfl

theorem generationCall_names :
    utf16 "generateMockInterviewQuestions " ++ utf16 "easy" =
        utf16 "generateMockInterviewQuestions easy" ∧
      utf16 "generateMockInterviewQuestions " ++ utf16 "medium" =
        utf16 "generateMockInterviewQuestions medium" ∧
      utf16 "generateMockInterviewQuestions " ++ utf16 "hard" =
        utf16 "generateMockInterviewQuestions hard" ∧
      utf16 "generateMockInterviewQuestions " ++ utf16 "extreme" =
        utf16 "generateMockInterviewQuestions extreme" := by
  decide

theorem allQuestionsFrom_cons (rt : Runtime) (jobData cvData : JSValue) (service : Service)
    (d : JSString) (rest log : List JSString) :
    allQuestionsFrom rt jobData cvData service (d :: rest) log =
      match answeredList rt (service log.length) with
      | none =>
        (.error (.referenceError (utf16 "generateHeuristicQuestions")),
          log ++ [utf16 "generateMockInterviewQuestions " ++ d])
      | some items =>
        match allQuestionsFrom rt jobData cvData service rest
            (log ++ [utf16 "generateMockInterviewQuestions " ++ d]) with
        | (.error e, log2) => (.error e, log2)
        | (.ok more, log2) => (.ok (items ++ more), log2) := by
  rw [allQuestionsFrom, tierQuestions_eq]
  cases answeredList rt (service log.length) <;> rfl

/-- The loop of the service-backed mode after the two parsing calls: the tier calls are
made in order until one returns no list. -/
theorem allQuestionsFrom_difficulties (rt : Runtime) (jobData cvData : JSValue)
    (service : Service) :
    allQuestionsFrom rt jobData cvData service difficulties
        [utf16 "parseJobDescription", utf16 "parseCVContent"] =
      match answeredList rt (service 2) with
      | none =>
        (.error (.referenceError (utf16 "generateHeuristicQuestions")),
          [utf16 "parseJobDescription", utf16 "parseCVContent",
            utf16 "generateMockInterviewQuestions easy"])
      | some easy =>
        match answeredList rt (service 3) with
        | none =>
          (.error (.referenceError (utf16 "generateHeuristicQuestions")),
            [utf16 "parseJobDescription", utf16 "parseCVContent",
              utf16 "generateMockInterviewQuestions easy",
              utf16 "generateMockInterviewQuestions medium"])
        | some medium =>
          match answeredList rt (service 4) with
          | none =>
            (.error (.referenceError (utf16 "generateHeuristicQuestions")),
              [utf16 "parseJobDescription", utf16 "parseCVContent",
                utf16 "generateMockInterviewQuestions easy",
                utf16 "generateMockInterviewQuestions medium",
                utf16 "generateMockInterviewQuestions hard"])
          | some hard =>
            match answeredList rt (service 5) with
            | none =>
              (.error (.referenceError (utf16 "generateHeuristicQuestions")),
                [utf16 "parseJobDescription", utf16 "parseCVContent",
                  utf16 "generateMockInterviewQuestions easy",
                  utf16 "generateMockInterviewQuestions medium",
                  utf16 "generateMockInterviewQuestions hard",
                  utf16 "generateMockInterviewQuestions extreme"])
            | some extreme =>
              (.ok (easy ++ (medium ++ (hard ++ extreme))),
                [utf16 "parseJobDescription", utf16 "parseCVContent",
                  utf16 "generateMockInterviewQuestions easy",
                  utf16 "generateMockInterviewQuestions medium",
                  utf16 "generateMockInterviewQuestions hard",
                  utf16 "generateMockInterviewQuestions extreme"]) := by
  obtain ⟨n1, n2, n3, n4⟩ := generationCall_names
  simp only [difficulties, allQuestionsFrom_cons, List.length_cons, List.length_nil,
    List.length_append, List.cons_append, List.nil_append, n1, n2, n3, n4, Nat.reduceAdd]
  cases answeredList rt (service 2) with
  | none => rfl
  | some easy =>
    cases answeredList rt (service 3) with
    | none => rfl
    | some medium =>
      cases answeredList rt (service 4) with
      | none => rfl
      | some hard =>
        cases answeredList rt (service 5) with
        | none => rfl
        | some extreme =>
          simp only [allQuestionsFrom, pure, Except.pure, List.append_nil]

/-- The start handler with a non-empty job description: the two parsing calls come first. -/
theorem startMockInterview_eq (rt : Runtime) (previous : Option Session)
    (jobDescription : JSString) (modeArg : JSValue) (id startTime : JSString)
    (service : Service) (hjd : jobDescription ≠ []) :
    startMockInterview rt previous jobDescription modeArg id startTime service =
      startSession rt previous (jobDataStep rt jobDescription (service 0))
        (cvDataInterviewStep rt (service 1)) (defaultMode modeArg) id startTime service
        [utf16 "parseJobDescription", utf16 "parseCVContent"] := by
  unfold startMockInterview
  rw [isEmpty_eq_false hjd]
  rfl

/-- The start handler in the mode `nonai`: the call of `generateHeuristicQuestions` throws,
no further call to the service is made and `currentMockInterview` is left as it was. -/
theorem startSession_nonai (rt : Runtime) (previous : Option Session)
    (jobData cvData mode : JSValue) (id startTime : JSString) (service : Service)
    (log : List JSString) (h : strictNotEquals mode (.str (utf16 "nonai")) = false) :
    startSession rt previous jobData cvData mode id startTime service log =
      { response := .serverError (utf16 "Failed to start mock interview")
          (.referenceError (utf16 "generateHeuristicQuestions")),
        session := previous, calls := log } := by
  simp only [startSession, h, Bool.not_false, if_true]
  rfl

/-- The start handler in the service-backed mode when one of the four tier calls returns no
list: the `catch` block throws, and `currentMockInterview` is left as it was. -/
theorem startSession_unanswered (rt : Runtime) (previous : Option Session)
    (jobData cvData mode : JSValue) (id startTime : JSString) (service : Service)
    (h : strictNotEquals mode (.str (utf16 "nonai")) = true)
    (hno : ∃ i, i < 4 ∧ answeredList rt (service (2 + i)) = none) :
    (startSession rt previous jobData cvData mode id startTime service
        [utf16 "parseJobDescription", utf16 "parseCVContent"]).response =
      .serverError (utf16 "Failed to start mock interview")
        (.referenceError (utf16 "generateHeuristicQuestions")) ∧
    (startSession rt previous jobData cvData mode id startTime service
        [utf16 "parseJobDescription", utf16 "parseCVContent"]).session = previous := by
  simp only [startSession, h, Bool.not_true, Bool.false_eq_true, if_false,
    allQuestionsFrom_difficulties]
  obtain ⟨i, hi, hn⟩ := hno
  cases h2 : answeredList rt (service 2) with
  | none => exact ⟨rfl, rfl⟩
  | some easy =>
    cases h3 : answeredList rt (service 3) with
    | none => exact ⟨rfl, rfl⟩
    | some medium =>
      cases h4 : answeredList rt (service 4) with
      | none => exact ⟨rfl, rfl⟩
      | some hard =>
        cases h5 : answeredList rt (service 5) with
        | none => exact ⟨rfl, rfl⟩
        | some extreme =>
          exfalso
          have : i = 0 ∨ i = 1 ∨ i = 2 ∨ i = 3 := by omega
          rcases this with rfl | rfl | rfl | rfl
          · rw [h2] at hn; cases hn
          · rw [h3] at hn; cases hn
          · rw [h4] at hn; cases hn
          · rw [h5] at hn; cases hn

/-- The start handler in the service-backed mode when each of the four tier calls returns a
list: the session holds the four lists one after the other. -/
theorem startSession_answered (rt : Runtime) (previous : Option Session)
    (jobData cvData mode : JSValue) (id startTime : JSString) (service : Service)
    (easy medium hard extreme : List JSValue)
    (h : strictNotEquals mode (.str (utf16 "nonai")) = true)
    (h2 : answeredList rt (service 2) = some easy)
    (h3 : answeredList rt (service 3) = some medium)
    (h4 : answeredList rt (service 4) = some hard)
    (h5 : answeredList rt (service 5) = some extreme) :
    (startSession rt previous jobData cvData mode id startTime service
        [utf16 "parseJobDescription", utf16 "parseCVContent"]).session =
      some
        { id := id, jobData := jobData, cvData := cvData,
          questions := easy ++ (medium ++ (hard ++ extreme)),
          currentQuestionIndex := 0, answers := [], scores := [], startTime := startTime,
          status := utf16 "active",
          totalQuestions := (easy ++ (medium ++ (hard ++ extreme))).length,
          completedQuestions := 0, mode := mode, endTime := none } ∧
    (startSession rt previous jobData cvData mode id startTime service
        [utf16 "parseJobDescription", utf16 "parseCVContent"]).calls =
      [utf16 "parseJobDescription", utf16 "parseCVContent",
        utf16 "generateMockInterviewQuestions easy",
        utf16 "generateMockInterviewQuestions medium",
        utf16 "generateMockInterviewQuestions hard",
        utf16 "generateMockInterviewQuestions extreme"] ∧
    ∀ jobTitle, getProp jobData (utf16 "role_title") = .ok jobTitle →
      (startSession rt previous jobData cvData mode id startTime service
          [utf16 "parseJobDescription", utf16 "parseCVContent"]).response =
        .success (.obj [(utf16 "success", .bool true),
          (utf16 "session", .obj [(utf16 "id", .str id),
            (utf16 "totalQuestions",
              .num (natToString (easy ++ (medium ++ (hard ++ extreme))).length)),
            (utf16 "estimatedDuration",
              .num (natToString ((easy ++ (medium ++ (hard ++ extreme))).length * 5))),
            (utf16 "jobTitle", jobTitle),
            (utf16 "difficultyLevels", .arr (difficulties.map JSValue.str)),
            (utf16 "currentQuestion",
              (easy ++ (medium ++ (hard ++ extreme))).getD 0 .undefined),
            (utf16 "mode", mode)])]) := by
  simp only [startSession, h, Bool.not_true, Bool.false_eq_true, if_false,
    allQuestionsFrom_difficulties, h2, h3, h4, h5]
  refine ⟨?_, ?_, ?_⟩
  · cases getProp jobData (utf16 "role_title") <;> rfl
  · cases getProp jobData (utf16 "role_title") <;> rfl
  · intro jobTitle hj
    simp only [hj]

set_option maxRecDepth 100000 in
theorem jsonSpan_payload30 : jsonSpan payload30 = .ok payload30 := by decide

set_option maxRecDepth 100000 in
theorem jsonSpan_payload30b : jsonSpan payload30b = .ok payload30b := by decide

set_option maxRecDepth 100000 in
theorem jsonSpan_payload18 : jsonSpan payload18 = .ok payload18 := by decide

set_option maxRecDepth 100000 in
theorem runtime30_payloads :
    runtime30.jsonParse payload30 = some (.obj [(utf16 "questions", .arr [question30 "4"])]) ∧
    runtime30.jsonParse payload30b =
      some (.obj [(utf16 "questions", .arr [question30 "5"])]) ∧
    runtime30.jsonParse payload18 = some (.obj [(utf16 "questions", .arr [])]) := by
  have h1 : payload30b ≠ payload30 := by decide
  have h2 : payload18 ≠ payload30 := by decide
  have h3 : payload18 ≠ payload30b := by decide
  simp [runtime30, h1, h2, h3]

theorem answeredList_of_parse (rt : Runtime) (t : JSString) (items : List JSValue)
    (hs : jsonSpan t = .ok t)
    (hp : rt.jsonParse t = some (.obj [(utf16 "questions", .arr items)])) :
    answeredList rt (.ok t) = some items := by
  simp only [answeredList, extractJSON, hs, hp, bind, Except.bind, pure, Except.pure]
  rfl

/-- A start with the service `service30 p`, when `p` holds the one question `q`. -/
theorem startMockInterview_service30 (p : JSString) (q : JSValue)
    (hspan : jsonSpan p = .ok p)
    (hparse : runtime30.jsonParse p = some (.obj [(utf16 "questions", .arr [q])])) :
    startMockInterview runtime30 none (utf16 "x") .undefined (utf16 "1") (utf16 "t0")
      (service30 p) =
      { response := .success (.obj [(utf16 "success", .bool true),
          (utf16 "session", .obj [(utf16 "id", .str (utf16 "1")),
            (utf16 "totalQuestions", .num (utf16 "1")),
            (utf16 "estimatedDuration", .num (utf16 "5")),
            (utf16 "jobTitle", .str (utf16 "Software Engineer")),
            (utf16 "difficultyLevels", .arr (difficulties.map JSValue.str)),
            (utf16 "currentQuestion", q),
            (utf16 "mode", .str (utf16 "ai"))])]),
        session := some
          { id := utf16 "1", jobData := fallbackJobData runtime30 (utf16 "x"),
            cvData := fallbackCVDataInterview, questions := [q],
            currentQuestionIndex := 0, answers := [], scores := [], startTime := utf16 "t0",
            status := utf16 "active", totalQuestions := 1, completedQuestions := 0,
            mode := .str (utf16 "ai"), endTime := none },
        calls := [utf16 "parseJobDescription", utf16 "parseCVContent",
          utf16 "generateMockInterviewQuestions easy",
          utf16 "generateMockInterviewQuestions medium",
          utf16 "generateMockInterviewQuestions hard",
          utf16 "generateMockInterviewQuestions extreme"] } := by
  have hp18 := runtime30_payloads.2.2
  have hmode : strictNotEquals (defaultMode .undefined) (.str (utf16 "nonai")) = true := by
    decide
  have h2 : answeredList runtime30 (service30 p 2) = some [q] :=
    answeredList_of_parse runtime30 p [q] hspan hparse
  have h3 : answeredList runtime30 (service30 p 3) = some [] :=
    answeredList_of_parse runtime30 payload18 [] jsonSpan_payload18 hp18
  have h4 : answeredList runtime30 (service30 p 4) = some [] :=
    answeredList_of_parse runtime30 payload18 [] jsonSpan_payload18 hp18
  have h5 : answeredList runtime30 (service30 p 5) = some [] :=
    answeredList_of_parse runtime30 payload18 [] jsonSpan_payload18 hp18
  have hjob : getProp (jobDataStep runtime30 (utf16 "x") (service30 p 0))
      (utf16 "role_title") = .ok (.str (utf16 "Software Engineer")) := rfl
  obtain ⟨g1, g2, g3⟩ := startSession_answered runtime30 none
    (jobDataStep runtime30 (utf16 "x") (service30 p 0))
    (cvDataInterviewStep runtime30 (service30 p 1)) (defaultMode .undefined) (utf16 "1")
    (utf16 "t0") (service30 p) [q] [] [] [] hmode h2 h3 h4 h5
  have g4 := g3 _ hjob
  rw [startMockInterview_eq runtime30 none (utf16 "x") .undefined (utf16 "1") (utf16 "t0")
    (service30 p) (by decide)]
  have h1 : natToString 1 = utf16 "1" := by decide
  have h5b : natToString 5 = utf16 "5" := by decide
  have e : ∀ o : Outcome, o = ⟨o.response, o.session, o.calls⟩ := fun o => rfl
  rw [e (startSession _ _ _ _ _ _ _ _ _), g1, g2, g4]
  simp only [List.append_nil, List.length_singleton, h1, Nat.one_mul, h5b,
    List.getD_cons_zero]
  rfl

/-- C18 (the claim as stated fails). A start in the service-backed mode in which each of the
four question-generation calls is answered with a record that holds a list `questions`, of
one question for the tier `easy` and of no question for the other tiers: the start succeeds,
the six calls are made, and the session has 1 question, not 20. -/
theorem startMockInterview_short_list :
    answeredList runtime30 (service30 payload30 2) = some [question30 "4"] ∧
    answeredList runtime30 (service30 payload30 3) = some [] ∧
    answeredList runtime30 (service30 payload30 4) = some [] ∧
    answeredList runtime30 (service30 payload30 5) = some [] ∧
    (∃ body, (startMockInterview runtime30 none (utf16 "x") .undefined (utf16 "1") (utf16 "t0")
      (service30 payload30)).response = .success body) ∧
    (startMockInterview runtime30 none (utf16 "x") .undefined (utf16 "1") (utf16 "t0")
      (service30 payload30)).session.map (fun s => s.questions.length) = some 1 ∧
    (1 : Nat) ≠ 20 := by
  have ha := startMockInterview_service30 payload30 (question30 "4") jsonSpan_payload30
    runtime30_payloads.1
  refine ⟨answeredList_of_parse runtime30 payload30 _ jsonSpan_payload30 runtime30_payloads.1,
    answeredList_of_parse runtime30 payload18 [] jsonSpan_payload18 runtime30_payloads.2.2,
    answeredList_of_parse runtime30 payload18 [] jsonSpan_payload18 runtime30_payloads.2.2,
    answeredList_of_parse runtime30 payload18 [] jsonSpan_payload18 runtime30_payloads.2.2,
    ?_, ?_, by decide⟩
  · rw [ha]; exact ⟨_, rfl⟩
  · rw [ha]; rfl

/-- C18 (amended). A start with a non-empty job description. In the service-backed mode,
when each of the four question-generation calls (the third to the sixth call of the start)
returns a record that holds a list `questions`, the session is created and its question list
is the four lists one after the other, in the order easy, medium, hard, extreme, each as the
service gave it, whatever its length; it has 20 questions when each list has 5. In the mode
`nonai`, and when one of the four calls returns no such list, the handler calls
`generateHeuristicQuestions`, which is not defined: the start is answered with the status 500
and `currentMockInterview` is left as it was. Hence every successful start is of the first
kind. -/
theorem startMockInterview_tier_lists (rt : Runtime) (previous : Option Session)
    (jobDescription : JSString) (modeArg : JSValue) (id startTime : JSString)
    (service : Service) (hjd : jobDescription ≠ []) :
    (strictNotEquals (defaultMode modeArg) (.str (utf16 "nonai")) = true →
      ∀ easy medium hard extreme,
        answeredList rt (service 2) = some easy → answeredList rt (service 3) = some medium →
        answeredList rt (service 4) = some hard → answeredList rt (service 5) = some extreme →
        ∃ s, (startMockInterview rt previous jobDescription modeArg id startTime
            service).session = some s ∧
          s.questions = easy ++ medium ++ hard ++ extreme ∧
          s.totalQuestions = easy.length + medium.length + hard.length + extreme.length ∧
          s.currentQuestionIndex = 0 ∧ s.status = utf16 "active" ∧
          (easy.length = 5 → medium.length = 5 → hard.length = 5 → extreme.length = 5 →
            s.questions.length = 20)) ∧
    ((strictNotEquals (defaultMode modeArg) (.str (utf16 "nonai")) = false ∨
        ∃ i, i < 4 ∧ answeredList rt (service (2 + i)) = none) →
      (startMockInterview rt previous jobDescription modeArg id startTime service).response =
        .serverError (utf16 "Failed to start mock interview")
          (.referenceError (utf16 "generateHeuristicQuestions")) ∧
      (startMockInterview rt previous jobDescription modeArg id startTime service).session =
        previous) ∧
    (isSuccess (startMockInterview rt previous jobDescription modeArg id startTime
        service).response = true →
      strictNotEquals (defaultMode modeArg) (.str (utf16 "nonai")) = true ∧
      ∃ easy medium hard extreme s,
        answeredList rt (service 2) = some easy ∧ answeredList rt (service 3) = some medium ∧
        answeredList rt (service 4) = some hard ∧ answeredList rt (service 5) = some extreme ∧
        (startMockInterview rt previous jobDescription modeArg id startTime
          service).session = some s ∧
        s.questions = easy ++ medium ++ hard ++ extreme) := by
  have hA : strictNotEquals (defaultMode modeArg) (.str (utf16 "nonai")) = true →
      ∀ easy medium hard extreme,
        answeredList rt (service 2) = some easy → answeredList rt (service 3) = some medium →
        answeredList rt (service 4) = some hard → answeredList rt (service 5) = some extreme →
        ∃ s, (startMockInterview rt previous jobDescription modeArg id startTime
            service).session = some s ∧
          s.questions = easy ++ medium ++ hard ++ extreme ∧
          s.totalQuestions = easy.length + medium.length + hard.length + extreme.length ∧
          s.currentQuestionIndex = 0 ∧ s.status = utf16 "active" ∧
          (easy.length = 5 → medium.length = 5 → hard.length = 5 → extreme.length = 5 →
            s.questions.length = 20) := by
    intro hm easy medium hard extreme h2 h3 h4 h5
    obtain ⟨g1, -, -⟩ := startSession_answered rt previous
      (jobDataStep rt jobDescription (service 0)) (cvDataInterviewStep rt (service 1))
      (defaultMode modeArg) id startTime service easy medium hard extreme hm h2 h3 h4 h5
    rw [startMockInterview_eq rt previous jobDescription modeArg id startTime service hjd, g1]
    refine ⟨_, rfl, ?_, ?_, rfl, rfl, ?_⟩
    · simp
    · simp only [List.length_append]; omega
    · intro a b c d
      simp only [List.length_append]; omega
  have hB : (strictNotEquals (defaultMode modeArg) (.str (utf16 "nonai")) = false ∨
        ∃ i, i < 4 ∧ answeredList rt (service (2 + i)) = none) →
      (startMockInterview rt previous jobDescription modeArg id startTime service).response =
        .serverError (utf16 "Failed to start mock interview")
          (.referenceError (utf16 "generateHeuristicQuestions")) ∧
      (startMockInterview rt previous jobDescription modeArg id startTime service).session =
        previous := by
    intro h
    rw [startMockInterview_eq rt previous jobDescription modeArg id startTime service hjd]
    by_cases hm : strictNotEquals (defaultMode modeArg) (.str (utf16 "nonai")) = true
    · rcases h with h | h
      · rw [hm] at h; cases h
      · exact startSession_unanswered rt previous _ _ _ id startTime service hm h
    · have hm2 : strictNotEquals (defaultMode modeArg) (.str (utf16 "nonai")) = false := by
        simpa using hm
      rw [startSession_nonai rt previous _ _ _ id startTime service _ hm2]
      exact ⟨rfl, rfl⟩
  refine ⟨hA, hB, ?_⟩
  intro hs
  have hnot : ¬ (strictNotEquals (defaultMode modeArg) (.str (utf16 "nonai")) = false ∨
      ∃ i, i < 4 ∧ answeredList rt (service (2 + i)) = none) := by
    intro h
    rw [(hB h).1] at hs
    simp [isSuccess] at hs
  have hm : strictNotEquals (defaultMode modeArg) (.str (utf16 "nonai")) = true := by
    by_contra hc
    exact hnot (Or.inl (by simpa using hc))
  have hsome : ∀ i, i < 4 → ∃ l, answeredList rt (service (2 + i)) = some l := by
    intro i hi
    cases hl : answeredList rt (service (2 + i)) with
    | none => exact absurd (Or.inr ⟨i, hi, hl⟩) hnot
    | some l => exact ⟨l, rfl⟩
  obtain ⟨easy, h2⟩ := hsome 0 (by omega)
  obtain ⟨medium, h3⟩ := hsome 1 (by omega)
  obtain ⟨hard, h4⟩ := hsome 2 (by omega)
  obtain ⟨extreme, h5⟩ := hsome 3 (by omega)
  obtain ⟨s, g1, g2, -⟩ := hA hm easy medium hard extreme h2 h3 h4 h5
  exact ⟨hm, easy, medium, hard, extreme, s, h2, h3, h4, h5, g1, g2⟩

theorem startMockInterview_tier_lists_witness :
    (∃ s, (startMockInterview runtime30 none (utf16 "x") .undefined (utf16 "1") (utf16 "t0")
          (service30 payload30)).session = some s ∧
        s.questions = [question30 "4"] ++ [] ++ [] ++ [] ∧
        s.totalQuestions = [question30 "4"].length + ([] : List JSValue).length +
          ([] : List JSValue).length + ([] : List JSValue).length ∧
        s.currentQuestionIndex = 0 ∧ s.status = utf16 "active" ∧
        ([question30 "4"].length = 5 → ([] : List JSValue).length = 5 →
          ([] : List JSValue).length = 5 → ([] : List JSValue).length = 5 →
          s.questions.length = 20)) ∧
    ((startMockInterview runtime30 (some session21) (utf16 "x") (.str (utf16 "nonai"))
        (utf16 "1") (utf16 "t0") (service30 payload30)).response =
        .serverError (utf16 "Failed to start mock interview")
          (.referenceError (utf16 "generateHeuristicQuestions")) ∧
      (startMockInterview runtime30 (some session21) (utf16 "x") (.str (utf16 "nonai"))
        (utf16 "1") (utf16 "t0") (service30 payload30)).session = some session21) :=
  ⟨(startMockInterview_tier_lists runtime30 none (utf16 "x") .undefined (utf16 "1")
      (utf16 "t0") (service30 payload30) (by decide)).1 (by decide) _ _ _ _
      (answeredList_of_parse runtime30 payload30 _ jsonSpan_payload30 runtime30_payloads.1)
      (answeredList_of_parse runtime30 payload18 [] jsonSpan_payload18 runtime30_payloads.2.2)
      (answeredList_of_parse runtime30 payload18 [] jsonSpan_payload18 runtime30_payloads.2.2)
      (answeredList_of_parse runtime30 payload18 [] jsonSpan_payload18 runtime30_payloads.2.2),
    (startMockInterview_tier_lists runtime30 (some session21) (utf16 "x")
      (.str (utf16 "nonai")) (utf16 "1") (utf16 "t0") (service30 payload30)
      (by decide)).2.1 (Or.inl (by decide))⟩

/-- C19 (the claim as stated fails). A start in the mode `nonai` takes two outcomes of the
service, the one of the call of `parseJobDescription` and the one of the call of
`parseCVContent`: the number of its calls to `callLLM` is 2, not 0. -/
theorem startMockInterview_nonai_calls_example :
    (startMockInterview runtime10 none (utf16 "Python developer") (.str (utf16 "nonai"))
      (utf16 "1") (utf16 "t0") (serviceFailed .typeError)).calls =
      [utf16 "parseJobDescription", utf16 "parseCVContent"] ∧
    (startMockInterview runtime10 none (utf16 "Python developer") (.str (utf16 "nonai"))
      (utf16 "1") (utf16 "t0") (serviceFailed .typeError)).calls.length = 2 ∧
    (2 : Nat) ≠ 0 := by
  have h := startMockInterview_eq runtime10 none (utf16 "Python developer")
    (.str (utf16 "nonai")) (utf16 "1") (utf16 "t0") (serviceFailed .typeError) (by decide)
  rw [h, startSession_nonai runtime10 none _ _ _ _ _ _ _ (by decide)]
  exact ⟨rfl, rfl, by decide⟩

/-- C19 (amended). A start in the mode `nonai` with a non-empty job description makes no
question-generation call: the calls to `callLLM` whose outcome it takes are exactly two, the
one of `parseJobDescription` and the one of `parseCVContent`, whatever the service answers,
and the start does not depend on what the service would answer to later calls. It then calls
`generateHeuristicQuestions`, which is not defined, so it is answered with the status 500
and `currentMockInterview` is left as it was. In every other mode a third call follows, the
question-generation call for the tier `easy`. -/
theorem startMockInterview_nonai_calls (rt : Runtime) (previous : Option Session)
    (jobDescription id startTime : JSString) (service : Service) (hjd : jobDescription ≠ []) :
    (startMockInterview rt previous jobDescription (.str (utf16 "nonai")) id startTime
      service).calls = [utf16 "parseJobDescription", utf16 "parseCVContent"] ∧
    (∀ other : Service,
      startMockInterview rt previous jobDescription (.str (utf16 "nonai")) id startTime other =
        startMockInterview rt previous jobDescription (.str (utf16 "nonai")) id startTime
          service) ∧
    (startMockInterview rt previous jobDescription (.str (utf16 "nonai")) id startTime
      service).response =
      .serverError (utf16 "Failed to start mock interview")
        (.referenceError (utf16 "generateHeuristicQuestions")) ∧
    (startMockInterview rt previous jobDescription (.str (utf16 "nonai")) id startTime
      service).session = previous ∧
    ∀ modeArg, strictNotEquals (defaultMode modeArg) (.str (utf16 "nonai")) = true →
      (startMockInterview rt previous jobDescription modeArg id startTime service).calls.take 3 =
        [utf16 "parseJobDescription", utf16 "parseCVContent",
          utf16 "generateMockInterviewQuestions easy"] := by
  have hm : strictNotEquals (defaultMode (JSValue.str (utf16 "nonai")))
      (.str (utf16 "nonai")) = false := by
    decide
  have h : ∀ sv : Service,
      startMockInterview rt previous jobDescription (.str (utf16 "nonai")) id startTime sv =
        { response := .serverError (utf16 "Failed to start mock interview")
            (.referenceError (utf16 "generateHeuristicQuestions")),
          session := previous,
          calls := [utf16 "parseJobDescription", utf16 "parseCVContent"] } := by
    intro sv
    rw [startMockInterview_eq rt previous jobDescription _ id startTime sv hjd,
      startSession_nonai rt previous _ _ _ id startTime sv _ hm]
  refine ⟨by rw [h], fun other => by rw [h, h], by rw [h], by rw [h], ?_⟩
  intro modeArg hmode
  rw [startMockInterview_eq rt previous jobDescription modeArg id startTime service hjd]
  simp only [startSession, hmode, Bool.not_true, Bool.false_eq_true, if_false,
    allQuestionsFrom_difficulties]
  cases answeredList rt (service 2) with
  | none => rfl
  | some easy =>
    cases answeredList rt (service 3) with
    | none => rfl
    | some medium =>
      cases answeredList rt (service 4) with
      | none => rfl
      | some hard =>
        cases answeredList rt (service 5) with
        | none => rfl
        | some extreme =>
          cases getProp (jobDataStep rt jobDescription (service 0)) (utf16 "role_title") <;> rfl

theorem startMockInterview_nonai_calls_witness :
    (startMockInterview runtime18 none (utf16 "x") (.str (utf16 "nonai")) (utf16 "1")
      (utf16 "t0") (serviceAnswers payload18)).calls =
      [utf16 "parseJobDescription", utf16 "parseCVContent"] ∧
    (startMockInterview runtime18 none (utf16 "x") .undefined (utf16 "1")
      (utf16 "t0") (serviceAnswers payload18)).calls.take 3 =
      [utf16 "parseJobDescription", utf16 "parseCVContent",
        utf16 "generateMockInterviewQuestions easy"] :=
  ⟨(startMockInterview_nonai_calls runtime18 none (utf16 "x") (utf16 "1") (utf16 "t0")
      (serviceAnswers payload18) (by decide)).1,
    (startMockInterview_nonai_calls runtime18 none (utf16 "x") (utf16 "1") (utf16 "t0")
      (serviceAnswers payload18) (by decide)).2.2.2.2 .undefined (by decide)⟩

/-- C20 (the claim as stated fails). On a session at its first question `q1`, a submit with
the identifier `q2` and an empty answer fails with `Answer is required`, not with the
question-mismatch error. -/
theorem submitAnswer_empty_answer_first :
    strictNotEquals (.str (utf16 "q1")) (.str (utf16 "q2")) = true ∧
    (submitAnswer runtime10 helpers20 (some session20) (.str []) (.str (utf16 "q2"))
      (utf16 "t1") (serviceFailed .typeError)).response =
        .badRequest (utf16 "Answer is required") ∧
    utf16 "Answer is required" ≠ utf16 "Question ID mismatch" := by
  refine ⟨by decide, rfl, by decide⟩

/-- C20 (amended). For every session whose current question exists and every submit-answer
call with a non-empty answer whose question identifier differs from the identifier of the
question at the current index, the call fails with `Question ID mismatch`, the session is
left exactly as it was and no call to the service is made. -/
theorem submitAnswer_mismatch (rt : Runtime) (hp : Helpers) (s : Session)
    (answer questionId qid : JSValue) (timestamp : JSString) (service : Service)
    (hAnswer : truthy answer = true)
    (hId : getProp (s.questions.getD s.currentQuestionIndex .undefined) (utf16 "id") = .ok qid)
    (hDiff : strictNotEquals qid questionId = true) :
    submitAnswer rt hp (some s) answer questionId timestamp service =
      { response := .badRequest (utf16 "Question ID mismatch"), session := some s,
        calls := [] } := by
  unfold submitAnswer
  simp only [hAnswer, Bool.not_true, Bool.false_eq_true, if_false, hId, hDiff, if_true]

theorem submitAnswer_mismatch_witness :
    submitAnswer runtime10 helpers20 (some session20) (.str (utf16 "my answer"))
      (.str (utf16 "q2")) (utf16 "t1") (serviceFailed .typeError) =
      { response := .badRequest (utf16 "Question ID mismatch"), session := some session20,
        calls := [] } :=
  submitAnswer_mismatch runtime10 helpers20 session20 _ _ (.str (utf16 "q1")) _ _
    (by decide) rfl (by decide)

/-! ## The scores -/

/-- The value `roundHalfUp total count` is the integer nearest to `total / count`, the upper
one of two nearest: `total / count - 1 / 2 < r ≤ total / count + 1 / 2`. -/
theorem roundHalfUp_spec (total : Int) (count : Nat) (h : 0 < count) :
    2 * total - count < 2 * count * roundHalfUp total count ∧
    2 * count * roundHalfUp total count ≤ 2 * total + count := by
  unfold roundHalfUp
  have hpos : (0 : Int) < 2 * (count : Int) := by omega
  have h1 := Int.ediv_mul_le (2 * total + count) (ne_of_gt hpos)
  have h2 := Int.lt_ediv_add_one_mul_self (2 * total + count) hpos
  constructor
  · nlinarith
  · nlinarith

theorem integersOf_length {l : List JSValue} {ns : List Int} (h : integersOf l = some ns) :
    ns.length = l.length := by
  induction l generalizing ns with
  | nil =>
    simp only [integersOf, Option.some.injEq] at h
    rw [← h]
    rfl
  | cons v rest ih =>
    unfold integersOf at h
    cases hv : integerOf v with
    | none => simp [hv] at h
    | some n =>
      cases hr : integersOf rest with
      | none => simp [hv, hr] at h
      | some ms =>
        simp only [hv, hr, Option.some.injEq] at h
        rw [← h]
        simp [ih hr]

theorem toStringJS_of_integer {v : JSValue} {n : Int} (h : integerOf v = some n) :
    ∃ t, toStringJS v = .ok t := by
  cases v with
  | num text => exact ⟨text, by simp [toStringJS]⟩
  | _ => simp [integerOf] at h

theorem addends_ok_iff (l : List JSValue) :
    (∃ ts, addends l = .ok ts) ↔ ∀ v ∈ l, ∃ t, toStringJS v = .ok t := by
  induction l with
  | nil => simp [addends, pure, Except.pure]
  | cons v rest ih =>
    constructor
    · rintro ⟨ts, h⟩
      cases hv : toStringJS v with
      | error e => simp [addends, hv, bind, Except.bind] at h
      | ok t =>
        cases hr : addends rest with
        | error e => simp [addends, hv, hr, bind, Except.bind] at h
        | ok ts2 =>
          intro w hw
          simp only [List.mem_cons] at hw
          rcases hw with rfl | hw
          · exact ⟨t, hv⟩
          · exact (ih.1 ⟨ts2, hr⟩) w hw
    · intro h
      obtain ⟨t, hv⟩ := h v (List.mem_cons_self _ _)
      obtain ⟨ts2, hr⟩ := ih.2 (fun w hw => h w (List.mem_cons_of_mem _ hw))
      exact ⟨t :: ts2, by simp [addends, hv, hr, bind, Except.bind, pure, Except.pure]⟩

theorem addends_of_integers {l : List JSValue} {ns : List Int} (h : integersOf l = some ns) :
    ∃ ts, addends l = .ok ts := by
  rw [addends_ok_iff]
  induction l generalizing ns with
  | nil => simp
  | cons v rest ih =>
    unfold integersOf at h
    cases hv : integerOf v with
    | none => simp [hv] at h
    | some n =>
      cases hr : integersOf rest with
      | none => simp [hv, hr] at h
      | some ms =>
        intro w hw
        simp only [List.mem_cons] at hw
        rcases hw with rfl | hw
        · exact toStringJS_of_integer hv
        · exact ih hr w hw

theorem averageScore_integers (hp : Helpers) (scores : List JSValue) (ns : List Int)
    (hne : scores ≠ []) (hInts : integersOf scores = some ns) (hRange : exactRange ns = true) :
    averageScore hp scores = .ok (.num (intToString (roundHalfUp ns.sum ns.length))) := by
  obtain ⟨ts, hts⟩ := addends_of_integers hInts
  cases scores with
  | nil => exact absurd rfl hne
  | cons v rest =>
    simp only [averageScore, hts, hInts, hRange, if_true, bind, Except.bind, pure, Except.pure]

/-- The rounded mean is a number whenever every score can be converted to a primitive. -/
theorem averageScore_of_addends (hp : Helpers) (scores : List JSValue) (ts : List JSString)
    (h : addends scores = .ok ts) : ∃ t, averageScore hp scores = .ok (.num t) := by
  cases scores with
  | nil => exact ⟨_, rfl⟩
  | cons v rest =>
    simp only [averageScore, h, bind, Except.bind, pure, Except.pure]
    cases integersOf (v :: rest) with
    | none => exact ⟨_, rfl⟩
    | some ns =>
      dsimp only
      split_ifs <;> exact ⟨_, rfl⟩

/-- The rounded mean of a non-empty list throws exactly when a score cannot be converted. -/
theorem addends_of_averageScore (hp : Helpers) (scores : List JSValue) (v : JSValue)
    (hne : scores ≠ []) (h : averageScore hp scores = .ok v) : ∃ ts, addends scores = .ok ts := by
  cases scores with
  | nil => exact absurd rfl hne
  | cons w rest =>
    cases ha : addends (w :: rest) with
    | ok ts => exact ⟨ts, rfl⟩
    | error e => simp [averageScore, ha, bind, Except.bind] at h

/-! ## The submit handler -/

theorem getD_lt_of_getProp_ok {l : List JSValue} {i : Nat} {x : JSValue} {k : JSString}
    (h : getProp (l.getD i .undefined) k = .ok x) : i < l.length := by
  by_contra hlt
  rw [List.getD_eq_default _ _ (Nat.le_of_not_lt hlt)] at h
  simp [getProp] at h

theorem getProp_error {v : JSValue} {k : JSString} {e : JSError} (h : getProp v k = .error e) :
    e = .typeError := by
  cases v with
  | undefined => simp only [getProp, Except.error.injEq] at h; exact h.symm
  | null => simp only [getProp, Except.error.injEq] at h; exact h.symm
  | bool b => simp [getProp] at h
  | num t => simp [getProp] at h
  | str t => simp only [getProp] at h; split_ifs at h
  | arr l => simp only [getProp] at h; split_ifs at h
  | obj f => simp [getProp] at h

/-- The submit handler up to the evaluation, when the answer is not empty and the
identifier is the one of the current question. -/
theorem submitAnswer_evaluated (rt : Runtime) (hp : Helpers) (s : Session)
    (answer questionId qid : JSValue) (timestamp : JSString) (service : Service)
    (hAnswer : truthy answer = true)
    (hId : getProp (s.questions.getD s.currentQuestionIndex .undefined) (utf16 "id") = .ok qid)
    (hSame : strictNotEquals qid questionId = false) :
    submitAnswer rt hp (some s) answer questionId timestamp service =
      match evaluateAnswer rt s (s.questions.getD s.currentQuestionIndex .undefined) answer
          service with
      | (.error e, calls) =>
        { response := .serverError [] e, session := some s, calls := calls }
      | (.ok evaluation, calls) =>
        match recordAnswer s (s.questions.getD s.currentQuestionIndex .undefined) answer
            questionId evaluation timestamp with
        | (s2, .error e) =>
          { response := .serverError [] e, session := some s2, calls := calls }
        | (s2, .ok ()) =>
          match (if 0 < s2.scores.length then averageScore hp s2.scores
              else pure (.num (utf16 "0"))) with
          | .error e =>
            { response := .serverError [] e, session := some s2, calls := calls }
          | .ok currentScore =>
            { response := .success (.obj [(utf16 "success", .bool true),
                (utf16 "evaluation", evaluation),
                (utf16 "isComplete",
                  .bool (decide (s2.questions.length ≤ s2.currentQuestionIndex))),
                (utf16 "progress", .obj [
                  (utf16 "completed", .num (natToString s2.completedQuestions)),
                  (utf16 "total", .num (natToString s2.totalQuestions)),
                  (utf16 "currentScore", currentScore)])]),
              session := some s2, calls := calls } := by
  unfold submitAnswer
  simp only [hAnswer, Bool.not_true, Bool.false_eq_true, if_false, hId, hSame]

/-- The statements that record an answer whose evaluation has a readable score. -/
theorem recordAnswer_scored (s : Session) (q answer questionId evaluation score : JSValue)
    (question difficulty : JSValue) (timestamp : JSString)
    (hQ : getProp q (utf16 "question") = .ok question)
    (hD : getProp q (utf16 "difficulty") = .ok difficulty)
    (hScore : getProp evaluation (utf16 "score") = .ok score) :
    recordAnswer s q answer questionId evaluation timestamp =
      (answered s (answerData questionId question difficulty answer evaluation timestamp)
        score timestamp, .ok ()) := by
  unfold recordAnswer
  simp only [hQ, hD, hScore]
  by_cases hc : s.questions.length ≤ s.currentQuestionIndex + 1
  · simp only [hc, if_true, answered, answerData]
  · simp only [hc, if_false, answered, answerData]

/-- The submit handler in the case that the evaluation has a readable score and the
running average can be computed. -/
theorem submitAnswer_scored (rt : Runtime) (hp : Helpers) (s : Session)
    (answer questionId qid evaluation score average : JSValue) (timestamp : JSString)
    (service : Service) (calls : List JSString)
    (hAnswer : truthy answer = true)
    (hId : getProp (s.questions.getD s.currentQuestionIndex .undefined) (utf16 "id") = .ok qid)
    (hSame : strictNotEquals qid questionId = false)
    (hEval : evaluateAnswer rt s (s.questions.getD s.currentQuestionIndex .undefined) answer
      service = (.ok evaluation, calls))
    (hScore : getProp evaluation (utf16 "score") = .ok score)
    (hAvg : averageScore hp (s.scores ++ [score]) = .ok average) :
    ∃ question difficulty,
      getProp (s.questions.getD s.currentQuestionIndex .undefined) (utf16 "question") =
        .ok question ∧
      getProp (s.questions.getD s.currentQuestionIndex .undefined) (utf16 "difficulty") =
        .ok difficulty ∧
      submitAnswer rt hp (some s) answer questionId timestamp service =
        { response := .success (submitBody s evaluation average),
          session := some (answered s (answerData questionId question difficulty answer
            evaluation timestamp) score timestamp),
          calls := calls } := by
  obtain ⟨question, hQ⟩ := getProp_ok_of_ok hId (utf16 "question")
  obtain ⟨difficulty, hD⟩ := getProp_ok_of_ok hId (utf16 "difficulty")
  refine ⟨question, difficulty, hQ, hD, ?_⟩
  rw [submitAnswer_evaluated rt hp s answer questionId qid timestamp service hAnswer hId hSame,
    hEval]
  simp only [recordAnswer_scored s _ answer questionId evaluation score question difficulty
    timestamp hQ hD hScore]
  have hpos : 0 < (answered s (answerData questionId question difficulty answer evaluation
      timestamp) score timestamp).scores.length := by
    simp [answered]
  simp only [hpos, if_true]
  have hsc : (answered s (answerData questionId question difficulty answer evaluation
      timestamp) score timestamp).scores = s.scores ++ [score] := rfl
  rw [hsc, hAvg]
  rfl

/-- The submit handler in the case that the evaluation has a readable score and the
running average throws: the session is already advanced. -/
theorem submitAnswer_scored_throws (rt : Runtime) (hp : Helpers) (s : Session)
    (answer questionId qid evaluation score : JSValue) (e : JSError) (timestamp : JSString)
    (service : Service) (calls : List JSString)
    (hAnswer : truthy answer = true)
    (hId : getProp (s.questions.getD s.currentQuestionIndex .undefined) (utf16 "id") = .ok qid)
    (hSame : strictNotEquals qid questionId = false)
    (hEval : evaluateAnswer rt s (s.questions.getD s.currentQuestionIndex .undefined) answer
      service = (.ok evaluation, calls))
    (hScore : getProp evaluation (utf16 "score") = .ok score)
    (hAvg : averageScore hp (s.scores ++ [score]) = .error e) :
    ∃ question difficulty,
      getProp (s.questions.getD s.currentQuestionIndex .undefined) (utf16 "question") =
        .ok question ∧
      getProp (s.questions.getD s.currentQuestionIndex .undefined) (utf16 "difficulty") =
        .ok difficulty ∧
      submitAnswer rt hp (some s) answer questionId timestamp service =
        { response := .serverError [] e,
          session := some (answered s (answerData questionId question difficulty answer
            evaluation timestamp) score timestamp),
          calls := calls } := by
  obtain ⟨question, hQ⟩ := getProp_ok_of_ok hId (utf16 "question")
  obtain ⟨difficulty, hD⟩ := getProp_ok_of_ok hId (utf16 "difficulty")
  refine ⟨question, difficulty, hQ, hD, ?_⟩
  rw [submitAnswer_evaluated rt hp s answer questionId qid timestamp service hAnswer hId hSame,
    hEval]
  simp only [recordAnswer_scored s _ answer questionId evaluation score question difficulty
    timestamp hQ hD hScore]
  have hpos : 0 < (answered s (answerData questionId question difficulty answer evaluation
      timestamp) score timestamp).scores.length := by
    simp [answered]
  simp only [hpos, if_true]
  have hsc : (answered s (answerData questionId question difficulty answer evaluation
      timestamp) score timestamp).scores = s.scores ++ [score] := rfl
  rw [hsc, hAvg]

theorem submitAnswer_of_mismatch (rt : Runtime) (hp : Helpers) (s : Session)
    (answer questionId qid : JSValue) (timestamp : JSString) (service : Service)
    (hAnswer : truthy answer = true)
    (hId : getProp (s.questions.getD s.currentQuestionIndex .undefined) (utf16 "id") = .ok qid)
    (hDiff : strictNotEquals qid questionId = true) :
    submitAnswer rt hp (some s) answer questionId timestamp service =
      { response := .badRequest (utf16 "Question ID mismatch"), session := some s,
        calls := [] } := by
  unfold submitAnswer
  simp only [hAnswer, Bool.not_true, Bool.false_eq_true, if_false, hId, hDiff, if_true]

/-- The submit handler in the case that reading the score of the evaluation throws: the
answer record is already pushed. -/
theorem submitAnswer_unscored (rt : Runtime) (hp : Helpers) (s : Session)
    (answer questionId qid evaluation : JSValue) (e : JSError) (timestamp : JSString)
    (service : Service) (calls : List JSString)
    (hAnswer : truthy answer = true)
    (hId : getProp (s.questions.getD s.currentQuestionIndex .undefined) (utf16 "id") = .ok qid)
    (hSame : strictNotEquals qid questionId = false)
    (hEval : evaluateAnswer rt s (s.questions.getD s.currentQuestionIndex .undefined) answer
      service = (.ok evaluation, calls))
    (hScore : getProp evaluation (utf16 "score") = .error e) :
    ∃ record,
      submitAnswer rt hp (some s) answer questionId timestamp service =
        { response := .serverError [] e,
          session := some { s with answers := s.answers ++ [record] },
          calls := calls } := by
  obtain ⟨question, hQ⟩ := getProp_ok_of_ok hId (utf16 "question")
  obtain ⟨difficulty, hD⟩ := getProp_ok_of_ok hId (utf16 "difficulty")
  refine ⟨answerData questionId question difficulty answer evaluation timestamp, ?_⟩
  rw [submitAnswer_evaluated rt hp s answer questionId qid timestamp service hAnswer hId hSame,
    hEval]
  unfold recordAnswer
  simp only [hQ, hD, hScore, answerData]

/-- The submit handler in the case that no evaluation is obtained: the session is left as
it was. -/
theorem submitAnswer_unevaluated (rt : Runtime) (hp : Helpers) (s : Session)
    (answer questionId qid : JSValue) (e : JSError) (timestamp : JSString)
    (service : Service) (calls : List JSString)
    (hAnswer : truthy answer = true)
    (hId : getProp (s.questions.getD s.currentQuestionIndex .undefined) (utf16 "id") = .ok qid)
    (hSame : strictNotEquals qid questionId = false)
    (hEval : evaluateAnswer rt s (s.questions.getD s.currentQuestionIndex .undefined) answer
      service = (.error e, calls)) :
    submitAnswer rt hp (some s) answer questionId timestamp service =
      { response := .serverError [] e, session := some s, calls := calls } := by
  rw [submitAnswer_evaluated rt hp s answer questionId qid timestamp service hAnswer hId hSame,
    hEval]

/-- The submit handler when the answer is empty or the question at the index cannot be
read: the session is left as it was. -/
theorem submitAnswer_rejected (rt : Runtime) (hp : Helpers) (s : Session)
    (answer questionId : JSValue) (timestamp : JSString) (service : Service)
    (h : truthy answer = false ∨
      getProp (s.questions.getD s.currentQuestionIndex .undefined) (utf16 "id") =
        .error .typeError) :
    (submitAnswer rt hp (some s) answer questionId timestamp service).session = some s ∧
    (submitAnswer rt hp (some s) answer questionId timestamp service).calls = [] ∧
    ((submitAnswer rt hp (some s) answer questionId timestamp service).response =
        .badRequest (utf16 "Answer is required") ∨
      (submitAnswer rt hp (some s) answer questionId timestamp service).response =
        .serverError [] .typeError) := by
  unfold submitAnswer
  by_cases ha : truthy answer = true
  · rcases h with h | h
    · rw [ha] at h; exact absurd h (by simp)
    · simp only [ha, Bool.not_true, Bool.false_eq_true, if_false, h]
      exact ⟨trivial, trivial, Or.inr trivial⟩
  · have ha2 : truthy answer = false := by simpa using ha
    simp only [ha2, Bool.not_false, if_true]
    exact ⟨trivial, trivial, Or.inl trivial⟩

/-- The ways a submit can end, by what it leaves in the session: nothing recorded, an answer
record without a score, or an answer record with its score (and then the response is a
success exactly when the running average can be computed). -/
theorem submitAnswer_cases (rt : Runtime) (hp : Helpers) (s : Session)
    (answer questionId : JSValue) (timestamp : JSString) (service : Service) :
    ((submitAnswer rt hp (some s) answer questionId timestamp service).session = some s ∧
      ∀ body, (submitAnswer rt hp (some s) answer questionId timestamp service).response ≠
        .success body) ∨
    (∃ record,
      (submitAnswer rt hp (some s) answer questionId timestamp service).session =
        some { s with answers := s.answers ++ [record] } ∧
      s.currentQuestionIndex < s.questions.length ∧
      ∀ body, (submitAnswer rt hp (some s) answer questionId timestamp service).response ≠
        .success body) ∨
    (∃ record score,
      (submitAnswer rt hp (some s) answer questionId timestamp service).session =
        some (answered s record score timestamp) ∧
      s.currentQuestionIndex < s.questions.length ∧
      truthy answer = true ∧
      (∃ d e, getProp record (utf16 "difficulty") = .ok d ∧
        getProp (s.questions.getD s.currentQuestionIndex .undefined) (utf16 "difficulty") =
          .ok d ∧
        getProp record (utf16 "evaluation") = .ok e ∧ getProp e (utf16 "score") = .ok score) ∧
      ((∃ body average, averageScore hp (s.scores ++ [score]) = .ok average ∧
          (submitAnswer rt hp (some s) answer questionId timestamp service).response =
            .success body) ∨
        ∃ e, averageScore hp (s.scores ++ [score]) = .error e ∧
          (submitAnswer rt hp (some s) answer questionId timestamp service).response =
            .serverError [] e)) := by
  by_cases ha : truthy answer = true
  · cases hId : getProp (s.questions.getD s.currentQuestionIndex .undefined) (utf16 "id") with
    | error e =>
      have he := getProp_error hId
      subst he
      obtain ⟨h1, -, h3⟩ := submitAnswer_rejected rt hp s answer questionId timestamp service
        (Or.inr hId)
      refine Or.inl ⟨h1, ?_⟩
      intro body hb
      rcases h3 with h3 | h3 <;> rw [h3] at hb <;> cases hb
    | ok qid =>
      have hlt := getD_lt_of_getProp_ok hId
      by_cases hSame : strictNotEquals qid questionId = true
      · refine Or.inl ?_
        rw [submitAnswer_of_mismatch rt hp s answer questionId qid timestamp service ha hId hSame]
        exact ⟨rfl, fun body hb => by cases hb⟩
      · have hSame2 : strictNotEquals qid questionId = false := by simpa using hSame
        rcases hEval : evaluateAnswer rt s (s.questions.getD s.currentQuestionIndex .undefined)
            answer service with ⟨result, calls⟩
        cases result with
        | error e =>
          refine Or.inl ?_
          rw [submitAnswer_unevaluated rt hp s answer questionId qid e timestamp service calls
            ha hId hSame2 hEval]
          exact ⟨rfl, fun body hb => by cases hb⟩
        | ok evaluation =>
          cases hScore : getProp evaluation (utf16 "score") with
          | error e =>
            obtain ⟨record, hr⟩ := submitAnswer_unscored rt hp s answer questionId qid
              evaluation e timestamp service calls ha hId hSame2 hEval hScore
            refine Or.inr (Or.inl ⟨record, ?_, hlt, ?_⟩)
            · rw [hr]
            · rw [hr]; intro body hb; cases hb
          | ok score =>
            cases hAvg : averageScore hp (s.scores ++ [score]) with
            | ok average =>
              obtain ⟨question, difficulty, -, hD, hr⟩ := submitAnswer_scored rt hp s answer
                questionId qid evaluation score average timestamp service calls ha hId hSame2
                hEval hScore hAvg
              refine Or.inr (Or.inr ⟨answerData questionId question difficulty answer
                evaluation timestamp, score, ?_, hlt, ha,
                ⟨difficulty, evaluation, rfl, hD, rfl, hScore⟩,
                Or.inl ⟨submitBody s evaluation average, average, hAvg, ?_⟩⟩)
              · rw [hr]
              · rw [hr]
            | error e =>
              obtain ⟨question, difficulty, -, hD, hr⟩ := submitAnswer_scored_throws rt hp s
                answer questionId qid evaluation score e timestamp service calls ha hId hSame2
                hEval hScore hAvg
              refine Or.inr (Or.inr ⟨answerData questionId question difficulty answer
                evaluation timestamp, score, ?_, hlt, ha,
                ⟨difficulty, evaluation, rfl, hD, rfl, hScore⟩,
                Or.inr ⟨e, hAvg, ?_⟩⟩)
              · rw [hr]
              · rw [hr]
  · have ha2 : truthy answer = false := by simpa using ha
    obtain ⟨h1, -, h3⟩ := submitAnswer_rejected rt hp s answer questionId timestamp service
      (Or.inl ha2)
    refine Or.inl ⟨h1, ?_⟩
    intro body hb
    rcases h3 with h3 | h3 <;> rw [h3] at hb <;> cases hb

/-- The evaluation of the submit handler in the mode `nonai`: the call of
`evaluateHeuristicAnswer` throws, and no call to the service is made. -/
theorem evaluateAnswer_nonai (rt : Runtime) (s : Session) (q answer : JSValue)
    (service : Service) (h : strictNotEquals s.mode (.str (utf16 "nonai")) = false) :
    evaluateAnswer rt s q answer service =
      (.error (.referenceError (utf16 "evaluateHeuristicAnswer")), []) := by
  simp only [evaluateAnswer, h, Bool.not_false, if_true]
  rfl

/-- The evaluation of the submit handler in the service-backed mode: when the answer can be
put into the prompt, one call is made; its response gives the evaluation (the default
evaluation when no record can be extracted), and its failure leads into the `catch` block,
where the call of `evaluateHeuristicAnswer` throws. -/
theorem evaluateAnswer_service (rt : Runtime) (s : Session) (q answer : JSValue)
    (service : Service) (text : JSString)
    (h : strictNotEquals s.mode (.str (utf16 "nonai")) = true)
    (ht : toStringJS answer = .ok text) :
    evaluateAnswer rt s q answer service =
      (match service 0 with
        | .ok result =>
          match extractJSON rt result with
          | .ok v => .ok v
          | .error _ => .ok defaultEvaluation
        | .error _ => .error (.referenceError (utf16 "evaluateHeuristicAnswer")),
       [utf16 "evaluateMockInterviewAnswer"]) := by
  simp only [evaluateAnswer, h, Bool.not_true, Bool.false_eq_true, if_false,
    evaluateMockInterviewAnswer, ht, awaitCallLLM, List.length_nil, List.nil_append]
  cases service 0 with
  | error e => rfl
  | ok result =>
    dsimp only
    cases extractJSON rt result <;> rfl

/-- An evaluation is obtained only in the service-backed mode, from the one call that
`evaluateMockInterviewAnswer` makes: it is the record extracted from the response, or the
default evaluation when no record can be extracted. -/
theorem evaluateAnswer_ok (rt : Runtime) (s : Session) (q answer evaluation : JSValue)
    (service : Service) (calls : List JSString)
    (h : evaluateAnswer rt s q answer service = (.ok evaluation, calls)) :
    calls = [utf16 "evaluateMockInterviewAnswer"] ∧
    strictNotEquals s.mode (.str (utf16 "nonai")) = true ∧
    ∃ result, service 0 = .ok result ∧
      evaluation = (match extractJSON rt result with
        | .ok v => v
        | .error _ => defaultEvaluation) := by
  by_cases hm : strictNotEquals s.mode (.str (utf16 "nonai")) = true
  · cases ht : toStringJS answer with
    | error e =>
      simp only [evaluateAnswer, hm, Bool.not_true, Bool.false_eq_true, if_false,
        evaluateMockInterviewAnswer, ht, evaluateHeuristicAnswer, Prod.mk.injEq] at h
      exact absurd h.1 (by simp)
    | ok text =>
      rw [evaluateAnswer_service rt s q answer service text hm ht] at h
      cases hs : service 0 with
      | error e =>
        simp only [hs, Prod.mk.injEq] at h
        exact absurd h.1 (by simp)
      | ok result =>
        simp only [hs, Prod.mk.injEq] at h
        refine ⟨h.2.symm, hm, result, rfl, ?_⟩
        cases hx : extractJSON rt result with
        | error e =>
          simp only [hx, Except.ok.injEq] at h
          exact h.1.symm
        | ok v =>
          simp only [hx, Except.ok.injEq] at h
          exact h.1.symm
  · have hm2 : strictNotEquals s.mode (.str (utf16 "nonai")) = false := by simpa using hm
    rw [evaluateAnswer_nonai rt s q answer service hm2] at h
    simp only [Prod.mk.injEq] at h
    exact absurd h.1 (by simp)

/-! ## Claims on the submit handler -/

/-- C21 (code evaluated at the failing input, with the case in which the claim holds). When
an evaluation is obtained (which takes one call to the service: the evaluation is the record
extracted from its response, or the default evaluation) and its score can be read, a submit
with a non-empty answer and the identifier of the current question appends one answer record
(the question, its difficulty, the answer, the evaluation, the time) and that score,
advances the index and the completed count, completes the session exactly when the index
reaches the number of questions, and for integer scores reports as running average the
integer nearest to the mean of all scores (the upper one of two nearest). But the answer
record is pushed before the
score is read: in the service-backed mode the response `}null{` of the service is evaluated
to `null`, the answer record is appended, reading `evaluation.score` throws, and the session
keeps the record without a score and without an advance of the index. -/
theorem submitAnswer_answer_without_score (rt : Runtime) (hp : Helpers) (s : Session)
    (answer questionId qid evaluation score : JSValue) (timestamp : JSString)
    (service : Service) (calls : List JSString) (ns : List Int)
    (hAnswer : truthy answer = true)
    (hId : getProp (s.questions.getD s.currentQuestionIndex .undefined) (utf16 "id") = .ok qid)
    (hSame : strictNotEquals qid questionId = false)
    (hEval : evaluateAnswer rt s (s.questions.getD s.currentQuestionIndex .undefined) answer
      service = (.ok evaluation, calls))
    (hScore : getProp evaluation (utf16 "score") = .ok score)
    (hInts : integersOf (s.scores ++ [score]) = some ns) (hRange : exactRange ns = true) :
    (∃ question difficulty,
      getProp (s.questions.getD s.currentQuestionIndex .undefined) (utf16 "question") =
        .ok question ∧
      getProp (s.questions.getD s.currentQuestionIndex .undefined) (utf16 "difficulty") =
        .ok difficulty ∧
      submitAnswer rt hp (some s) answer questionId timestamp service =
        { response := .success (.obj [(utf16 "success", .bool true),
            (utf16 "evaluation", evaluation),
            (utf16 "isComplete",
              .bool (decide (s.questions.length ≤ s.currentQuestionIndex + 1))),
            (utf16 "progress", .obj [
              (utf16 "completed", .num (natToString (s.completedQuestions + 1))),
              (utf16 "total", .num (natToString s.totalQuestions)),
              (utf16 "currentScore",
                .num (intToString (roundHalfUp ns.sum ns.length)))])]),
          session := some (answered s (answerData questionId question difficulty answer
            evaluation timestamp) score timestamp),
          calls := [utf16 "evaluateMockInterviewAnswer"] }) ∧
    (∃ result, service 0 = .ok result ∧
      evaluation = (match extractJSON rt result with
        | .ok v => v
        | .error _ => defaultEvaluation)) ∧
    averageScore hp (s.scores ++ [score]) =
      .ok (.num (intToString (roundHalfUp ns.sum ns.length))) ∧
    (2 * ns.sum - ns.length < 2 * ns.length * roundHalfUp ns.sum ns.length ∧
      2 * ns.length * roundHalfUp ns.sum ns.length ≤ 2 * ns.sum + ns.length) ∧
    submitAnswer runtime21 helpers20 (some session21) (.str (utf16 "my answer"))
      (.str (utf16 "q1")) (utf16 "t1") (serviceAnswers (utf16 "\x7dnull\x7b")) =
      { response := .serverError [] .typeError,
        session := some { session21 with
          answers := [answerData (.str (utf16 "q1")) .undefined (.str (utf16 "easy"))
            (.str (utf16 "my answer")) .null (utf16 "t1")] },
        calls := [utf16 "evaluateMockInterviewAnswer"] } := by
  have hAvg := averageScore_integers hp (s.scores ++ [score]) ns (by simp) hInts hRange
  obtain ⟨question, difficulty, hQ, hD, h⟩ := submitAnswer_scored rt hp s answer questionId qid
    evaluation score _ timestamp service calls hAnswer hId hSame hEval hScore hAvg
  have hlen : ns.length = (s.scores ++ [score]).length := integersOf_length hInts
  obtain ⟨hcalls, -, hres⟩ := evaluateAnswer_ok rt s _ answer evaluation service calls hEval
  rw [hcalls] at h
  refine ⟨⟨question, difficulty, hQ, hD, h⟩, hres, hAvg,
    roundHalfUp_spec ns.sum ns.length (by rw [hlen]; simp), rfl⟩

theorem submitAnswer_answer_without_score_witness :
    (∃ question difficulty,
      getProp (session21.questions.getD session21.currentQuestionIndex .undefined)
        (utf16 "question") = .ok question ∧
      getProp (session21.questions.getD session21.currentQuestionIndex .undefined)
        (utf16 "difficulty") = .ok difficulty ∧
      submitAnswer runtime21 helpers20 (some session21) (.str (utf16 "my answer"))
          (.str (utf16 "q1")) (utf16 "t1") (serviceAnswers (utf16 "no evaluation")) =
        { response := .success (.obj [(utf16 "success", .bool true),
            (utf16 "evaluation", defaultEvaluation),
            (utf16 "isComplete",
              .bool (decide (session21.questions.length ≤ session21.currentQuestionIndex + 1))),
            (utf16 "progress", .obj [
              (utf16 "completed", .num (natToString (session21.completedQuestions + 1))),
              (utf16 "total", .num (natToString session21.totalQuestions)),
              (utf16 "currentScore",
                .num (intToString (roundHalfUp [50].sum [50].length)))])]),
          session := some (answered session21 (answerData (.str (utf16 "q1")) question
            difficulty (.str (utf16 "my answer")) defaultEvaluation (utf16 "t1"))
            (.num (utf16 "50")) (utf16 "t1")),
          calls := [utf16 "evaluateMockInterviewAnswer"] }) ∧
    (∃ result, serviceAnswers (utf16 "no evaluation") 0 = .ok result ∧
      defaultEvaluation = (match extractJSON runtime21 result with
        | .ok v => v
        | .error _ => defaultEvaluation)) ∧
    averageScore helpers20 (session21.scores ++ [.num (utf16 "50")]) =
      .ok (.num (intToString (roundHalfUp [50].sum [50].length))) ∧
    (2 * [(50 : Int)].sum - [(50 : Int)].length <
        2 * [(50 : Int)].length * roundHalfUp [50].sum [50].length ∧
      2 * [(50 : Int)].length * roundHalfUp [50].sum [50].length ≤
        2 * [(50 : Int)].sum + [(50 : Int)].length) ∧
    submitAnswer runtime21 helpers20 (some session21) (.str (utf16 "my answer"))
      (.str (utf16 "q1")) (utf16 "t1") (serviceAnswers (utf16 "\x7dnull\x7b")) =
      { response := .serverError [] .typeError,
        session := some { session21 with
          answers := [answerData (.str (utf16 "q1")) .undefined (.str (utf16 "easy"))
            (.str (utf16 "my answer")) .null (utf16 "t1")] },
        calls := [utf16 "evaluateMockInterviewAnswer"] } :=
  submitAnswer_answer_without_score runtime21 helpers20 session21 (.str (utf16 "my answer"))
    (.str (utf16 "q1")) (.str (utf16 "q1")) defaultEvaluation (.num (utf16 "50")) (utf16 "t1")
    (serviceAnswers (utf16 "no evaluation")) [utf16 "evaluateMockInterviewAnswer"] [50]
    (by decide) rfl (by decide) rfl rfl (by decide) (by decide)

/-- C23 (code evaluated at the failing inputs). On a session whose index has reached the
number of questions, a submit never answers with the no-active-session error: with an empty
answer it answers `Answer is required` (status 400), and with every other answer the read of
`currentQuestion.id` on `undefined` throws, which the handler reports as a server error
(status 500). The session is left exactly as it was and no call is made. -/
theorem submitAnswer_after_completion (rt : Runtime) (hp : Helpers) (s : Session)
    (answer questionId : JSValue) (timestamp : JSString) (service : Service)
    (hDone : s.currentQuestionIndex = s.questions.length) :
    (submitAnswer rt hp (some s) answer questionId timestamp service).session = some s ∧
    (submitAnswer rt hp (some s) answer questionId timestamp service).calls = [] ∧
    (submitAnswer rt hp (some s) answer questionId timestamp service).response =
      (if truthy answer then Response.serverError [] .typeError
        else Response.badRequest (utf16 "Answer is required")) ∧
    ∀ msg, (submitAnswer rt hp (some s) answer questionId timestamp service).response ≠
      .notFound msg := by
  have hq : getProp (s.questions.getD s.currentQuestionIndex .undefined) (utf16 "id") =
      .error .typeError := by
    rw [List.getD_eq_default _ _ (by omega)]
    rfl
  have h3 : (submitAnswer rt hp (some s) answer questionId timestamp service).response =
      (if truthy answer then Response.serverError [] .typeError
        else Response.badRequest (utf16 "Answer is required")) := by
    unfold submitAnswer
    by_cases ha : truthy answer = true
    · simp only [ha, Bool.not_true, Bool.false_eq_true, if_false, hq, if_true]
    · have ha2 : truthy answer = false := by simpa using ha
      simp only [ha2, Bool.not_false, if_true, Bool.false_eq_true, if_false]
  obtain ⟨h1, h2, -⟩ := submitAnswer_rejected rt hp s answer questionId timestamp service
    (Or.inr hq)
  refine ⟨h1, h2, h3, ?_⟩
  intro msg hm
  rw [h3] at hm
  split_ifs at hm

theorem submitAnswer_after_completion_witness :
    (submitAnswer runtime10 helpers20 (some session23) (.str (utf16 "one more"))
      (.str (utf16 "q1")) (utf16 "t2") (serviceFailed .typeError)).session = some session23 ∧
    (submitAnswer runtime10 helpers20 (some session23) (.str (utf16 "one more"))
      (.str (utf16 "q1")) (utf16 "t2") (serviceFailed .typeError)).calls = [] ∧
    (submitAnswer runtime10 helpers20 (some session23) (.str (utf16 "one more"))
      (.str (utf16 "q1")) (utf16 "t2") (serviceFailed .typeError)).response =
      (if truthy (.str (utf16 "one more")) then Response.serverError [] .typeError
        else Response.badRequest (utf16 "Answer is required")) ∧
    ∀ msg, (submitAnswer runtime10 helpers20 (some session23) (.str (utf16 "one more"))
      (.str (utf16 "q1")) (utf16 "t2") (serviceFailed .typeError)).response ≠ .notFound msg :=
  submitAnswer_after_completion runtime10 helpers20 session23 _ _ _ _ rfl

/-! ## The next-question handler -/

/-- C26. The next-question handler leaves `currentMockInterview` as it is and makes no call.
It sends the completion signal exactly when the index is at least the number of questions.
Otherwise, for a question that is a record, it sends the view of that question: the values
of its properties `id`, `type`, `difficulty`, `category`, `question`, `options` (or `null`),
`time_limit`, `hints` (or the empty list), with `questionNumber` the index plus one and the
total; no property of the view is read from `correct_answer`. -/
theorem nextQuestion_read_only (current : Option Session) :
    (nextQuestion current).session = current ∧ (nextQuestion current).calls = [] ∧
    ∀ s, current = some s →
      ((nextQuestion current).response = completionSignal ↔
        s.questions.length ≤ s.currentQuestionIndex) ∧
      (∀ fields, s.currentQuestionIndex < s.questions.length →
        s.questions.getD s.currentQuestionIndex .undefined = .obj fields →
        (nextQuestion current).response =
          .success (.obj [(utf16 "success", .bool true),
            (utf16 "question", .obj [(utf16 "id", lookup (utf16 "id") fields),
              (utf16 "type", lookup (utf16 "type") fields),
              (utf16 "difficulty", lookup (utf16 "difficulty") fields),
              (utf16 "category", lookup (utf16 "category") fields),
              (utf16 "question", lookup (utf16 "question") fields),
              (utf16 "options",
                if truthy (lookup (utf16 "options") fields) then lookup (utf16 "options") fields
                else .null),
              (utf16 "timeLimit", lookup (utf16 "time_limit") fields),
              (utf16 "hints",
                if truthy (lookup (utf16 "hints") fields) then lookup (utf16 "hints") fields
                else .arr []),
              (utf16 "questionNumber", .num (natToString (s.currentQuestionIndex + 1))),
              (utf16 "totalQuestions", .num (natToString s.totalQuestions))])])) := by
  have hk : utf16 "completed" ≠ utf16 "question" := by decide
  cases current with
  | none => exact ⟨rfl, rfl, fun s h => by cases h⟩
  | some s0 =>
    refine ⟨?_, ?_, ?_⟩
    · unfold nextQuestion
      dsimp only
      split_ifs
      · rfl
      · split <;> rfl
    · unfold nextQuestion
      dsimp only
      split_ifs
      · rfl
      · split <;> rfl
    · intro s hs
      cases hs
      constructor
      · constructor
        · intro h
          by_contra hlt
          unfold nextQuestion at h
          simp only [hlt, if_false] at h
          cases hId : getProp (s0.questions.getD s0.currentQuestionIndex .undefined)
              (utf16 "id") with
          | error e =>
            simp only [hId, bind, Except.bind] at h
            cases h
          | ok v1 =>
            obtain ⟨v2, h2⟩ := getProp_ok_of_ok hId (utf16 "type")
            obtain ⟨v3, h3⟩ := getProp_ok_of_ok hId (utf16 "difficulty")
            obtain ⟨v4, h4⟩ := getProp_ok_of_ok hId (utf16 "category")
            obtain ⟨v5, h5⟩ := getProp_ok_of_ok hId (utf16 "question")
            obtain ⟨v6, h6⟩ := getProp_ok_of_ok hId (utf16 "options")
            obtain ⟨v7, h7⟩ := getProp_ok_of_ok hId (utf16 "time_limit")
            obtain ⟨v8, h8⟩ := getProp_ok_of_ok hId (utf16 "hints")
            simp only [hId, h2, h3, h4, h5, h6, h7, h8, bind, Except.bind, pure, Except.pure,
              completionSignal, Response.success.injEq, JSValue.obj.injEq, List.cons.injEq,
              Prod.mk.injEq] at h
            exact hk h.2.1.1.symm
        · intro h
          unfold nextQuestion
          simp only [h, if_true]
          rfl
      · intro fields hlt hq
        unfold nextQuestion
        simp only [Nat.not_le.2 hlt, if_false, hq]
        rfl

theorem nextQuestion_read_only_witness :
    (nextQuestion (some session26)).session = some session26 ∧
    ((nextQuestion (some session26)).response = completionSignal ↔
      session26.questions.length ≤ session26.currentQuestionIndex) ∧
    (nextQuestion (some session26)).response =
      .success (.obj [(utf16 "success", .bool true),
        (utf16 "question", .obj [(utf16 "id", .str (utf16 "q2")),
          (utf16 "type", .str (utf16 "mcq")),
          (utf16 "difficulty", .str (utf16 "easy")),
          (utf16 "category", .undefined),
          (utf16 "question", .str (utf16 "3 + 3?")),
          (utf16 "options", strs ["5", "6"]),
          (utf16 "timeLimit", .num (utf16 "60")),
          (utf16 "hints", .arr []),
          (utf16 "questionNumber", .num (utf16 "2")),
          (utf16 "totalQuestions", .num (utf16 "2"))])]) :=
  ⟨(nextQuestion_read_only (some session26)).1,
    ((nextQuestion_read_only (some session26)).2.2 session26 rfl).1,
    ((nextQuestion_read_only (some session26)).2.2 session26 rfl).2 _ (by decide) rfl⟩

/-! ## The canonical answer of a question -/

theorem lookup_filter_ne (k k2 : JSString) (hk : k ≠ k2) (fields : List (JSString × JSValue)) :
    lookup k (fields.filter (fun f => f.1 ≠ k2)) = lookup k fields := by
  induction fields with
  | nil => rfl
  | cons f rest ih =>
    obtain ⟨key, v⟩ := f
    by_cases hkey : key = k2
    · have hne : key ≠ k := fun h => hk (h ▸ hkey)
      simp only [List.filter, hkey, ne_eq, not_true_eq_false, decide_False]
      rw [ih]
      simp only [lookup, ← hkey, if_neg hne]
    · simp only [List.filter, hkey, ne_eq, not_false_eq_true, decide_True, lookup]
      rw [ih]

theorem getProp_withoutAnswer (q : JSValue) (k : JSString)
    (hk : k ≠ utf16 "correct_answer") :
    getProp (withoutAnswer q) k = getProp q k := by
  cases q with
  | obj fields =>
    simp only [withoutAnswer, getProp]
    rw [lookup_filter_ne k _ hk]
  | _ => rfl

/-- The response of the next-question handler is a function of the questions without their
canonical answers. -/
theorem nextQuestion_withoutAnswer (s1 s2 : Session)
    (hq : s1.questions.map withoutAnswer = s2.questions.map withoutAnswer)
    (hidx : s1.currentQuestionIndex = s2.currentQuestionIndex)
    (htotal : s1.totalQuestions = s2.totalQuestions) :
    (nextQuestion (some s1)).response = (nextQuestion (some s2)).response := by
  have hlen : s1.questions.length = s2.questions.length := by
    have := congrArg List.length hq
    simpa using this
  have hcur : withoutAnswer (s1.questions.getD s1.currentQuestionIndex .undefined) =
      withoutAnswer (s2.questions.getD s2.currentQuestionIndex .undefined) := by
    have h1 : ∀ (l : List JSValue) (i : Nat),
        withoutAnswer (l.getD i .undefined) = (l.map withoutAnswer).getD i .undefined := by
      intro l i
      induction l generalizing i with
      | nil => rfl
      | cons x l ih =>
        cases i with
        | zero => rfl
        | succ j => simpa using ih j
    rw [h1, h1, hq, hidx]
  have e : ∀ k, k ≠ utf16 "correct_answer" →
      getProp (s1.questions.getD s1.currentQuestionIndex .undefined) k =
        getProp (s2.questions.getD s2.currentQuestionIndex .undefined) k := by
    intro k hk
    rw [← getProp_withoutAnswer _ k hk, hcur, getProp_withoutAnswer _ k hk]
  rw [hidx] at e
  unfold nextQuestion
  simp only [hlen, hidx, htotal, e _ (show utf16 "id" ≠ utf16 "correct_answer" by decide),
    e _ (show utf16 "type" ≠ utf16 "correct_answer" by decide),
    e _ (show utf16 "difficulty" ≠ utf16 "correct_answer" by decide),
    e _ (show utf16 "category" ≠ utf16 "correct_answer" by decide),
    e _ (show utf16 "question" ≠ utf16 "correct_answer" by decide),
    e _ (show utf16 "options" ≠ utf16 "correct_answer" by decide),
    e _ (show utf16 "time_limit" ≠ utf16 "correct_answer" by decide),
    e _ (show utf16 "hints" ≠ utf16 "correct_answer" by decide)]
  split_ifs
  · rfl
  · split <;> rfl

/-- C30 (code evaluated at the failing input, with the part of the claim that holds). The
response of the next-question handler is the same for two sessions whose question lists
differ only in the `correct_answer` properties. The response of the start handler is not:
its `currentQuestion` is the first question as it is stored. Two starts whose only
difference is the canonical answer (`4` or `5`) of the one question in the response of the
service for the tier `easy` create sessions that differ only in that property, and send
different responses, each showing the canonical answer. -/
theorem startMockInterview_shows_answer (s1 s2 : Session)
    (hq : s1.questions.map withoutAnswer = s2.questions.map withoutAnswer)
    (hidx : s1.currentQuestionIndex = s2.currentQuestionIndex)
    (htotal : s1.totalQuestions = s2.totalQuestions) :
    (nextQuestion (some s1)).response = (nextQuestion (some s2)).response ∧
    (startMockInterview runtime30 none (utf16 "x") .undefined (utf16 "1") (utf16 "t0")
      (service30 payload30)).session = some (session30 "4") ∧
    (startMockInterview runtime30 none (utf16 "x") .undefined (utf16 "1") (utf16 "t0")
      (service30 payload30b)).session = some (session30 "5") ∧
    (session30 "4").questions.map withoutAnswer = (session30 "5").questions.map withoutAnswer ∧
    (∀ a, a = "4" ∨ a = "5" →
      (startMockInterview runtime30 none (utf16 "x") .undefined (utf16 "1") (utf16 "t0")
        (service30 (if a = "4" then payload30 else payload30b))).response =
        .success (.obj [(utf16 "success", .bool true),
          (utf16 "session", .obj [(utf16 "id", .str (utf16 "1")),
            (utf16 "totalQuestions", .num (utf16 "1")),
            (utf16 "estimatedDuration", .num (utf16 "5")),
            (utf16 "jobTitle", .str (utf16 "Software Engineer")),
            (utf16 "difficultyLevels", .arr (difficulties.map JSValue.str)),
            (utf16 "currentQuestion", question30 a),
            (utf16 "mode", .str (utf16 "ai"))])])) ∧
    (startMockInterview runtime30 none (utf16 "x") .undefined (utf16 "1") (utf16 "t0")
      (service30 payload30)).response ≠
    (startMockInterview runtime30 none (utf16 "x") .undefined (utf16 "1") (utf16 "t0")
      (service30 payload30b)).response := by
  have ha := startMockInterview_service30 payload30 (question30 "4") jsonSpan_payload30
    runtime30_payloads.1
  have hb := startMockInterview_service30 payload30b (question30 "5") jsonSpan_payload30b
    runtime30_payloads.2.1
  refine ⟨nextQuestion_withoutAnswer s1 s2 hq hidx htotal, ?_, ?_, ?_, ?_, ?_⟩
  · rw [ha]; rfl
  · rw [hb]; rfl
  · rfl
  · intro a h
    rcases h with h | h
    · subst h
      rw [if_pos rfl, ha]
    · subst h
      rw [if_neg (by decide), hb]
  · rw [ha, hb]
    intro h
    have h2 := congrArg (fun r => match r with
      | Response.success body => (do
          let session ← getProp body (utf16 "session")
          let question ← getProp session (utf16 "currentQuestion")
          let shown ← getProp question (utf16 "correct_answer")
          toStringJS shown : Except JSError JSString)
      | _ => .error .typeError) h
    exact absurd h2 (by decide)

theorem startMockInterview_shows_answer_witness :
    (nextQuestion (some (session30 "4"))).response =
      (nextQuestion (some (session30 "5"))).response ∧
    (startMockInterview runtime30 none (utf16 "x") .undefined (utf16 "1") (utf16 "t0")
      (service30 payload30)).response ≠
    (startMockInterview runtime30 none (utf16 "x") .undefined (utf16 "1") (utf16 "t0")
      (service30 payload30b)).response :=
  ⟨(startMockInterview_shows_answer (session30 "4") (session30 "5") rfl rfl rfl).1,
    (startMockInterview_shows_answer (session30 "4") (session30 "5") rfl rfl
      rfl).2.2.2.2.2⟩

/-! ## The edits-applied count -/

set_option maxRecDepth 100000 in
theorem jsonSpan_payload27 : jsonSpan payload27 = .ok payload27 := by decide

theorem generateTargetedEdits_payload27 :
    generateTargetedEdits runtime27 (.ok payload27) = .ok record27 := by
  have hp : runtime27.jsonParse payload27 = some record27 := by simp [runtime27]
  simp only [generateTargetedEdits, generateTargetedEditsTry, extractJSON, jsonSpan_payload27,
    bind, Except.bind, hp, pure, Except.pure]
  rfl

theorem targetedEditsStep_payload27 :
    targetedEditsStep runtime27 (.obj []) (.ok payload27) = record27 := by
  have h1 : getProp (JSValue.obj []) (utf16 "editing_mode") = .ok .undefined := rfl
  have h2 : truthy JSValue.undefined = false := rfl
  have h3 : strictNotEquals (JSValue.str (utf16 "conservative")) (.str (utf16 "none")) = true := by
    decide
  simp only [targetedEditsStep, h1, h2, h3, bind, Except.bind, generateTargetedEdits_payload27]
  rfl

/-- The pipeline on the edit proposal `payload27`, every other call failing. -/
theorem optimizeCV_payload27 :
    optimizeCV runtime27 (utf16 "\\documentclass\\begin\x7bdocument\x7d") (utf16 "x")
      .undefined replies27 =
      .success (.obj [(utf16 "success", .bool true),
          (utf16 "results", .obj [
            (utf16 "job_parsed", fallbackJobData runtime27 (utf16 "x")),
            (utf16 "cv_parsed", fallbackCVData),
            (utf16 "gap_analysis", fallbackGapAnalysis),
            (utf16 "targeted_edits", record27),
            (utf16 "tailored_cv", .str (utf16 "\\documentclass\\begin\x7bdocument\x7d")),
            (utf16 "change_log", .obj [(utf16 "changes", .arr [
                .obj [(utf16 "original_text", .str (utf16 "zzz")),
                  (utf16 "new_text", .str (utf16 "y")), (utf16 "job_reference", .undefined),
                  (utf16 "confidence", .str (utf16 "HIGH")),
                  (utf16 "justification", .str (utf16 "Targeted edit to s section"))]]),
              (utf16 "summary", .obj [
                (utf16 "keywords_added", strs ["Python", "Machine Learning", "JavaScript"]),
                (utf16 "keywords_missing", strs ["Docker", "Kubernetes"]),
                (utf16 "questions_for_user", .arr []),
                (utf16 "relevance_improvement", .str (utf16
                  "CV was optimized using targeted edits to preserve LaTeX structure"))])]),
            (utf16 "summary", .obj [
              (utf16 "keywords_added", strs ["Python", "Machine Learning", "JavaScript"]),
              (utf16 "keywords_missing", strs ["Docker", "Kubernetes"]),
              (utf16 "questions_for_user", .arr []),
              (utf16 "relevance_improvement", .str (utf16
                "CV was optimized using targeted edits to preserve LaTeX structure")),
              (utf16 "edits_applied", .num (utf16 "1"))])])]) := by
  have hs : optimizeSteps runtime27 (utf16 "\\documentclass\\begin\x7bdocument\x7d")
      (utf16 "x") (.obj []) replies27 = .ok (.obj [(utf16 "success", .bool true),
          (utf16 "results", .obj [
            (utf16 "job_parsed", fallbackJobData runtime27 (utf16 "x")),
            (utf16 "cv_parsed", fallbackCVData),
            (utf16 "gap_analysis", fallbackGapAnalysis),
            (utf16 "targeted_edits", record27),
            (utf16 "tailored_cv", .str (utf16 "\\documentclass\\begin\x7bdocument\x7d")),
            (utf16 "change_log", .obj [(utf16 "changes", .arr [
                .obj [(utf16 "original_text", .str (utf16 "zzz")),
                  (utf16 "new_text", .str (utf16 "y")), (utf16 "job_reference", .undefined),
                  (utf16 "confidence", .str (utf16 "HIGH")),
                  (utf16 "justification", .str (utf16 "Targeted edit to s section"))]]),
              (utf16 "summary", .obj [
                (utf16 "keywords_added", strs ["Python", "Machine Learning", "JavaScript"]),
                (utf16 "keywords_missing", strs ["Docker", "Kubernetes"]),
                (utf16 "questions_for_user", .arr []),
                (utf16 "relevance_improvement", .str (utf16
                  "CV was optimized using targeted edits to preserve LaTeX structure"))])]),
            (utf16 "summary", .obj [
              (utf16 "keywords_added", strs ["Python", "Machine Learning", "JavaScript"]),
              (utf16 "keywords_missing", strs ["Docker", "Kubernetes"]),
              (utf16 "questions_for_user", .arr []),
              (utf16 "relevance_improvement", .str (utf16
                "CV was optimized using targeted edits to preserve LaTeX structure")),
              (utf16 "edits_applied", .num (utf16 "1"))])])]) := by
    unfold optimizeSteps replies27
    dsimp only
    rw [targetedEditsStep_payload27]
    rfl
  unfold optimizeCV
  have hjd : (utf16 "x").isEmpty = false := rfl
  rw [hjd]
  dsimp only
  rw [hs]
  rfl

/-- C27 (the claim as stated fails). The edit proposal holds one HIGH-confidence edit whose
original text does not occur in the template. The engine applies no edit (the tailored
document is the template), and the summary reports `edits_applied: 1`. -/
theorem optimizeCV_counts_proposed_edit :
    appliedSectionEdits upperASCII (utf16 "\\documentclass\\begin\x7bdocument\x7d") [edit27] 0 =
      0 ∧
    applyTargetedEdits upperASCII (utf16 "\\documentclass\\begin\x7bdocument\x7d") record27 =
      .ok (utf16 "\\documentclass\\begin\x7bdocument\x7d") ∧
    ∃ body results summary,
      optimizeCV runtime27 (utf16 "\\documentclass\\begin\x7bdocument\x7d") (utf16 "x")
        .undefined replies27 = .success body ∧
      getProp body (utf16 "results") = .ok results ∧
      getProp results (utf16 "targeted_edits") = .ok record27 ∧
      getProp results (utf16 "tailored_cv") =
        .ok (.str (utf16 "\\documentclass\\begin\x7bdocument\x7d")) ∧
      getProp results (utf16 "summary") = .ok summary ∧
      getProp summary (utf16 "edits_applied") = .ok (.num (utf16 "1")) :=
  ⟨by decide, by decide, _, _, _, optimizeCV_payload27, rfl, rfl, rfl, rfl, rfl⟩

theorem generateTargetedEditsTry_section_edits (rt : Runtime) (result : JSString) (v : JSValue)
    (h : generateTargetedEditsTry rt result = .ok v) :
    ∃ items, getProp v (utf16 "section_edits") = .ok (.arr items) := by
  have n1 : utf16 "skill_additions" ≠ utf16 "section_edits" := by decide
  have n2 : utf16 "project_reordering" ≠ utf16 "section_edits" := by decide
  unfold generateTargetedEditsTry at h
  cases hE : extractJSON rt result with
  | error e => simp [hE, bind, Except.bind] at h
  | ok parsed =>
    cases hV : validateLLMResponse parsed editsStructure with
    | error e => simp [hE, hV, bind, Except.bind] at h
    | ok b =>
      cases b with
      | false => simp [hE, hV, bind, Except.bind, throw, throwThe, MonadExceptOf.throw] at h
      | true =>
        cases parsed with
        | obj fields =>
          have ha : ∀ l, arrayOrEmpty (JSValue.arr l) = l := fun _ => rfl
          simp only [hE, hV, bind, Except.bind, Bool.not_true, Bool.false_eq_true, if_false,
            lookup_setProp_ne _ _ _ _ n1.symm, lookup_setProp_ne _ _ _ _ n2.symm,
            lookup_setProp_same, truthy, if_true, ha] at h
          cases hF : filterArray (keepEdit rt) (arrayOrEmpty (lookup (utf16 "section_edits")
              fields)) with
          | error e => simp [hF] at h
          | ok kept =>
            simp only [hF, pure, Except.pure, Except.ok.injEq] at h
            refine ⟨kept, ?_⟩
            rw [← h]
            simp [getProp, lookup_setProp_same]
        | undefined => simp [hE, hV, bind, Except.bind, throw, throwThe, MonadExceptOf.throw] at h
        | null => simp [hE, hV, bind, Except.bind, throw, throwThe, MonadExceptOf.throw] at h
        | bool b => simp [hE, hV, bind, Except.bind, throw, throwThe, MonadExceptOf.throw] at h
        | num t => simp [hE, hV, bind, Except.bind, throw, throwThe, MonadExceptOf.throw] at h
        | str t => simp [hE, hV, bind, Except.bind, throw, throwThe, MonadExceptOf.throw] at h
        | arr l => simp [hE, hV, bind, Except.bind, throw, throwThe, MonadExceptOf.throw] at h

theorem generateTargetedEdits_section_edits (rt : Runtime) (reply : Except JSError JSString)
    (v : JSValue) (h : generateTargetedEdits rt reply = .ok v) :
    ∃ items, getProp v (utf16 "section_edits") = .ok (.arr items) := by
  unfold generateTargetedEdits at h
  cases reply with
  | error e => simp [bind, Except.bind] at h
  | ok result =>
    simp only [bind, Except.bind] at h
    cases hT : generateTargetedEditsTry rt result with
    | error e =>
      simp only [hT, pure, Except.pure, Except.ok.injEq] at h
      exact ⟨[], by rw [← h]; rfl⟩
    | ok w =>
      simp only [hT, pure, Except.pure, Except.ok.injEq] at h
      rw [← h]
      exact generateTargetedEditsTry_section_edits rt result w hT

/-- The edit set of step 4 always holds a list of section edits. -/
theorem targetedEditsStep_section_edits (rt : Runtime) (preferences : JSValue)
    (reply : Except JSError JSString) :
    ∃ items, getProp (targetedEditsStep rt preferences reply) (utf16 "section_edits") =
      .ok (.arr items) := by
  have hempty : getProp emptyEdits (utf16 "section_edits") = .ok (.arr []) := rfl
  have key : ∀ x : Except JSError JSValue,
      (∀ v, x = .ok v → ∃ items, getProp v (utf16 "section_edits") = .ok (.arr items)) →
      ∃ items, getProp (match x with
        | .ok v => v
        | .error _ => emptyEdits) (utf16 "section_edits") = .ok (.arr items) := by
    intro x hx
    cases x with
    | error e => exact ⟨[], hempty⟩
    | ok v => exact hx v rfl
  unfold targetedEditsStep
  apply key
  intro v hv
  cases hm : getProp preferences (utf16 "editing_mode") with
  | error e => simp [hm, bind, Except.bind] at hv
  | ok mode =>
    simp only [hm, bind, Except.bind] at hv
    split_ifs at hv
    · simp only [pure, Except.pure, Except.ok.injEq] at hv
      exact ⟨[], by rw [← hv]; rfl⟩
    · exact generateTargetedEdits_section_edits rt reply v hv
    · simp only [pure, Except.pure, Except.ok.injEq] at hv
      exact ⟨[], by rw [← hv]; rfl⟩
    · exact generateTargetedEdits_section_edits rt reply v hv

theorem appliedSectionEdits_le (upper : Nat → JSString) (cv : JSString) (edits : List JSValue)
    (index : Nat) : appliedSectionEdits upper cv edits index ≤ edits.length := by
  induction edits generalizing cv index with
  | nil => simp [appliedSectionEdits]
  | cons e rest ih =>
    unfold appliedSectionEdits
    cases hc : editCondition e with
    | error err => simp
    | ok b =>
      cases b with
      | false =>
        simp only [List.length_cons]
        exact Nat.le_succ_of_le (ih cv (index + 1))
      | true =>
        simp only [List.length_cons]
        have h1 := ih (sectionEditTry upper cv e index).1 (index + 1)
        have h2 : (match sectionEditReplace upper cv e index with
            | .ok (some _) => 1
            | _ => 0) ≤ 1 := by
          split <;> simp
        omega

theorem resultRecord_ok (jobData cvData gapAnalysis targetedEdits : JSValue)
    (tailoredCV : JSString) (changeLog body : JSValue)
    (h : resultRecord jobData cvData gapAnalysis targetedEdits tailoredCV changeLog = .ok body) :
    ∃ results summary sectionEdits,
      body = .obj [(utf16 "success", .bool true), (utf16 "results", results)] ∧
      getProp results (utf16 "targeted_edits") = .ok targetedEdits ∧
      getProp results (utf16 "tailored_cv") = .ok (.str tailoredCV) ∧
      getProp results (utf16 "summary") = .ok summary ∧
      getProp targetedEdits (utf16 "section_edits") = .ok sectionEdits ∧
      getProp summary (utf16 "edits_applied") = getProp sectionEdits (utf16 "length") := by
  unfold resultRecord at h
  cases h1 : getProp changeLog (utf16 "summary") with
  | error e => simp [h1, bind, Except.bind] at h
  | ok s1 =>
    cases h2 : getProp s1 (utf16 "keywords_added") with
    | error e => simp [h1, h2, bind, Except.bind] at h
    | ok v2 =>
      obtain ⟨v3, h3⟩ := getProp_ok_of_ok h2 (utf16 "keywords_missing")
      obtain ⟨v4, h4⟩ := getProp_ok_of_ok h2 (utf16 "questions_for_user")
      obtain ⟨v5, h5⟩ := getProp_ok_of_ok h2 (utf16 "relevance_improvement")
      cases h6 : getProp targetedEdits (utf16 "section_edits") with
      | error e => simp [h1, h2, h3, h4, h5, h6, bind, Except.bind] at h
      | ok se =>
        cases h7 : getProp se (utf16 "length") with
        | error e => simp [h1, h2, h3, h4, h5, h6, h7, bind, Except.bind] at h
        | ok ea =>
          simp only [h1, h2, h3, h4, h5, h6, h7, bind, Except.bind, pure, Except.pure,
            Except.ok.injEq] at h
          refine ⟨_, _, se, h.symm, rfl, rfl, rfl, rfl, ?_⟩
          rw [h7]
          rfl

theorem optimizeSteps_edits_applied (rt : Runtime) (template jobDescription : JSString)
    (preferences body : JSValue) (r : Replies)
    (hs : optimizeSteps rt template jobDescription preferences r = .ok body) :
    ∃ results summary targetedEdits items,
      getProp body (utf16 "results") = .ok results ∧
      getProp results (utf16 "summary") = .ok summary ∧
      getProp results (utf16 "targeted_edits") = .ok targetedEdits ∧
      getProp targetedEdits (utf16 "section_edits") = .ok (.arr items) ∧
      getProp summary (utf16 "edits_applied") = .ok (.num (natToString items.length)) ∧
      appliedSectionEdits rt.toUpperCase template items 0 ≤ items.length := by
  unfold optimizeSteps at hs
  dsimp only at hs
  cases hlog : changeLogStep rt r.log (targetedEditsStep rt preferences r.edits)
      (gapAnalysisStep rt r.gap) with
  | error e => simp [hlog, bind, Except.bind] at hs
  | ok changeLog =>
    simp only [hlog, bind, Except.bind] at hs
    split_ifs at hs
    obtain ⟨results, summary, se, hb, ht, -, hsum, hse, hea⟩ := resultRecord_ok _ _ _ _ _ _ _ hs
    obtain ⟨items, hi⟩ := targetedEditsStep_section_edits rt preferences r.edits
    rw [hi] at hse
    simp only [Except.ok.injEq] at hse
    subst hse
    refine ⟨results, summary, _, items, ?_, hsum, ht, hi, ?_, appliedSectionEdits_le _ _ _ _⟩
    · rw [hb]; rfl
    · rw [hea]; simp [getProp]

/-- C27 (amended). Whenever the optimize pipeline succeeds, the `edits_applied` of its
summary is the length of the list of section edits in the edit set that step 4 returned (the
proposed edits that passed the filter), whether the engine applied them or not; the number
of edits that the engine applied to the template is at most that count. -/
theorem optimizeCV_edits_applied (rt : Runtime) (template jobDescription : JSString)
    (preferences body : JSValue) (r : Replies)
    (h : optimizeCV rt template jobDescription preferences r = .success body) :
    ∃ results summary targetedEdits items,
      getProp body (utf16 "results") = .ok results ∧
      getProp results (utf16 "summary") = .ok summary ∧
      getProp results (utf16 "targeted_edits") = .ok targetedEdits ∧
      getProp targetedEdits (utf16 "section_edits") = .ok (.arr items) ∧
      getProp summary (utf16 "edits_applied") = .ok (.num (natToString items.length)) ∧
      appliedSectionEdits rt.toUpperCase template items 0 ≤ items.length := by
  unfold optimizeCV at h
  split_ifs at h
  dsimp only at h
  split at h
  · rename_i body2 hs
    simp only [Response.success.injEq] at h
    subst h
    exact optimizeSteps_edits_applied rt template jobDescription _ _ r hs
  · cases h

theorem optimizeCV_edits_applied_witness :
    ∃ body,
      optimizeCV runtime27 (utf16 "\\documentclass\\begin\x7bdocument\x7d") (utf16 "x")
        .undefined replies27 = .success body ∧
      ∃ results summary targetedEdits items,
        getProp body (utf16 "results") = .ok results ∧
        getProp results (utf16 "summary") = .ok summary ∧
        getProp results (utf16 "targeted_edits") = .ok targetedEdits ∧
        getProp targetedEdits (utf16 "section_edits") = .ok (.arr items) ∧
        getProp summary (utf16 "edits_applied") = .ok (.num (natToString items.length)) ∧
        appliedSectionEdits runtime27.toUpperCase
          (utf16 "\\documentclass\\begin\x7bdocument\x7d") items 0 ≤ items.length :=
  ⟨_, optimizeCV_payload27,
    optimizeCV_edits_applied runtime27 _ _ _ _ _ optimizeCV_payload27⟩


/-! ## What skill emphasis changes -/

theorem lastOr_cons (prev : Option Nat) (x : Nat) (t : JSString) :
    lastOr prev (x :: t) = lastOr (some x) t := by
  cases t with
  | nil => rfl
  | cons y t =>
    simp only [lastOr, List.getLast?_cons_cons]
    cases h : (y :: t).getLast? with
    | none => simp at h
    | some z => rfl

theorem lastOr_of_ne_nil (prev : Option Nat) (l : JSString) (h : l ≠ []) :
    lastOr prev l = l.getLast? := by
  cases hl : l.getLast? with
  | none => exact absurd (List.getLast?_eq_none_iff.1 hl) h
  | some z => simp only [lastOr, hl]

theorem matchAtoms_skill_chars (upper : Nat → JSString) (s : JSString) (prev : Option Nat)
    (rest : JSString) (n : Nat)
    (h : matchAtoms upper true (s.map Atom.char ++ [Atom.wordBoundary]) prev rest = some n) :
    n = s.length ∧ n ≤ rest.length ∧ sameLetters upper (rest.take n) s := by
  induction s generalizing prev rest n with
  | nil =>
    simp only [List.map_nil, List.nil_append, matchAtoms] at h
    split_ifs at h
    simp only [Option.some.injEq] at h
    subst h
    exact ⟨rfl, Nat.zero_le _, rfl⟩
  | cons c s ih =>
    cases rest with
    | nil => simp [matchAtoms] at h
    | cons x r =>
      simp only [List.map_cons, List.cons_append, matchAtoms] at h
      split_ifs at h with hcx
      cases hm : matchAtoms upper true (s.map Atom.char ++ [Atom.wordBoundary]) (some x) r with
      | none => simp [hm] at h
      | some m =>
        simp only [List.append_eq, hm, Option.map_some', Option.some.injEq] at h
        obtain ⟨h1, h2, h3⟩ := ih (some x) r m hm
        subst h
        refine ⟨by simp [h1], by simp; omega, ?_⟩
        unfold sameLetters at h3 ⊢
        simp only [List.take_succ_cons, List.map_cons, h3, hcx]

theorem matchAtoms_skill (upper : Nat → JSString) (s : JSString) (prev : Option Nat)
    (rest : JSString) (n : Nat)
    (h : matchAtoms upper (skillRegExp s).ignoreCase (skillRegExp s).atoms prev rest = some n) :
    n = s.length ∧ n ≤ rest.length ∧ sameLetters upper (rest.take n) s := by
  simp only [skillRegExp, matchAtoms] at h
  split_ifs at h
  exact matchAtoms_skill_chars upper s prev rest n h

/-- The characters of a name followed by a word boundary match at a position exactly when
the text ahead starts with the name up to letter case and a boundary follows. -/
theorem matchAtoms_chars_iff (upper : Nat → JSString) (s : JSString) (prev : Option Nat)
    (rest : JSString) :
    matchAtoms upper true (s.map Atom.char ++ [Atom.wordBoundary]) prev rest = some s.length ↔
      s.length ≤ rest.length ∧ sameLetters upper (rest.take s.length) s ∧
        isWordCharAt (lastOr prev (rest.take s.length)) ≠
          isWordCharAt (rest.drop s.length).head? := by
  induction s generalizing prev rest with
  | nil =>
    simp only [List.map_nil, List.nil_append, matchAtoms, List.length_nil, Nat.zero_le,
      List.take_zero, List.drop_zero, true_and, sameLetters, lastOr, List.getLast?_nil]
    by_cases hb : isWordCharAt prev = isWordCharAt rest.head?
    · simp [hb]
    · simp [hb]
  | cons c s ih =>
    cases rest with
    | nil => simp [matchAtoms]
    | cons x r =>
      simp only [List.map_cons, List.cons_append, matchAtoms, List.length_cons,
        List.take_succ_cons, List.drop_succ_cons, lastOr_cons, List.append_eq]
      by_cases hcx : canonicalize upper true c = canonicalize upper true x
      · simp only [hcx, if_true]
        have e : (Option.map (fun n => n + 1)
            (matchAtoms upper true (s.map Atom.char ++ [Atom.wordBoundary]) (some x) r) =
              some (s.length + 1)) ↔
            matchAtoms upper true (s.map Atom.char ++ [Atom.wordBoundary]) (some x) r =
              some s.length := by
          cases matchAtoms upper true (s.map Atom.char ++ [Atom.wordBoundary]) (some x) r with
          | none => simp
          | some m => simp
        rw [e, ih (some x) r]
        unfold sameLetters
        simp only [List.map_cons, List.cons.injEq, hcx, true_and, Nat.add_le_add_iff_right]
      · simp only [hcx, if_false]
        unfold sameLetters
        simp only [List.map_cons, List.cons.injEq]
        constructor
        · intro h; cases h
        · rintro ⟨-, ⟨h, -⟩, -⟩
          exact absurd h.symm hcx

/-- The regular expression of a non-empty skill name matches at a position exactly at a
whole-word occurrence of the name up to letter case. -/
theorem matchAtoms_skill_iff (upper : Nat → JSString) (s : JSString) (hs : s ≠ [])
    (prev : Option Nat) (rest : JSString) :
    matchAtoms upper (skillRegExp s).ignoreCase (skillRegExp s).atoms prev rest =
        some s.length ↔ wholeWordAt upper s prev rest := by
  have hpos : 0 < s.length := List.length_pos.2 hs
  have hlast : s.length ≤ rest.length →
      lastOr prev (rest.take s.length) = (rest.take s.length).getLast? := by
    intro hle
    apply lastOr_of_ne_nil
    intro h0
    have := congrArg List.length h0
    simp only [List.length_take, List.length_nil] at this
    omega
  simp only [skillRegExp, matchAtoms, wholeWordAt]
  by_cases hb : isWordCharAt prev = isWordCharAt rest.head?
  · simp [hb]
  · have hb2 : (isWordCharAt prev != isWordCharAt rest.head?) = true := by
      simpa using hb
    simp only [hb2, if_true, matchAtoms_chars_iff, ne_eq, hb, not_false_eq_true, true_and]
    constructor
    · rintro ⟨h1, h2, h3⟩
      rw [hlast h1] at h3
      exact ⟨h1, h2, h3⟩
    · rintro ⟨h1, h2, h3⟩
      rw [← hlast h1] at h3
      exact ⟨h1, h2, h3⟩

theorem matchAtoms_skill_none (upper : Nat → JSString) (s : JSString) (hs : s ≠ [])
    (prev : Option Nat) (rest : JSString)
    (h : matchAtoms upper (skillRegExp s).ignoreCase (skillRegExp s).atoms prev rest = none) :
    ¬ wholeWordAt upper s prev rest := by
  intro hw
  rw [(matchAtoms_skill_iff upper s hs prev rest).2 hw] at h
  cases h

theorem not_wholeWordAt_nil (upper : Nat → JSString) (s : JSString) (hs : s ≠ [])
    (prev : Option Nat) : ¬ wholeWordAt upper s prev [] := by
  intro h
  have hpos : 0 < s.length := List.length_pos.2 hs
  have := h.1
  simp only [List.length_nil] at this
  omega

/-- The scan with the regular expression of a skill name and a replacement text without
`$` replaces exactly the whole-word occurrences of the name that it meets from left to
right, and copies the rest. -/
theorem replaceFrom_skill (upper : Nat → JSString) (s t : JSString) (hs : s ≠ [])
    (ht : 36 ∉ t) (pre rest : JSString) (skip : Nat) (hskip : skip ≤ rest.length) :
    ∃ parts tail, rest.drop skip = joinParts id parts tail ∧
      replaceFrom upper (skillRegExp s) t pre rest skip = joinParts (fun _ => t) parts tail ∧
      (∀ p ∈ parts, sameLetters upper p.2 s) ∧
      Scanned upper s (pre ++ rest.take skip) parts tail := by
  have hlen : 0 < s.length := List.length_pos.2 hs
  induction rest generalizing pre skip with
  | nil =>
    have h0 : skip = 0 := by simpa using hskip
    subst h0
    refine ⟨[], [], rfl, ?_, by simp, ?_⟩
    · simp only [replaceFrom]
      cases hm : matchAtoms upper (skillRegExp s).ignoreCase (skillRegExp s).atoms pre.getLast?
          [] with
      | none => rfl
      | some n =>
        obtain ⟨h1, h2, -⟩ := matchAtoms_skill upper s _ _ n hm
        simp at h2
        omega
    · intro a b hab
      have hb : b = [] := by
        have := congrArg List.length hab
        simp only [List.length_nil, List.length_append] at this
        exact List.length_eq_zero.1 (by omega)
      subst hb
      exact not_wholeWordAt_nil upper s hs _
  | cons c rest ih =>
    cases skip with
    | succ k =>
      rw [replaceFrom_cons_skip]
      obtain ⟨parts, tail, h1, h2, h3, h4⟩ := ih (pre ++ [c]) k (by simpa using hskip)
      refine ⟨parts, tail, by simpa using h1, h2, h3, ?_⟩
      have e : pre ++ (c :: rest).take (k + 1) = pre ++ [c] ++ rest.take k := by simp
      rw [e]
      exact h4
    | zero =>
      cases hm : matchAtoms upper (skillRegExp s).ignoreCase (skillRegExp s).atoms pre.getLast?
          (c :: rest) with
      | none =>
        have hno := matchAtoms_skill_none upper s hs _ _ hm
        rw [replaceFrom_cons_none upper _ t pre rest c hm]
        obtain ⟨parts, tail, h1, h2, h3, h4⟩ := ih (pre ++ [c]) 0 (Nat.zero_le _)
        simp only [List.drop_zero, List.take_zero, List.append_nil] at h1 h4 ⊢
        cases parts with
        | nil =>
          refine ⟨[], c :: tail, ?_, ?_, by simp, ?_⟩
          · simp only [joinParts] at h1 ⊢
            rw [h1]
          · simp only [joinParts] at h2 ⊢
            rw [h2]
          · simp only [joinParts] at h1
            intro a b hab
            cases a with
            | nil =>
              simp only [List.nil_append] at hab
              rw [List.append_nil, ← hab, ← h1]
              exact hno
            | cons x a =>
              simp only [List.cons_append, List.cons.injEq] at hab
              obtain ⟨hx, hab⟩ := hab
              subst hx
              have := h4 a b hab
              simpa using this
        | cons p ps =>
          obtain ⟨gap, m⟩ := p
          obtain ⟨g1, g2, g3, g4⟩ := h4
          simp only [joinParts, id] at h1
          refine ⟨(c :: gap, m) :: ps, tail, ?_, ?_, ?_, ?_, g2, ?_, ?_⟩
          · simp only [joinParts, id]
            rw [h1]
            simp
          · simp only [joinParts] at h2 ⊢
            rw [h2]
            simp
          · intro q hq
            simp only [List.mem_cons] at hq
            rcases hq with hq | hq
            · subst hq
              exact h3 (gap, m) (List.mem_cons_self _ _)
            · exact h3 q (List.mem_cons_of_mem _ hq)
          · intro a b hab hb
            cases a with
            | nil =>
              simp only [List.nil_append] at hab
              rw [List.append_nil, ← hab]
              have e : c :: gap ++ m ++ joinParts id ps tail = c :: rest := by
                rw [h1]
                simp
              rw [e]
              exact hno
            | cons x a =>
              simp only [List.cons_append, List.cons.injEq] at hab
              obtain ⟨hx, hab⟩ := hab
              subst hx
              have := g1 a b hab hb
              simpa using this
          · have e : pre ++ (c :: gap) = pre ++ [c] ++ gap := by simp
            rw [e]
            exact g3
          · have e : pre ++ (c :: gap) ++ m = pre ++ [c] ++ gap ++ m := by simp
            rw [e]
            exact g4
      | some n =>
        obtain ⟨hn, hle, hsame⟩ := matchAtoms_skill upper s _ _ n hm
        have hn0 : n ≠ 0 := by omega
        have hw : wholeWordAt upper s pre.getLast? (c :: rest) := by
          rw [hn] at hm
          exact (matchAtoms_skill_iff upper s hs _ _).1 hm
        rw [replaceFrom_cons_some upper _ t pre rest c n hm hn0,
          getSubstitution_of_no_dollar _ _ _ t ht]
        simp only [List.length_cons] at hle
        obtain ⟨parts, tail, h1, h2, h3, h4⟩ := ih (pre ++ [c]) (n - 1) (by omega)
        obtain ⟨k, rfl⟩ : ∃ k, n = k + 1 := ⟨n - 1, by omega⟩
        simp only [Nat.add_sub_cancel] at h1 h2 h4 ⊢
        have hjoin : (c :: rest).take (k + 1) ++ joinParts id parts tail = c :: rest := by
          rw [← h1]
          simp
        refine ⟨([], (c :: rest).take (k + 1)) :: parts, tail, ?_, ?_, ?_, ?_, ?_, ?_, ?_⟩
        · simp only [List.drop_zero, joinParts, List.nil_append, id]
          exact hjoin.symm
        · simp only [joinParts, List.nil_append]
          rw [h2]
        · intro q hq
          simp only [List.mem_cons] at hq
          rcases hq with hq | hq
          · subst hq
            exact hsame
          · exact h3 q hq
        · intro a b hab hb
          have ha : b = [] := by
            have := congrArg List.length hab
            simp only [List.length_nil, List.length_append] at this
            exact List.length_eq_zero.1 (by omega)
          exact absurd ha hb
        · simp only [List.length_take, List.length_cons]
          omega
        · simp only [List.take_zero, List.append_nil]
          rw [hjoin]
          exact hw
        · have e : pre ++ List.take 0 (c :: rest) ++ [] ++ (c :: rest).take (k + 1) =
              pre ++ [c] ++ rest.take k := by
            simp
          rw [e]
          exact h4

theorem eq_none_of_isSome_false {α : Type} (o : Option α) (h : o.isSome = false) :
    o = none := by
  cases o with
  | none => rfl
  | some x => simp at h

/-- When the regular expression matches nowhere ahead, it matches at no position ahead. -/
theorem matchAtoms_of_not_hasMatchFrom (upper : Nat → JSString) (re : RegExp)
    (pre rest : JSString) (h : hasMatchFrom upper re pre rest = false) (a b : JSString)
    (hab : rest = a ++ b) :
    matchAtoms upper re.ignoreCase re.atoms (pre ++ a).getLast? b = none := by
  induction rest generalizing pre a with
  | nil =>
    have ha : a = [] := by
      cases a with
      | nil => rfl
      | cons x a => simp at hab
    subst ha
    simp only [List.nil_append] at hab
    subst hab
    simp only [hasMatchFrom] at h
    simpa using eq_none_of_isSome_false _ h
  | cons c rest ih =>
    simp only [hasMatchFrom, Bool.or_eq_false_iff] at h
    cases a with
    | nil =>
      simp only [List.nil_append] at hab
      subst hab
      simpa using eq_none_of_isSome_false _ h.1
    | cons x a =>
      simp only [List.cons_append, List.cons.injEq] at hab
      obtain ⟨hx, hab⟩ := hab
      subst hx
      have := ih (pre ++ [c]) h.2 a hab
      simpa using this

/-- What the emphasis of one non-empty skill name without `$` does to a document that does
not hold the emphasized name yet. -/
theorem emphasizeSkill_parts (upper : Nat → JSString) (D s : JSString) (h : 36 ∉ s)
    (hs : s ≠ []) (hinc : includes D (emphasisText s) = false) :
    ∃ parts tail, D = joinParts id parts tail ∧
      emphasizeSkill upper D (.str s) = joinParts (fun _ => emphasisText s) parts tail ∧
      (∀ p ∈ parts, sameLetters upper p.2 s) ∧ Scanned upper s [] parts tail := by
  have ht : truthy (JSValue.str s) = true := by
    cases s with
    | nil => exact absurd rfl hs
    | cons c s => rfl
  obtain ⟨parts, tail, h1, h2, h3, h4⟩ := replaceFrom_skill upper s (emphasisText s) hs
    (emphasisText_no_dollar s h) [] D 0 (Nat.zero_le _)
  simp only [List.drop_zero, List.take_zero, List.append_nil] at h1 h4
  refine ⟨parts, tail, h1, ?_, h3, h4⟩
  simp only [emphasizeSkill, emphasizeTry_eq, ht, if_true, hinc, Bool.not_false, Bool.and_true]
  by_cases hm : hasMatch upper (skillRegExp s) D = true
  · simp only [hm, if_true]
    exact h2
  · have hm2 : hasMatchFrom upper (skillRegExp s) [] D = false := by
      simpa [hasMatch] using hm
    have hm3 : hasMatch upper (skillRegExp s) D = false := by simpa using hm
    simp only [hm3, Bool.false_eq_true, if_false]
    cases parts with
    | nil =>
      simp only [joinParts] at h1 ⊢
      exact h1
    | cons p ps =>
      exfalso
      obtain ⟨gap, m⟩ := p
      obtain ⟨-, -, g3, -⟩ := h4
      have hnone := matchAtoms_of_not_hasMatchFrom upper (skillRegExp s) [] D hm2 gap
        (m ++ joinParts id ps tail) (by rw [h1]; simp [joinParts])
      rw [(matchAtoms_skill_iff upper s hs _ _).2 g3] at hnone
      cases hnone

/-- C28 (the claim as stated fails). The document `java` and the skill name `Java`: the
whole-word match `java` does not become `\textbf{java}` but `\textbf{Java}`; its letter case
is not kept, and deleting the wrapper gives `Java`, not the document. -/
theorem applyTargetedEdits_emphasis_respells :
    hasMatch upperASCII (skillRegExp (utf16 "Java")) (utf16 "java") = true ∧
    applyTargetedEdits upperASCII (utf16 "java")
      (.obj [(utf16 "skill_additions", .arr [.obj [(utf16 "skills_to_emphasize",
        .arr [.str (utf16 "Java")])]])]) = .ok (utf16 "\\textbf\x7bJava\x7d") ∧
    utf16 "\\textbf\x7bJava\x7d" ≠ utf16 "\\textbf\x7b" ++ utf16 "java" ++ utf16 "\x7d" := by
  decide

/-- C28 (amended). Emphasis of a single skill name `s` without `$`. When `s` is empty or the
document already holds `\textbf{s}`, the document is left as it is. Otherwise the document is
`gap₁ m₁ gap₂ m₂ … tail`, where the `mᵢ` are the whole-word occurrences of `s` up to letter
case that a scan from left to right finds (each `mᵢ` is such an occurrence, none starts in a
gap or in the tail, and the scan goes on behind each `mᵢ`), and the result is
`gap₁ \textbf{s} gap₂ \textbf{s} … tail`: each of these occurrences, and nothing else, is
replaced by `\textbf{s}` with the spelling of the request. Deleting the wrappers gives back
the document up to the letter case of the occurrences. -/
theorem applyTargetedEdits_emphasis_parts (upper : Nat → JSString) (D : JSString)
    (E r : JSValue) (s : JSString)
    (hSec : ∀ xs, getProp E (utf16 "section_edits") = .ok (.arr xs) → xs = [])
    (hReq : getProp E (utf16 "skill_additions") = .ok (.arr [r]))
    (hSkill : getProp r (utf16 "skills_to_emphasize") = .ok (.arr [.str s]))
    (hDollar : 36 ∉ s) :
    ((s = [] ∨ includes D (emphasisText s) = true) → applyTargetedEdits upper D E = .ok D) ∧
    (s ≠ [] → includes D (emphasisText s) = false →
      ∃ parts tail, D = joinParts id parts tail ∧
        Scanned upper s [] parts tail ∧
        applyTargetedEdits upper D E =
          .ok (joinParts (fun _ => utf16 "\\textbf\x7b" ++ s ++ utf16 "\x7d") parts tail) ∧
        sameLetters upper (joinParts (fun _ => s) parts tail) D) := by
  have hE := applyTargetedEdits_single_skill upper D E r s hSec hReq hSkill
  constructor
  · intro h
    rw [hE]
    rcases h with h | h
    · subst h
      rfl
    · simp only [emphasizeSkill, emphasizeTry_eq, h, Bool.not_true, Bool.and_false,
        Bool.false_eq_true, if_false]
      split_ifs <;> rfl
  · intro hs hinc
    obtain ⟨parts, tail, h1, h2, h3, h4⟩ := emphasizeSkill_parts upper D s hDollar hs hinc
    refine ⟨parts, tail, h1, h4, ?_, ?_⟩
    · rw [hE, h2]
      rfl
    · rw [h1]
      clear h1 h2 h4
      induction parts with
      | nil => rfl
      | cons p ps ih =>
        obtain ⟨gap, m⟩ := p
        have hm := h3 (gap, m) (List.mem_cons_self _ _)
        have ih2 := ih (fun q hq => h3 q (List.mem_cons_of_mem _ hq))
        unfold sameLetters at hm ih2 ⊢
        simp only [joinParts, List.map_append, id, hm, ih2]

theorem applyTargetedEdits_emphasis_parts_witness :
    ∃ parts tail, utf16 "Use java and Java." = joinParts id parts tail ∧
      Scanned upperASCII (utf16 "Java") [] parts tail ∧
      applyTargetedEdits upperASCII (utf16 "Use java and Java.")
        (.obj [(utf16 "skill_additions", .arr [.obj [(utf16 "skills_to_emphasize",
          .arr [.str (utf16 "Java")])]])]) =
        .ok (joinParts (fun _ => utf16 "\\textbf\x7b" ++ utf16 "Java" ++ utf16 "\x7d")
          parts tail) ∧
      sameLetters upperASCII (joinParts (fun _ => utf16 "Java") parts tail)
        (utf16 "Use java and Java.") :=
  (applyTargetedEdits_emphasis_parts upperASCII (utf16 "Use java and Java.")
    (.obj [(utf16 "skill_additions", .arr [.obj [(utf16 "skills_to_emphasize",
      .arr [.str (utf16 "Java")])]])])
    (.obj [(utf16 "skills_to_emphasize", .arr [.str (utf16 "Java")])]) (utf16 "Java")
    (by
      intro xs h
      have hk : utf16 "skill_additions" ≠ utf16 "section_edits" := by decide
      simp [getProp, lookup, if_neg hk] at h)
    rfl rfl (by decide)).2 (by decide) (by decide)

/-! ## Recommendations -/

theorem scoresOf_pushScore (key k : JSString) (score : JSValue)
    (acc : List (JSString × List JSValue)) :
    scoresOf k (pushScore key score acc) =
      if k = key then scoresOf k acc ++ [score] else scoresOf k acc := by
  induction acc with
  | nil =>
    by_cases h : k = key
    · subst h; simp [pushScore, scoresOf]
    · simp [pushScore, scoresOf, h, Ne.symm h]
  | cons f rest ih =>
    obtain ⟨k2, l⟩ := f
    by_cases h2 : k2 = key
    · subst h2
      by_cases h : k = k2
      · subst h; simp [pushScore, scoresOf]
      · simp [pushScore, scoresOf, h, Ne.symm h]
    · by_cases h : k = key
      · subst h
        simp only [pushScore, if_neg h2, scoresOf, ih, if_true]
      · simp only [pushScore, if_neg h2, scoresOf, ih, if_neg h]

theorem keys_pushScore (key : JSString) (score : JSValue)
    (acc : List (JSString × List JSValue)) :
    (pushScore key score acc).map Prod.fst =
      if key ∈ acc.map Prod.fst then acc.map Prod.fst else acc.map Prod.fst ++ [key] := by
  induction acc with
  | nil => simp [pushScore]
  | cons f rest ih =>
    obtain ⟨k2, l⟩ := f
    by_cases h2 : k2 = key
    · subst h2; simp [pushScore]
    · simp only [pushScore, if_neg h2, List.map_cons, ih, List.mem_cons, Ne.symm h2, false_or]
      split_ifs <;> simp

theorem nodup_keys_pushScore (key : JSString) (score : JSValue)
    (acc : List (JSString × List JSValue)) (h : (acc.map Prod.fst).Nodup) :
    ((pushScore key score acc).map Prod.fst).Nodup := by
  rw [keys_pushScore]
  split_ifs with hk
  · exact h
  · rw [List.nodup_append]
    refine ⟨h, by simp, ?_⟩
    intro a ha hb
    simp only [List.mem_singleton] at hb
    subst hb
    exact hk ha

theorem nonempty_pushScore (key : JSString) (score : JSValue)
    (acc : List (JSString × List JSValue)) (h : ∀ f ∈ acc, f.2 ≠ []) :
    ∀ f ∈ pushScore key score acc, f.2 ≠ [] := by
  induction acc with
  | nil =>
    intro f hf
    simp only [pushScore, List.mem_singleton] at hf
    subst hf
    simp
  | cons g rest ih =>
    obtain ⟨k2, l⟩ := g
    intro f hf
    by_cases h2 : k2 = key
    · simp only [pushScore, if_pos h2, List.mem_cons] at hf
      rcases hf with hf | hf
      · subst hf; simp
      · exact h f (List.mem_cons_of_mem _ hf)
    · simp only [pushScore, if_neg h2, List.mem_cons] at hf
      rcases hf with hf | hf
      · subst hf
        exact h (k2, l) (List.mem_cons_self _ _)
      · exact ih (fun f hf => h f (List.mem_cons_of_mem _ hf)) f hf

theorem readable_answerKey {a : JSValue} (h : ReadableAnswer a) :
    ∃ d, getProp a (utf16 "difficulty") = .ok d ∧ toStringJS d = .ok (answerKey a) ∧
      answerKey a ∉ objectPrototypeKeys ∧ evaluationScore a = .ok (answerScore a) := by
  obtain ⟨⟨d, key, h1, h2, h3⟩, score, h4⟩ := h
  refine ⟨d, h1, ?_, ?_, ?_⟩
  · simp only [answerKey, answerDifficulty, h1, h2]
  · simp only [answerKey, answerDifficulty, h1, h2]
    exact h3
  · simp only [answerScore, h4]

/-- The record `difficultyScores` after the loop over readable answers: its keys are
distinct, they are the keys of the start and the difficulties of the answers, and each key
holds the scores of the start followed by those of the answers of that difficulty. -/
theorem groupScores_readable (answers : List JSValue)
    (acc : List (JSString × List JSValue))
    (hAns : ∀ a ∈ answers, ReadableAnswer a) (hacc : (acc.map Prod.fst).Nodup)
    (hne : ∀ f ∈ acc, f.2 ≠ []) :
    ∃ res, groupScores answers acc = .ok res ∧ (res.map Prod.fst).Nodup ∧
      (∀ f ∈ res, f.2 ≠ []) ∧
      (∀ key, key ∈ res.map Prod.fst ↔
        key ∈ acc.map Prod.fst ∨ key ∈ answers.map answerKey) ∧
      ∀ key, scoresOf key res =
        scoresOf key acc ++ (answers.filter (fun a => answerKey a = key)).map answerScore := by
  induction answers generalizing acc with
  | nil =>
    exact ⟨acc, rfl, hacc, hne, by simp, by simp⟩
  | cons a rest ih =>
    obtain ⟨d, h1, h2, h3, h4⟩ := readable_answerKey (hAns a (List.mem_cons_self _ _))
    obtain ⟨res, hr1, hr2, hr2b, hr3, hr4⟩ := ih (pushScore (answerKey a) (answerScore a) acc)
      (fun b hb => hAns b (List.mem_cons_of_mem _ hb))
      (nodup_keys_pushScore _ _ _ hacc) (nonempty_pushScore _ _ _ hne)
    have h4b := h4
    unfold evaluationScore at h4b
    refine ⟨res, ?_, hr2, hr2b, ?_, ?_⟩
    · unfold groupScores
      simp only [h1, h2, bind, Except.bind, if_neg h3]
      cases he : getProp a (utf16 "evaluation") with
      | error e => simp [he, bind, Except.bind] at h4b
      | ok ev =>
        simp only [he, bind, Except.bind] at h4b
        simp only [h4b, hr1]
    · intro key
      rw [hr3 key, keys_pushScore]
      simp only [List.map_cons, List.mem_cons]
      split_ifs with hk
      · constructor
        · rintro (h | h)
          · exact Or.inl h
          · exact Or.inr (Or.inr h)
        · rintro (h | h | h)
          · exact Or.inl h
          · subst h; exact Or.inl hk
          · exact Or.inr h
      · simp only [List.mem_append, List.mem_singleton]
        tauto
    · intro key
      rw [hr4 key, scoresOf_pushScore]
      by_cases hk : key = answerKey a
      · subst hk
        simp [List.filter_cons]
      · simp [List.filter_cons, hk, Ne.symm hk]

theorem scoresOf_of_mem (res : List (JSString × List JSValue)) (h : (res.map Prod.fst).Nodup)
    (f : JSString × List JSValue) (hf : f ∈ res) : scoresOf f.1 res = f.2 := by
  induction res with
  | nil => cases hf
  | cons g rest ih =>
    obtain ⟨k, l⟩ := g
    simp only [List.map_cons, List.nodup_cons] at h
    simp only [List.mem_cons] at hf
    rcases hf with hf | hf
    · subst hf
      simp [scoresOf]
    · have hne : k ≠ f.1 := by
        intro hk
        apply h.1
        rw [hk]
        exact List.mem_map_of_mem Prod.fst hf
      simp only [scoresOf, if_neg hne]
      exact ih h.2 hf

theorem objectKeys_perm (fields : List (JSString × List JSValue)) :
    (objectKeys fields).Perm fields := by
  unfold objectKeys
  have h1 := List.perm_insertionSort
    (fun a b : JSString × List JSValue =>
      (arrayIndexOf a.1).getD 0 ≤ (arrayIndexOf b.1).getD 0)
    (fields.filter (fun f => (arrayIndexOf f.1).isSome))
  have h2 := List.filter_append_perm (fun f : JSString × List JSValue =>
    (arrayIndexOf f.1).isSome) fields
  refine (List.Perm.append h1 (List.Perm.refl _)).trans ?_
  have h3 : fields.filter (fun f => (arrayIndexOf f.1).isNone) =
      fields.filter (fun f => !(arrayIndexOf f.1).isSome) := by
    congr 1
    funext f
    cases arrayIndexOf f.1 <;> rfl
  rw [h3]
  exact h2

theorem integersOf_map (l : List JSValue) (f : JSValue → JSValue)
    (h : ∀ a ∈ l, (integerOf (f a)).isSome = true) :
    integersOf (l.map f) = some (l.map (fun a => (integerOf (f a)).getD 0)) := by
  induction l with
  | nil => rfl
  | cons a rest ih =>
    have ha := h a (List.mem_cons_self _ _)
    obtain ⟨n, hn⟩ := Option.isSome_iff_exists.1 ha
    simp only [List.map_cons, integersOf, hn, ih (fun b hb => h b (List.mem_cons_of_mem _ hb)),
      Option.getD_some]

theorem sum_natAbs_filter_le (l : List JSValue) (p : JSValue → Bool) (g : JSValue → Int) :
    (((l.filter p).map g).map Int.natAbs).sum + ((l.filter p).map g).length ≤
      ((l.map g).map Int.natAbs).sum + (l.map g).length := by
  induction l with
  | nil => simp
  | cons a rest ih =>
    by_cases hp : p a = true
    · simp only [List.filter_cons, hp, if_true, List.map_cons, List.sum_cons, List.length_cons]
      omega
    · simp only [List.filter_cons, hp, if_false, List.map_cons, List.sum_cons,
        List.length_cons, Bool.false_eq_true]
      omega

theorem exactRange_filter (l : List JSValue) (p : JSValue → Bool) (g : JSValue → Int)
    (h : exactRange (l.map g) = true) : exactRange ((l.filter p).map g) = true := by
  unfold exactRange at h ⊢
  simp only [decide_eq_true_eq] at h ⊢
  exact lt_of_le_of_lt (sum_natAbs_filter_le l p g) h

theorem meanLessThan_integers (hp : Helpers) (scores : List JSValue) (ns : List Int) (k : Nat)
    (hInts : integersOf scores = some ns) (hRange : exactRange ns = true) (hne : ns ≠ []) :
    meanLessThan hp scores k = .ok (decide (ns.sum < (k : Int) * (ns.length : Int))) := by
  have h2 : ns.isEmpty = false := by
    cases ns with
    | nil => exact absurd rfl hne
    | cons a b => rfl
  obtain ⟨ts, hts⟩ := addends_of_integers hInts
  simp only [meanLessThan, hts, hInts, hRange, h2, Bool.not_false, Bool.and_self, if_true,
    bind, Except.bind, pure, Except.pure]

theorem meanLessThan_of_addends (hp : Helpers) (scores : List JSValue) (ts : List JSString)
    (k : Nat) (h : addends scores = .ok ts) : ∃ b, meanLessThan hp scores k = .ok b := by
  simp only [meanLessThan, h, bind, Except.bind, pure, Except.pure]
  cases integersOf scores with
  | none => exact ⟨_, rfl⟩
  | some ns =>
    dsimp only
    split_ifs <;> exact ⟨_, rfl⟩

theorem lessThan_integer (hp : Helpers) (v : JSValue) (n : Int) (k : Nat)
    (h : integerOf v = some n) : lessThan hp v k = .ok (decide (n < (k : Int))) := by
  obtain ⟨t, ht⟩ := toStringJS_of_integer h
  simp only [lessThan, ht, h, bind, Except.bind, pure, Except.pure]

theorem lessThan_of_toString (hp : Helpers) (v : JSValue) (t : JSString) (k : Nat)
    (h : toStringJS v = .ok t) : ∃ b, lessThan hp v k = .ok b := by
  simp only [lessThan, h, bind, Except.bind, pure, Except.pure]
  cases integerOf v <;> exact ⟨_, rfl⟩

theorem overallText_integer (hp : Helpers) (v : JSValue) (n : Int)
    (h : integerOf v = some n) :
    overallText hp v =
      .ok (if n < 60 then
          utf16 "Focus on fundamental concepts and practice basic problem-solving"
        else if n < 80 then
          utf16 "Continue practicing intermediate-level problems and system design"
        else utf16 "Excellent performance! Consider advanced topics and leadership scenarios") := by
  simp only [overallText, lessThan_integer hp v n _ h, bind, Except.bind, pure, Except.pure]
  by_cases h60 : n < 60
  · simp [h60]
  · by_cases h80 : n < 80
    · simp [h60, h80]
    · simp [h60, h80]

theorem overallText_of_toString (hp : Helpers) (v : JSValue) (t : JSString)
    (h : toStringJS v = .ok t) : ∃ text, overallText hp v = .ok text := by
  obtain ⟨b1, h1⟩ := lessThan_of_toString hp v t 60 h
  obtain ⟨b2, h2⟩ := lessThan_of_toString hp v t 80 h
  simp only [overallText, h1, h2, bind, Except.bind, pure, Except.pure]
  cases b1
  · cases b2 <;> exact ⟨_, rfl⟩
  · exact ⟨_, rfl⟩

/-- The loop over the keys when each comparison of a mean can be made. -/
theorem focusRecommendations_eq (hp : Helpers) (l : List (JSString × List JSValue))
    (below : JSString × List JSValue → Bool)
    (h : ∀ f ∈ l, meanLessThan hp f.2 60 = .ok (below f)) :
    focusRecommendations hp l =
      .ok (l.filterMap (fun f => if below f then some (focusText f.1) else none)) := by
  induction l with
  | nil => rfl
  | cons f rest ih =>
    simp only [focusRecommendations, h f (List.mem_cons_self _ _),
      ih (fun g hg => h g (List.mem_cons_of_mem _ hg)), bind, Except.bind, pure, Except.pure,
      List.filterMap_cons]
    cases below f <;> rfl

theorem focusRecommendations_ok (hp : Helpers) (l : List (JSString × List JSValue))
    (h : ∀ f ∈ l, ∃ b, meanLessThan hp f.2 60 = .ok b) :
    ∃ recs, focusRecommendations hp l = .ok recs := by
  induction l with
  | nil => exact ⟨[], rfl⟩
  | cons f rest ih =>
    obtain ⟨b, hb⟩ := h f (List.mem_cons_self _ _)
    obtain ⟨recs, hr⟩ := ih (fun g hg => h g (List.mem_cons_of_mem _ hg))
    exact ⟨if b then focusText f.1 :: recs else recs,
      by simp only [focusRecommendations, hb, hr, bind, Except.bind, pure, Except.pure]⟩

theorem focusText_injective {a b : JSString} (h : focusText a = focusText b) : a = b := by
  unfold focusText at h
  rw [List.append_assoc, List.append_assoc] at h
  exact List.append_cancel_right (List.append_cancel_left h)

/-- The recommendations for readable answers with integer scores, in terms of the text that
the function builds for a difficulty. -/
theorem generateInterviewRecommendations_readable (hp : Helpers) (answers : List JSValue)
    (overallScore : JSValue) (s : Int)
    (hs : integerOf overallScore = some s)
    (hAns : ∀ a ∈ answers, ReadableAnswer a ∧ (integerOf (answerScore a)).isSome = true)
    (hRange : exactRange (answers.map answerPoints) = true) :
    ∃ rest,
      generateInterviewRecommendations hp answers overallScore =
        .ok ((if s < 60 then
            utf16 "Focus on fundamental concepts and practice basic problem-solving"
          else if s < 80 then
            utf16 "Continue practicing intermediate-level problems and system design"
          else utf16 "Excellent performance! Consider advanced topics and leadership scenarios")
          :: rest) ∧
      (∀ key, focusText key ∈ rest ↔
        key ∈ answers.map answerKey ∧
          ((tierPoints answers key).sum : ℚ) / ((tierPoints answers key).length : ℚ) < 60) ∧
      rest.Nodup ∧
      ∀ x ∈ rest, ∃ key ∈ answers.map answerKey, x = focusText key := by
  obtain ⟨res, hr1, hr2, hr2b, hr3, hr4⟩ := groupScores_readable answers []
    (fun a ha => (hAns a ha).1) (by simp) (by simp)
  -- the scores of each key of the record
  have hkey : ∀ f ∈ res, f.1 ∈ answers.map answerKey ∧ tierPoints answers f.1 ≠ [] ∧
      meanLessThan hp f.2 60 = .ok
        (decide ((tierPoints answers f.1).sum < (60 : Int) * (tierPoints answers f.1).length)) := by
    intro f hf
    have h1 : f.2 = (answers.filter (fun a => answerKey a = f.1)).map answerScore := by
      rw [← scoresOf_of_mem res hr2 f hf, hr4 f.1]
      rfl
    have h2 : integersOf f.2 = some (tierPoints answers f.1) := by
      rw [h1, integersOf_map _ answerScore (fun a ha => (hAns a (List.mem_of_mem_filter ha)).2)]
      rfl
    have h3 : exactRange (tierPoints answers f.1) = true :=
      exactRange_filter answers _ answerPoints hRange
    have h4 : tierPoints answers f.1 ≠ [] := by
      intro h0
      have := integersOf_length h2
      rw [h0] at this
      exact hr2b f hf (List.length_eq_zero.1 this.symm)
    refine ⟨?_, h4, ?_⟩
    · have := (hr3 f.1).1 (List.mem_map_of_mem Prod.fst hf)
      simpa using this
    · rw [meanLessThan_integers hp f.2 _ 60 h2 h3 h4]
      rfl
  have hperm := objectKeys_perm res
  have hmem : ∀ f, f ∈ objectKeys res ↔ f ∈ res := fun f => hperm.mem_iff
  have hfocus := focusRecommendations_eq hp (objectKeys res)
    (fun f => decide ((tierPoints answers f.1).sum <
      (60 : Int) * (tierPoints answers f.1).length))
    (fun f hf => (hkey f ((hmem f).1 hf)).2.2)
  refine ⟨(objectKeys res).filterMap (fun f =>
    if decide ((tierPoints answers f.1).sum < (60 : Int) * (tierPoints answers f.1).length)
    then some (focusText f.1) else none), ?_, ?_, ?_, ?_⟩
  · unfold generateInterviewRecommendations
    simp only [hr1, hfocus, overallText_integer hp overallScore s hs, bind, Except.bind, pure,
      Except.pure]
  · intro key
    simp only [List.mem_filterMap, hmem]
    constructor
    · rintro ⟨f, hf, hF⟩
      obtain ⟨h1, h2, -⟩ := hkey f hf
      split_ifs at hF with hm
      simp only [Option.some.injEq] at hF
      have hk := focusText_injective hF
      subst hk
      refine ⟨h1, ?_⟩
      rw [decide_eq_true_eq] at hm
      have hpos : (0 : ℚ) < ((tierPoints answers f.1).length : ℚ) := by
        have := List.length_pos.2 h2
        exact_mod_cast this
      rw [div_lt_iff₀ hpos]
      exact_mod_cast hm
    · rintro ⟨h1, h2⟩
      have hk : key ∈ res.map Prod.fst := (hr3 key).2 (Or.inr h1)
      obtain ⟨f, hf, hfk⟩ := List.mem_map.1 hk
      subst hfk
      obtain ⟨-, h4, -⟩ := hkey f hf
      refine ⟨f, hf, ?_⟩
      have hpos : (0 : ℚ) < ((tierPoints answers f.1).length : ℚ) := by
        have := List.length_pos.2 h4
        exact_mod_cast this
      rw [div_lt_iff₀ hpos] at h2
      have h5 : (tierPoints answers f.1).sum < (60 : Int) * (tierPoints answers f.1).length := by
        exact_mod_cast h2
      rw [decide_eq_true h5]
      rfl
  · have hnd : (objectKeys res).Pairwise (fun a b => a.1 ≠ b.1) := by
      have h1 : ((objectKeys res).map Prod.fst).Nodup :=
        (hperm.map Prod.fst).nodup_iff.2 hr2
      exact List.pairwise_map.1 h1
    refine List.Pairwise.filterMap _ ?_ hnd
    intro a a2 hne b hb b2 hb2
    simp only [Option.mem_def] at hb hb2
    split_ifs at hb hb2
    simp only [Option.some.injEq] at hb hb2
    subst hb hb2
    intro h
    exact hne (focusText_injective h)
  · intro x hx
    simp only [List.mem_filterMap, hmem] at hx
    obtain ⟨f, hf, hF⟩ := hx
    split_ifs at hF
    simp only [Option.some.injEq] at hF
    exact ⟨f.1, (hkey f hf).1, hF.symm⟩

/-- C25 (code evaluated at the failing input, with the case in which the claim holds). For
answer records whose difficulty and score can be read, the difficulty not being the name of
a property of `Object.prototype`, with integer scores, and for an integer overall score `s`,
`generateInterviewRecommendations` returns a list. Its first element is the recommendation
of the overall score: fundamentals for `s < 60`, intermediate practice for `60 ≤ s < 80`,
advanced topics for `80 ≤ s`. The rest holds the text `Focus more on `, the difficulty and
` level questions and concepts` exactly for the difficulties present in the answers whose
average score is below 60, each of them once, and nothing else. But an answer of the
difficulty `constructor` finds the inherited property of the record `difficultyScores`, and
the call of its `push` throws a TypeError: for such a list of answers no list is returned. -/
theorem generateInterviewRecommendations_thresholds (hp : Helpers) (answers : List JSValue)
    (overallScore : JSValue) (s : Int)
    (hs : integerOf overallScore = some s)
    (hAns : ∀ a ∈ answers, ReadableAnswer a ∧ (integerOf (answerScore a)).isSome = true)
    (hRange : exactRange (answers.map answerPoints) = true) :
    (∃ rest,
      generateInterviewRecommendations hp answers overallScore =
        .ok ((if s < 60 then
            utf16 "Focus on fundamental concepts and practice basic problem-solving"
          else if s < 80 then
            utf16 "Continue practicing intermediate-level problems and system design"
          else utf16 "Excellent performance! Consider advanced topics and leadership scenarios")
          :: rest) ∧
      (∀ key, utf16 "Focus more on " ++ key ++ utf16 " level questions and concepts" ∈ rest ↔
        key ∈ answers.map answerKey ∧
          ((tierPoints answers key).sum : ℚ) / ((tierPoints answers key).length : ℚ) < 60) ∧
      rest.Nodup ∧
      ∀ x ∈ rest, ∃ key ∈ answers.map answerKey,
        x = utf16 "Focus more on " ++ key ++ utf16 " level questions and concepts") ∧
    generateInterviewRecommendations helpers20
      [.obj [(utf16 "questionId", .str (utf16 "q1")),
        (utf16 "difficulty", .str (utf16 "constructor")),
        (utf16 "evaluation", .obj [(utf16 "score", .num (utf16 "50"))])]]
      (.num (utf16 "50")) = .error .typeError :=
  ⟨generateInterviewRecommendations_readable hp answers overallScore s hs hAns hRange, rfl⟩

theorem readableAnswer_answers25 :
    ∀ a ∈ answers25, ReadableAnswer a ∧ (integerOf (answerScore a)).isSome = true := by
  intro a ha
  simp only [answers25, List.mem_cons, List.mem_singleton, List.not_mem_nil, or_false] at ha
  rcases ha with rfl | rfl
  · exact ⟨⟨⟨_, _, rfl, rfl, by decide⟩, _, rfl⟩, by decide⟩
  · exact ⟨⟨⟨_, _, rfl, rfl, by decide⟩, _, rfl⟩, by decide⟩

set_option maxRecDepth 100000 in
theorem generateInterviewRecommendations_thresholds_witness :
    (∃ rest,
      generateInterviewRecommendations helpers20 answers25 (.num (utf16 "70")) =
        .ok ((if (70 : Int) < 60 then
            utf16 "Focus on fundamental concepts and practice basic problem-solving"
          else if (70 : Int) < 80 then
            utf16 "Continue practicing intermediate-level problems and system design"
          else utf16 "Excellent performance! Consider advanced topics and leadership scenarios")
          :: rest) ∧
      (∀ key, utf16 "Focus more on " ++ key ++ utf16 " level questions and concepts" ∈ rest ↔
        key ∈ answers25.map answerKey ∧
          ((tierPoints answers25 key).sum : ℚ) / ((tierPoints answers25 key).length : ℚ) < 60) ∧
      rest.Nodup ∧
      ∀ x ∈ rest, ∃ key ∈ answers25.map answerKey,
        x = utf16 "Focus more on " ++ key ++ utf16 " level questions and concepts") ∧
    generateInterviewRecommendations helpers20 answers25 (.num (utf16 "70")) =
      .ok [utf16 "Continue practicing intermediate-level problems and system design",
        utf16 "Focus more on easy level questions and concepts"] :=
  ⟨(generateInterviewRecommendations_thresholds helpers20 answers25 (.num (utf16 "70")) 70
    (by decide) readableAnswer_answers25 (by decide)).1, by decide⟩

/-! ## The results handler -/

theorem filterArray_hasDifficulty (difficulty : JSString) (answers : List JSValue)
    (h : ∀ a ∈ answers, ReadableAnswer a) :
    filterArray (hasDifficulty difficulty) answers =
      .ok (answers.filter (fun a => !strictNotEquals (answerDifficulty a) (.str difficulty))) := by
  induction answers with
  | nil => rfl
  | cons a rest ih =>
    obtain ⟨d, h1, -⟩ := readable_answerKey (h a (List.mem_cons_self _ _))
    have h2 : answerDifficulty a = d := by simp only [answerDifficulty, h1]
    simp only [filterArray, hasDifficulty, h1, ih (fun b hb => h b (List.mem_cons_of_mem _ hb)),
      bind, Except.bind, pure, Except.pure, List.filter_cons, h2]

theorem mapArray_evaluationScore (answers : List JSValue)
    (h : ∀ a ∈ answers, ReadableAnswer a) :
    mapArray evaluationScore answers = .ok (answers.map answerScore) := by
  induction answers with
  | nil => rfl
  | cons a rest ih =>
    obtain ⟨d, -, -, -, h4⟩ := readable_answerKey (h a (List.mem_cons_self _ _))
    simp only [mapArray, h4, ih (fun b hb => h b (List.mem_cons_of_mem _ hb)), bind,
      Except.bind, pure, Except.pure, List.map_cons]

theorem tierStats_readable (hp : Helpers) (answers : List JSValue) (difficulty : JSString)
    (hAns : ∀ a ∈ answers, ReadableAnswer a ∧ (integerOf (answerScore a)).isSome = true)
    (hRange : exactRange (answers.map answerPoints) = true) :
    tierStats hp answers difficulty = .ok (tierEntry answers difficulty) := by
  unfold tierStats tierEntry
  rw [filterArray_hasDifficulty difficulty answers (fun a ha => (hAns a ha).1)]
  simp only [bind, Except.bind]
  have hsub : ∀ a ∈ answers.filter
      (fun a => !strictNotEquals (answerDifficulty a) (.str difficulty)), a ∈ answers :=
    fun a ha => List.mem_of_mem_filter ha
  have hr := exactRange_filter answers
    (fun a => !strictNotEquals (answerDifficulty a) (.str difficulty)) answerPoints hRange
  have hm := mapArray_evaluationScore (answers.filter
      (fun a => !strictNotEquals (answerDifficulty a) (.str difficulty)))
    (fun a ha => (hAns a (hsub a ha)).1)
  have hi := integersOf_map (answers.filter
      (fun a => !strictNotEquals (answerDifficulty a) (.str difficulty))) answerScore
    (fun a ha => (hAns a (hsub a ha)).2)
  revert hr hm hi
  generalize answers.filter
    (fun a => !strictNotEquals (answerDifficulty a) (.str difficulty)) = as
  intro hr hm hi
  cases as with
  | nil => rfl
  | cons a rest =>
    have hav := averageScore_integers hp ((a :: rest).map answerScore) _ (by simp) hi hr
    simp only [List.length_cons, Nat.zero_lt_succ, if_true, hm, pure, Except.pure, hav,
      List.length_map]
    rfl

theorem difficultyStats_readable (hp : Helpers) (answers : List JSValue) (ds : List JSString)
    (hAns : ∀ a ∈ answers, ReadableAnswer a ∧ (integerOf (answerScore a)).isSome = true)
    (hRange : exactRange (answers.map answerPoints) = true) :
    difficultyStats hp answers ds = .ok (ds.filterMap (tierEntry answers)) := by
  induction ds with
  | nil => rfl
  | cons d rest ih =>
    simp only [difficultyStats, tierStats_readable hp answers d hAns hRange, ih, bind,
      Except.bind, pure, Except.pure, List.filterMap_cons]
    cases tierEntry answers d <;> rfl

/-- The recommendations are computed whenever the answer records can be read and the overall
score and the scores of the answers can be converted to primitives. -/
theorem generateInterviewRecommendations_ok (hp : Helpers) (answers : List JSValue)
    (overallScore : JSValue) (t : JSString) (ht : toStringJS overallScore = .ok t)
    (hAns : ∀ a ∈ answers, ReadableAnswer a)
    (hConv : ∀ a ∈ answers, ∃ text, toStringJS (answerScore a) = .ok text) :
    ∃ recs, generateInterviewRecommendations hp answers overallScore = .ok recs := by
  obtain ⟨res, hr1, hr2, -, -, hr4⟩ := groupScores_readable answers [] hAns (by simp) (by simp)
  obtain ⟨first, hfirst⟩ := overallText_of_toString hp overallScore t ht
  have hmem : ∀ f, f ∈ objectKeys res ↔ f ∈ res := fun f => (objectKeys_perm res).mem_iff
  obtain ⟨more, hmore⟩ := focusRecommendations_ok hp (objectKeys res) (by
    intro f hf
    have hf2 := (hmem f).1 hf
    have h1 : f.2 = (answers.filter (fun a => answerKey a = f.1)).map answerScore := by
      rw [← scoresOf_of_mem res hr2 f hf2, hr4 f.1]
      rfl
    obtain ⟨ts, hts⟩ := (addends_ok_iff f.2).2 (by
      intro v hv
      rw [h1] at hv
      obtain ⟨a, ha, rfl⟩ := List.mem_map.1 hv
      exact hConv a (List.mem_of_mem_filter ha))
    exact meanLessThan_of_addends hp f.2 ts 60 hts)
  exact ⟨first :: more, by
    simp only [generateInterviewRecommendations, hfirst, hr1, hmore, bind, Except.bind, pure,
      Except.pure]⟩

/-- C24 (code evaluated at the failing input, with the case in which the claim holds). The
results handler answers `Mock interview not completed yet` exactly when the status of the
session is not `completed`, and never changes the session. On a completed session whose job
title can be read, whose scores are integers and whose answer records can be read (integer
scores, difficulties that are not names of `Object.prototype`), it succeeds and sends the
record of the session identifier, the job title, the start and end times, the two counts,
as `overallScore` the integer `r` nearest to the mean of all scores, the upper one of two
nearest (`mean - 1/2 < r ≤ mean + 1/2`), as `difficultyStats`, for each of `easy`, `medium`,
`hard`, `extreme` in this order that has an answer, the number of its answers, the mean of
their scores rounded the same way and the scores (a difficulty without answers having no
entry), the answers, and the recommendations computed from the answers and the overall
score. But on a completed session with the one integer score 50 whose answer has the
difficulty `constructor`, the computation of the recommendations throws and the handler
answers with the status 500. -/
theorem mockInterviewResults_scores (hp : Helpers) (s : Session) :
    ((mockInterviewResults hp (some s)).response =
        .badRequest (utf16 "Mock interview not completed yet") ↔
      s.status ≠ utf16 "completed") ∧
    (mockInterviewResults hp (some s)).session = some s ∧
    (∀ (ns : List Int) (jobTitle : JSValue),
      s.status = utf16 "completed" →
      getProp s.jobData (utf16 "role_title") = .ok jobTitle →
      s.scores ≠ [] → integersOf s.scores = some ns → exactRange ns = true →
      (∀ a ∈ s.answers, ReadableAnswer a ∧ (integerOf (answerScore a)).isSome = true) →
      exactRange (s.answers.map answerPoints) = true →
      (∃ recommendations,
        generateInterviewRecommendations hp s.answers
          (.num (intToString (roundHalfUp ns.sum ns.length))) = .ok recommendations ∧
        (mockInterviewResults hp (some s)).response =
          .success (.obj [(utf16 "success", .bool true),
            (utf16 "results", .obj [(utf16 "sessionId", .str s.id),
              (utf16 "jobTitle", jobTitle),
              (utf16 "startTime", .str s.startTime),
              (utf16 "endTime", match s.endTime with
                | some t => .str t
                | none => .undefined),
              (utf16 "totalQuestions", .num (natToString s.totalQuestions)),
              (utf16 "completedQuestions", .num (natToString s.completedQuestions)),
              (utf16 "overallScore", .num (intToString (roundHalfUp ns.sum ns.length))),
              (utf16 "difficultyStats", .obj (difficulties.filterMap (tierEntry s.answers))),
              (utf16 "answers", .arr s.answers),
              (utf16 "recommendations", .arr (recommendations.map JSValue.str))])])) ∧
      2 * ns.sum - ns.length < 2 * ns.length * roundHalfUp ns.sum ns.length ∧
      2 * ns.length * roundHalfUp ns.sum ns.length ≤ 2 * ns.sum + ns.length) ∧
    (session24.status = utf16 "completed" ∧
      integersOf session24.scores = some [50] ∧
      session24.answers.map answerScore = [.num (utf16 "50")] ∧
      (mockInterviewResults helpers20 (some session24)).response =
        .serverError [] .typeError) := by
  refine ⟨?_, ?_, ?_, ⟨rfl, by decide, rfl, rfl⟩⟩
  · unfold mockInterviewResults
    by_cases hst : s.status = utf16 "completed"
    · simp only [hst, ne_eq, not_true_eq_false, if_false, iff_false]
      split <;> simp
    · simp only [ne_eq, hst, not_false_eq_true, if_true]
  · unfold mockInterviewResults
    dsimp only
    split_ifs
    · rfl
    · split <;> rfl
  · intro ns jobTitle hst hjob hne hInts hRange hAns hRange2
    have hlen : ns.length = s.scores.length := integersOf_length hInts
    have hpos : 0 < ns.length := by
      rw [hlen]
      exact List.length_pos.2 hne
    obtain ⟨recs, hrecs⟩ := generateInterviewRecommendations_ok hp s.answers
      (.num (intToString (roundHalfUp ns.sum ns.length))) _ rfl (fun a ha => (hAns a ha).1)
      (fun a ha => by
        obtain ⟨n, hn⟩ := Option.isSome_iff_exists.1 (hAns a ha).2
        exact toStringJS_of_integer hn)
    refine ⟨⟨recs, hrecs, ?_⟩, roundHalfUp_spec ns.sum ns.length hpos⟩
    unfold mockInterviewResults
    simp only [hst, ne_eq, not_true_eq_false, if_false,
      difficultyStats_readable hp s.answers difficulties hAns hRange2, hjob, hrecs, bind,
      Except.bind, pure, Except.pure, averageScore_integers hp s.scores ns hne hInts hRange]

theorem mockInterviewResults_scores_witness :
    (∃ recommendations,
      generateInterviewRecommendations helpers20 session23.answers
        (.num (intToString (roundHalfUp [50].sum [50].length))) = .ok recommendations ∧
      (mockInterviewResults helpers20 (some session23)).response =
        .success (.obj [(utf16 "success", .bool true),
          (utf16 "results", .obj [(utf16 "sessionId", .str session23.id),
            (utf16 "jobTitle", .str (utf16 "Engineer")),
            (utf16 "startTime", .str session23.startTime),
            (utf16 "endTime", match session23.endTime with
              | some t => .str t
              | none => .undefined),
            (utf16 "totalQuestions", .num (natToString session23.totalQuestions)),
            (utf16 "completedQuestions", .num (natToString session23.completedQuestions)),
            (utf16 "overallScore", .num (intToString (roundHalfUp [50].sum [50].length))),
            (utf16 "difficultyStats",
              .obj (difficulties.filterMap (tierEntry session23.answers))),
            (utf16 "answers", .arr session23.answers),
            (utf16 "recommendations", .arr (recommendations.map JSValue.str))])])) ∧
    2 * [(50 : Int)].sum - [(50 : Int)].length <
      2 * [(50 : Int)].length * roundHalfUp [50].sum [50].length ∧
    2 * [(50 : Int)].length * roundHalfUp [50].sum [50].length ≤
      2 * [(50 : Int)].sum + [(50 : Int)].length :=
  (mockInterviewResults_scores helpers20 session23).2.2.1 [50] (.str (utf16 "Engineer")) rfl rfl
    (List.cons_ne_nil _ _) (by decide) (by decide)
    (by
      intro a ha
      simp only [session23, List.mem_singleton] at ha
      subst ha
      exact ⟨⟨⟨_, _, rfl, rfl, by decide⟩, _, rfl⟩, by decide⟩)
    (by decide)

/-! ## The invariant of the session -/

theorem nextQuestion_session (current : Option Session) :
    (nextQuestion current).session = current := by
  cases current with
  | none => rfl
  | some s =>
    unfold nextQuestion
    dsimp only
    split_ifs
    · rfl
    · split <;> rfl

theorem mockInterviewResults_session (hp : Helpers) (current : Option Session) :
    (mockInterviewResults hp current).session = current := by
  cases current with
  | none => rfl
  | some s =>
    unfold mockInterviewResults
    dsimp only
    split_ifs
    · rfl
    · split <;> rfl

/-- A start leaves the previous session or creates a session at its first question. -/
theorem startMockInterview_session (rt : Runtime) (previous : Option Session)
    (jobDescription : JSString) (modeArg : JSValue) (id startTime : JSString)
    (service : Service) :
    (startMockInterview rt previous jobDescription modeArg id startTime service).session =
        previous ∨
    ∃ s, (startMockInterview rt previous jobDescription modeArg id startTime service).session =
        some s ∧
      s.currentQuestionIndex = 0 ∧ s.answers = [] ∧ s.scores = [] ∧
      s.status = utf16 "active" ∧ s.completedQuestions = 0 ∧
      s.totalQuestions = s.questions.length ∧ s.endTime = none ∧
      ((∃ body, (startMockInterview rt previous jobDescription modeArg id startTime
          service).response = .success body) →
        ∃ t, getProp s.jobData (utf16 "role_title") = .ok t) := by
  unfold startMockInterview
  split_ifs
  · exact Or.inl rfl
  · unfold startSession
    dsimp only
    split
    · exact Or.inl rfl
    · split
      · refine Or.inr ⟨_, rfl, rfl, rfl, rfl, rfl, rfl, rfl, rfl, ?_⟩
        rintro ⟨body, hb⟩
        cases hb
      · rename_i jobTitle hj
        exact Or.inr ⟨_, rfl, rfl, rfl, rfl, rfl, rfl, rfl, rfl, fun _ => ⟨jobTitle, hj⟩⟩

theorem sessionInvariant_of_fresh (s : Session) (h1 : s.currentQuestionIndex = 0)
    (h2 : s.answers = []) (h3 : s.scores = []) (h4 : s.status = utf16 "active")
    (h5 : s.completedQuestions = 0) (h6 : s.totalQuestions = s.questions.length) :
    SessionInvariant s := by
  refine ⟨by simp [h3, h1], by simp [h5, h1], by omega, by omega, h6, Or.inr ⟨h4, ?_⟩⟩
  rw [h1]
  cases hq : s.questions with
  | nil => exact Or.inr rfl
  | cons q qs => exact Or.inl (by simp)

theorem sessionInvariant_answered (s : Session) (record score : JSValue) (timestamp : JSString)
    (h : SessionInvariant s) (hlt : s.currentQuestionIndex < s.questions.length) :
    SessionInvariant (answered s record score timestamp) := by
  obtain ⟨h1, h2, h3, h4, h5, h6⟩ := h
  have hact : s.status = utf16 "active" := by
    rcases h6 with ⟨-, h, -⟩ | ⟨h, -⟩
    · omega
    · exact h
  refine ⟨by simp [answered, h1], by simp [answered, h2], by simp [answered]; omega,
    by simp [answered]; omega, by simpa [answered] using h5, ?_⟩
  by_cases hc : s.questions.length ≤ s.currentQuestionIndex + 1
  · refine Or.inl ⟨by simp [answered, hc], ?_, ?_⟩
    · simp only [answered]; omega
    · simp only [answered]; omega
  · refine Or.inr ⟨by simp [answered, hc, hact], Or.inl ?_⟩
    simp only [answered]; omega

theorem sessionInvariant_more_answers (s : Session) (record : JSValue)
    (h : SessionInvariant s) :
    SessionInvariant { s with answers := s.answers ++ [record] } := by
  obtain ⟨h1, h2, h3, h4, h5, h6⟩ := h
  exact ⟨h1, h2, h3, by simp; omega, h5, h6⟩

/-- Every handler keeps the invariant. -/
theorem sessionInvariant_handle (rt : Runtime) (hp : Helpers) (current : Option Session)
    (req : Request) (h : ∀ s, current = some s → SessionInvariant s) :
    ∀ s, (handle rt hp current req).session = some s → SessionInvariant s := by
  intro s hs
  cases req with
  | start jobDescription modeArg id startTime service =>
    simp only [handle] at hs
    rcases startMockInterview_session rt current jobDescription modeArg id startTime service
      with h0 | ⟨s1, h0, h1, h2, h3, h4, h5, h6, -, -⟩
    · rw [h0] at hs
      exact h s hs
    · rw [h0] at hs
      cases hs
      exact sessionInvariant_of_fresh s h1 h2 h3 h4 h5 h6
  | next =>
    simp only [handle, nextQuestion_session] at hs
    exact h s hs
  | results =>
    simp only [handle, mockInterviewResults_session] at hs
    exact h s hs
  | submit answer questionId timestamp service =>
    simp only [handle] at hs
    cases current with
    | none => cases hs
    | some s0 =>
      have h0 := h s0 rfl
      rcases submitAnswer_cases rt hp s0 answer questionId timestamp service with
        ⟨h1, -⟩ | ⟨record, h1, -, -⟩ | ⟨record, score, h1, hlt, -⟩
      · rw [h1] at hs; cases hs; exact h0
      · rw [h1] at hs; cases hs; exact sessionInvariant_more_answers s0 record h0
      · rw [h1] at hs; cases hs; exact sessionInvariant_answered s0 record score timestamp h0 hlt

theorem sessionInvariant_serve (rt : Runtime) (hp : Helpers) (current : Option Session)
    (requests : List Request) (h : ∀ s, current = some s → SessionInvariant s) :
    ∀ s, serve rt hp current requests = some s → SessionInvariant s := by
  induction requests generalizing current with
  | nil =>
    intro s hs
    exact h s hs
  | cons req rest ih =>
    intro s hs
    simp only [serve] at hs
    exact ih _ (sessionInvariant_handle rt hp current req h) s hs

/-- A completed session is left as it is by every request that is not a start. -/
theorem handle_completed (rt : Runtime) (hp : Helpers) (s : Session) (req : Request)
    (h : SessionInvariant s) (hst : s.status = utf16 "completed") (hreq : isStart req = false) :
    (handle rt hp (some s) req).session = some s := by
  have hidx : s.currentQuestionIndex = s.questions.length := by
    obtain ⟨-, -, -, -, -, h6⟩ := h
    rcases h6 with ⟨-, h, -⟩ | ⟨h, -⟩
    · exact h
    · rw [hst] at h
      exact absurd h (by decide)
  cases req with
  | start jobDescription modeArg id startTime service => simp [isStart] at hreq
  | next => simp only [handle, nextQuestion_session]
  | results => simp only [handle, mockInterviewResults_session]
  | submit answer questionId timestamp service =>
    simp only [handle]
    have hq : getProp (s.questions.getD s.currentQuestionIndex .undefined) (utf16 "id") =
        .error .typeError := by
      rw [List.getD_eq_default _ _ (by omega)]
      rfl
    exact (submitAnswer_rejected rt hp s answer questionId timestamp service (Or.inr hq)).1

/-- A start that creates the session `session30 "4"`, followed by a submit whose evaluation
is `null`. -/
theorem serve_start_null :
    serve runtime30 helpers20 none
      [.start (utf16 "x") .undefined (utf16 "1") (utf16 "t0") (service30 payload30),
        .submit (.str (utf16 "my answer")) (.str (utf16 "q1")) (utf16 "t1")
          (serviceAnswers (utf16 "\x7dnull\x7b"))] =
      some { session30 "4" with
        answers := [answerData (.str (utf16 "q1")) (.str (utf16 "2 + 2?"))
          (.str (utf16 "easy")) (.str (utf16 "my answer")) .null (utf16 "t1")] } := by
  have ha := startMockInterview_service30 payload30 (question30 "4") jsonSpan_payload30
    runtime30_payloads.1
  simp only [serve, handle, ha]
  rfl

/-- C29 (code evaluated at the failing input, with the part of the claim that holds). In
every state that a sequence of start, next-question, submit-answer and results requests
reaches from the initial state, the number of scores, the completed count and the index
are equal and at most the number of questions, and the status is `completed` exactly when
the index has reached the number of questions after an answer; a completed session is left
as it is by every request but a start. The number of answer records is only bounded from
below by the index: after a start and one submit whose evaluation is `null`, the session
holds one answer record and no score. -/
theorem serve_answers_exceed_scores (rt : Runtime) (hp : Helpers) (requests : List Request)
    (s : Session) (h : serve rt hp none requests = some s) :
    SessionInvariant s ∧
    (s.status = utf16 "completed" → ∀ req, isStart req = false →
      (handle rt hp (some s) req).session = some s) ∧
    ∃ s2, serve runtime30 helpers20 none
        [.start (utf16 "x") .undefined (utf16 "1") (utf16 "t0") (service30 payload30),
          .submit (.str (utf16 "my answer")) (.str (utf16 "q1")) (utf16 "t1")
            (serviceAnswers (utf16 "\x7dnull\x7b"))] = some s2 ∧
      s2.answers.length = 1 ∧ s2.scores.length = 0 ∧ s2.currentQuestionIndex = 0 ∧
      s2.completedQuestions = 0 := by
  have hinv := sessionInvariant_serve rt hp none requests (fun s0 h0 => by cases h0) s h
  exact ⟨hinv, fun hst req hreq => handle_completed rt hp s req hinv hst hreq,
    _, serve_start_null, rfl, rfl, rfl, rfl⟩

theorem serve_answers_exceed_scores_witness :
    SessionInvariant { session30 "4" with
      answers := [answerData (.str (utf16 "q1")) (.str (utf16 "2 + 2?"))
        (.str (utf16 "easy")) (.str (utf16 "my answer")) .null (utf16 "t1")] } ∧
    ∃ s2, serve runtime30 helpers20 none
        [.start (utf16 "x") .undefined (utf16 "1") (utf16 "t0") (service30 payload30),
          .submit (.str (utf16 "my answer")) (.str (utf16 "q1")) (utf16 "t1")
            (serviceAnswers (utf16 "\x7dnull\x7b"))] = some s2 ∧
      s2.answers.length = 1 ∧ s2.scores.length = 0 ∧ s2.currentQuestionIndex = 0 ∧
      s2.completedQuestions = 0 :=
  ⟨(serve_answers_exceed_scores runtime30 helpers20 _ _ serve_start_null).1,
    (serve_answers_exceed_scores runtime30 helpers20 _ _ serve_start_null).2.2⟩

/-! ## Runs of submit-answer calls -/

theorem isSuccess_iff (r : Response) : isSuccess r = true ↔ ∃ body, r = .success body := by
  cases r <;> simp [isSuccess]

/-- A successful submit on a clean session gives a clean session one question further. -/
theorem submitAnswer_clean (rt : Runtime) (hp : Helpers) (s : Session)
    (answer questionId : JSValue) (timestamp : JSString) (service : Service)
    (hClean : CleanSession s) (hPlain : PlainDifficulties s.questions)
    (hOk : isSuccess (submitAnswer rt hp (some s) answer questionId timestamp service).response =
      true) :
    ∃ s2, (submitAnswer rt hp (some s) answer questionId timestamp service).session = some s2 ∧
      CleanSession s2 ∧ s2.currentQuestionIndex = s.currentQuestionIndex + 1 ∧
      s2.questions = s.questions ∧ s2.jobData = s.jobData ∧ truthy answer = true := by
  obtain ⟨body, hb⟩ := (isSuccess_iff _).1 hOk
  rcases submitAnswer_cases rt hp s answer questionId timestamp service with
    ⟨-, h2⟩ | ⟨record, -, -, h2⟩ | ⟨record, score, h1, hlt, ha, ⟨d, e, hd, hqd, he, hsc⟩, hres⟩
  · exact absurd hb (h2 body)
  · exact absurd hb (h2 body)
  · obtain ⟨hinv, hlen, hread, hconv⟩ := hClean
    have hscore : ∃ t, toStringJS score = .ok t := by
      rcases hres with ⟨-, average, hAvg, -⟩ | ⟨err, -, hresp⟩
      · obtain ⟨ts, hts⟩ := addends_of_averageScore hp (s.scores ++ [score]) average
          (by simp) hAvg
        exact (addends_ok_iff _).1 ⟨ts, hts⟩ score (by simp)
      · rw [hresp] at hb
        cases hb
    refine ⟨_, h1, ⟨sessionInvariant_answered s record score timestamp hinv hlt, ?_, ?_, ?_⟩,
      rfl, rfl, rfl, ha⟩
    · simp [answered, hlen]
    · intro a hmem
      simp only [answered, List.mem_append, List.mem_singleton] at hmem
      rcases hmem with hmem | hmem
      · exact hread a hmem
      · subst hmem
        have hq : s.questions.getD s.currentQuestionIndex .undefined ∈ s.questions := by
          rw [List.getD_eq_getElem _ _ hlt]
          exact List.getElem_mem _
        obtain ⟨key, hk1, hk2⟩ := hPlain _ hq d hqd
        have hes : evaluationScore a = .ok score := by
          simp only [evaluationScore, he, bind, Except.bind, hsc]
        refine ⟨⟨⟨d, key, hd, hk1, hk2⟩, score, hes⟩, ?_⟩
        simp only [answerScore, hes]
        exact hscore
    · intro v hmem
      simp only [answered, List.mem_append, List.mem_singleton] at hmem
      rcases hmem with hmem | hmem
      · exact hconv v hmem
      · subst hmem
        exact hscore

theorem serve_submits (rt : Runtime) (hp : Helpers) (requests : List Request) (s : Session)
    (hClean : CleanSession s) (hPlain : PlainDifficulties s.questions)
    (hOk : submitsSucceed rt hp (some s) requests = true) :
    ∃ s2, serve rt hp (some s) requests = some s2 ∧ CleanSession s2 ∧
      s2.currentQuestionIndex = s.currentQuestionIndex + requests.length ∧
      s2.questions = s.questions ∧ s2.jobData = s.jobData := by
  induction requests generalizing s with
  | nil => exact ⟨s, rfl, hClean, rfl, rfl, rfl⟩
  | cons req rest ih =>
    cases req with
    | submit answer questionId timestamp service =>
      simp only [submitsSucceed, Bool.and_eq_true] at hOk
      obtain ⟨s1, h1, h2, h3, h4, h5, -⟩ := submitAnswer_clean rt hp s answer questionId
        timestamp service hClean hPlain hOk.1
      have hOk2 := hOk.2
      rw [h1] at hOk2
      obtain ⟨s2, g1, g2, g3, g4, g5⟩ := ih s1 h2 (by rw [h4]; exact hPlain) hOk2
      refine ⟨s2, ?_, g2, ?_, by rw [g4, h4], by rw [g5, h5]⟩
      · simp only [serve, handle, h1, g1]
      · rw [g3, h3, List.length_cons]
        omega
    | start a b c d e => simp [submitsSucceed] at hOk
    | next => simp [submitsSucceed] at hOk
    | results => simp [submitsSucceed] at hOk

theorem difficultyStats_ok (hp : Helpers) (answers : List JSValue) (ds : List JSString)
    (hAns : ∀ a ∈ answers, ReadableAnswer a ∧ ∃ t, toStringJS (answerScore a) = .ok t) :
    ∃ stats, difficultyStats hp answers ds = .ok stats := by
  induction ds with
  | nil => exact ⟨[], rfl⟩
  | cons d rest ih =>
    obtain ⟨more, hm⟩ := ih
    have hsub : ∀ a ∈ answers.filter
        (fun a => !strictNotEquals (answerDifficulty a) (.str d)), ReadableAnswer a :=
      fun a ha => (hAns a (List.mem_of_mem_filter ha)).1
    have ht : ∃ entry, tierStats hp answers d = .ok entry := by
      unfold tierStats
      rw [filterArray_hasDifficulty d answers (fun a ha => (hAns a ha).1)]
      simp only [bind, Except.bind, mapArray_evaluationScore _ hsub]
      split_ifs
      · obtain ⟨ts, hts⟩ := (addends_ok_iff ((answers.filter
            (fun a => !strictNotEquals (answerDifficulty a) (.str d))).map answerScore)).2 (by
          intro v hv
          obtain ⟨a, ha, rfl⟩ := List.mem_map.1 hv
          exact (hAns a (List.mem_of_mem_filter ha)).2)
        obtain ⟨t, ht⟩ := averageScore_of_addends hp _ ts hts
        simp only [ht]
        exact ⟨_, rfl⟩
      · exact ⟨_, rfl⟩
    obtain ⟨entry, he⟩ := ht
    exact ⟨_, by simp only [difficultyStats, he, hm, bind, Except.bind]; rfl⟩

/-- The results handler on a clean session whose job title can be read. -/
theorem mockInterviewResults_clean (hp : Helpers) (s : Session) (hClean : CleanSession s)
    (hJob : ∃ t, getProp s.jobData (utf16 "role_title") = .ok t) :
    (s.status = utf16 "completed" →
      ∃ body, (mockInterviewResults hp (some s)).response = .success body) ∧
    (s.status = utf16 "active" →
      (mockInterviewResults hp (some s)).response =
        .badRequest (utf16 "Mock interview not completed yet")) := by
  obtain ⟨t, ht⟩ := hJob
  constructor
  · intro hst
    obtain ⟨-, -, hread, hconv⟩ := hClean
    obtain ⟨ts, hts⟩ := (addends_ok_iff s.scores).2 hconv
    obtain ⟨text, hav⟩ := averageScore_of_addends hp s.scores ts hts
    obtain ⟨stats, hs⟩ := difficultyStats_ok hp s.answers difficulties hread
    obtain ⟨recs, hr⟩ := generateInterviewRecommendations_ok hp s.answers (.num text) text rfl
      (fun a ha => (hread a ha).1) (fun a ha => (hread a ha).2)
    unfold mockInterviewResults
    simp only [hst, ne_eq, not_true_eq_false, if_false, hav, hs, ht, hr, bind, Except.bind,
      pure, Except.pure]
    exact ⟨_, rfl⟩
  · intro hst
    have hne : s.status ≠ utf16 "completed" := by
      rw [hst]
      decide
    unfold mockInterviewResults
    simp only [hne, ne_eq, not_false_eq_true, if_true]

/-- C22 (the claim as stated fails). A start creates a session on the one question `q1`.
One submit-answer call that carries the identifier `q1` of the current question and an empty
answer is answered `Answer is required`; after this one call the session is not completed,
and the results handler answers `Mock interview not completed yet`. -/
theorem serve_empty_answer_not_counted :
    ∃ s0 s,
      (startMockInterview runtime30 none (utf16 "x") .undefined (utf16 "1") (utf16 "t0")
        (service30 payload30)).session = some s0 ∧
      s0.questions.length = 1 ∧
      getProp (s0.questions.getD s0.currentQuestionIndex .undefined) (utf16 "id") =
        .ok (.str (utf16 "q1")) ∧
      (submitAnswer runtime30 helpers20 (some s0) (.str []) (.str (utf16 "q1")) (utf16 "t1")
        (serviceAnswers (utf16 "no evaluation"))).response =
          .badRequest (utf16 "Answer is required") ∧
      serve runtime30 helpers20 (some s0)
        [.submit (.str []) (.str (utf16 "q1")) (utf16 "t1")
          (serviceAnswers (utf16 "no evaluation"))] = some s ∧
      s.status = utf16 "active" ∧
      (mockInterviewResults helpers20 (some s)).response =
        .badRequest (utf16 "Mock interview not completed yet") := by
  have ha := startMockInterview_service30 payload30 (question30 "4") jsonSpan_payload30
    runtime30_payloads.1
  refine ⟨session30 "4", session30 "4", ?_, rfl, rfl, rfl, rfl, rfl, rfl⟩
  rw [ha]
  rfl

/-- A successful start creates a session at its first question whose job title can be
read. -/
theorem startMockInterview_success (rt : Runtime) (previous : Option Session)
    (jobDescription : JSString) (modeArg : JSValue) (id startTime : JSString)
    (service : Service)
    (h : isSuccess (startMockInterview rt previous jobDescription modeArg id startTime
      service).response = true) :
    ∃ s, (startMockInterview rt previous jobDescription modeArg id startTime service).session =
        some s ∧
      s.currentQuestionIndex = 0 ∧ s.answers = [] ∧ s.scores = [] ∧
      s.status = utf16 "active" ∧ s.completedQuestions = 0 ∧
      s.totalQuestions = s.questions.length ∧
      ∃ t, getProp s.jobData (utf16 "role_title") = .ok t := by
  have hjd : jobDescription ≠ [] := by
    intro h0
    subst h0
    simp [startMockInterview, isSuccess] at h
  rw [startMockInterview_eq rt previous jobDescription modeArg id startTime service hjd] at h ⊢
  unfold startSession at h ⊢
  dsimp only at h ⊢
  generalize (if (!strictNotEquals (defaultMode modeArg) (JSValue.str (utf16 "nonai"))) = true
    then (heuristicQuestions (jobDataStep rt jobDescription (service 0))
      (cvDataInterviewStep rt (service 1)),
      [utf16 "parseJobDescription", utf16 "parseCVContent"])
    else allQuestionsFrom rt (jobDataStep rt jobDescription (service 0))
      (cvDataInterviewStep rt (service 1)) service difficulties
      [utf16 "parseJobDescription", utf16 "parseCVContent"]) = g at h ⊢
  obtain ⟨result, calls⟩ := g
  cases result with
  | error e => simp [isSuccess] at h
  | ok allQuestions =>
    dsimp only at h ⊢
    cases hj : getProp (jobDataStep rt jobDescription (service 0)) (utf16 "role_title") with
    | error e =>
      rw [hj] at h
      simp [isSuccess] at h
    | ok jobTitle =>
      exact ⟨_, rfl, rfl, rfl, rfl, rfl, rfl, rfl, jobTitle, hj⟩

/-- C22 (amended). For every session that a successful start creates with at least one
question, the difficulties of its questions not being names of properties of
`Object.prototype`: after a run of submit-answer calls each of which succeeds (a non-empty
answer, the identifier of the then-current question, an evaluation whose score can be read
and added to the scores), the index is the number of calls, which is at most the number of
questions; when the number of calls is the number of questions the status is `completed` and
the results handler succeeds; when it is smaller the status is `active` and the results
handler answers `Mock interview not completed yet`. -/
theorem serve_successful_submits (rt : Runtime) (hp : Helpers) (previous : Option Session)
    (jobDescription : JSString) (modeArg : JSValue) (id startTime : JSString)
    (service : Service) (requests : List Request) (s0 : Session)
    (hStart : isSuccess (startMockInterview rt previous jobDescription modeArg id startTime
      service).response = true)
    (hSession : (startMockInterview rt previous jobDescription modeArg id startTime
      service).session = some s0)
    (hQuestions : 0 < s0.questions.length)
    (hPlain : PlainDifficulties s0.questions)
    (hOk : submitsSucceed rt hp (some s0) requests = true) :
    ∃ s, serve rt hp (some s0) requests = some s ∧
      s.currentQuestionIndex = requests.length ∧
      requests.length ≤ s0.questions.length ∧
      (requests.length = s0.questions.length →
        s.status = utf16 "completed" ∧
        ∃ body, (mockInterviewResults hp (some s)).response = .success body) ∧
      (requests.length < s0.questions.length →
        s.status = utf16 "active" ∧
        (mockInterviewResults hp (some s)).response =
          .badRequest (utf16 "Mock interview not completed yet")) := by
  have hfresh : s0.currentQuestionIndex = 0 ∧ s0.answers = [] ∧ s0.scores = [] ∧
      s0.status = utf16 "active" ∧ s0.completedQuestions = 0 ∧
      s0.totalQuestions = s0.questions.length ∧
      ∃ t, getProp s0.jobData (utf16 "role_title") = .ok t := by
    obtain ⟨s1, g0, g⟩ := startMockInterview_success rt previous jobDescription modeArg id
      startTime service hStart
    rw [hSession] at g0
    cases g0
    exact g
  obtain ⟨f1, f2, f3, f4, f5, f6, hJob⟩ := hfresh
  have hClean : CleanSession s0 :=
    ⟨sessionInvariant_of_fresh s0 f1 f2 f3 f4 f5 f6, by simp [f2, f1], by simp [f2],
      by simp [f3]⟩
  obtain ⟨s, h1, h2, h3, h4, h5⟩ := serve_submits rt hp requests s0 hClean hPlain hOk
  have hidx : s.currentQuestionIndex = requests.length := by rw [h3, f1, Nat.zero_add]
  have hres := mockInterviewResults_clean hp s h2 (by rw [h5]; exact hJob)
  obtain ⟨hinv, -, -⟩ := h2
  obtain ⟨-, -, i3, -, -, i6⟩ := hinv
  rw [h4, hidx] at i3 i6
  refine ⟨s, h1, hidx, i3, ?_, ?_⟩
  · intro hn
    have hst : s.status = utf16 "completed" := by
      rcases i6 with ⟨h, -, -⟩ | ⟨-, h | h⟩
      · exact h
      · omega
      · rw [h] at hQuestions
        simp at hQuestions
    exact ⟨hst, hres.1 hst⟩
  · intro hn
    have hst : s.status = utf16 "active" := by
      rcases i6 with ⟨-, h, -⟩ | ⟨h, -⟩
      · omega
      · exact h
    exact ⟨hst, hres.2 hst⟩

set_option maxRecDepth 100000 in
theorem serve_successful_submits_witness :
    ∃ s, serve runtime30 helpers20 (some (session30 "4"))
        [.submit (.str (utf16 "my answer")) (.str (utf16 "q1")) (utf16 "t1")
          (serviceAnswers (utf16 "no evaluation"))] = some s ∧
      s.currentQuestionIndex =
        [Request.submit (.str (utf16 "my answer")) (.str (utf16 "q1")) (utf16 "t1")
          (serviceAnswers (utf16 "no evaluation"))].length ∧
      [Request.submit (.str (utf16 "my answer")) (.str (utf16 "q1")) (utf16 "t1")
          (serviceAnswers (utf16 "no evaluation"))].length ≤
        (session30 "4").questions.length ∧
      ([Request.submit (.str (utf16 "my answer")) (.str (utf16 "q1")) (utf16 "t1")
          (serviceAnswers (utf16 "no evaluation"))].length = (session30 "4").questions.length →
        s.status = utf16 "completed" ∧
        ∃ body, (mockInterviewResults helpers20 (some s)).response = .success body) ∧
      ([Request.submit (.str (utf16 "my answer")) (.str (utf16 "q1")) (utf16 "t1")
          (serviceAnswers (utf16 "no evaluation"))].length < (session30 "4").questions.length →
        s.status = utf16 "active" ∧
        (mockInterviewResults helpers20 (some s)).response =
          .badRequest (utf16 "Mock interview not completed yet")) :=
  serve_successful_submits runtime30 helpers20 none (utf16 "x") .undefined (utf16 "1")
    (utf16 "t0") (service30 payload30) _ (session30 "4")
    (by
      rw [startMockInterview_service30 payload30 (question30 "4") jsonSpan_payload30
        runtime30_payloads.1]
      rfl)
    (by
      rw [startMockInterview_service30 payload30 (question30 "4") jsonSpan_payload30
        runtime30_payloads.1]
      rfl)
    (by decide)
    (by
      intro q hq d hd
      simp only [session30, List.mem_singleton] at hq
      subst hq
      have h0 : getProp (question30 "4") (utf16 "difficulty") = .ok (.str (utf16 "easy")) := rfl
      rw [h0] at hd
      cases hd
      exact ⟨utf16 "easy", rfl, by decide⟩)
    (by decide)

/-! ## The undefined helpers and scores that cannot be added -/

/-- A submit in the mode `nonai` with a non-empty answer and the identifier of the current
question is answered with the status 500, and nothing is recorded. -/
theorem submitAnswer_nonai (rt : Runtime) (hp : Helpers) (s : Session)
    (answer questionId qid : JSValue) (timestamp : JSString) (service : Service)
    (hAnswer : truthy answer = true)
    (hId : getProp (s.questions.getD s.currentQuestionIndex .undefined) (utf16 "id") = .ok qid)
    (hSame : strictNotEquals qid questionId = false)
    (hMode : strictNotEquals s.mode (.str (utf16 "nonai")) = false) :
    submitAnswer rt hp (some s) answer questionId timestamp service =
      { response := .serverError [] (.referenceError (utf16 "evaluateHeuristicAnswer")),
        session := some s, calls := [] } :=
  submitAnswer_unevaluated rt hp s answer questionId qid _ timestamp service []
    hAnswer hId hSame (evaluateAnswer_nonai rt s _ answer service hMode)

set_option maxRecDepth 100000 in
theorem jsonSpan_payload22 : jsonSpan payload22 = .ok payload22 := by decide

/-- An evaluation whose score is the record `{toString: 1}`: the answer record and the
score are pushed and the session is completed, then the addition of the running average
throws and the submit is answered with the status 500; the results handler, whose first
statement adds the scores, is answered with the status 500 as well. -/
theorem submitAnswer_score_not_addable :
    submitAnswer runtime22 helpers20 (some session21) (.str (utf16 "my answer"))
      (.str (utf16 "q1")) (utf16 "t1") (serviceAnswers payload22) =
      { response := .serverError [] .typeError,
        session := some (answered session21
          (answerData (.str (utf16 "q1")) .undefined (.str (utf16 "easy"))
            (.str (utf16 "my answer"))
            (.obj [(utf16 "score", .obj [(utf16 "toString", .num (utf16 "1"))])])
            (utf16 "t1"))
          (.obj [(utf16 "toString", .num (utf16 "1"))]) (utf16 "t1")),
        calls := [utf16 "evaluateMockInterviewAnswer"] } ∧
    (answered session21
      (answerData (.str (utf16 "q1")) .undefined (.str (utf16 "easy"))
        (.str (utf16 "my answer"))
        (.obj [(utf16 "score", .obj [(utf16 "toString", .num (utf16 "1"))])])
        (utf16 "t1"))
      (.obj [(utf16 "toString", .num (utf16 "1"))]) (utf16 "t1")).status =
        utf16 "completed" ∧
    (mockInterviewResults helpers20 (some (answered session21
      (answerData (.str (utf16 "q1")) .undefined (.str (utf16 "easy"))
        (.str (utf16 "my answer"))
        (.obj [(utf16 "score", .obj [(utf16 "toString", .num (utf16 "1"))])])
        (utf16 "t1"))
      (.obj [(utf16 "toString", .num (utf16 "1"))]) (utf16 "t1")))).response =
      .serverError [] .typeError := by
  have hp : runtime22.jsonParse payload22 =
      some (.obj [(utf16 "score", .obj [(utf16 "toString", .num (utf16 "1"))])]) := by
    simp [runtime22]
  have hEval : evaluateAnswer runtime22 session21
      (session21.questions.getD session21.currentQuestionIndex .undefined)
      (.str (utf16 "my answer")) (serviceAnswers payload22) =
      (.ok (.obj [(utf16 "score", .obj [(utf16 "toString", .num (utf16 "1"))])]),
        [utf16 "evaluateMockInterviewAnswer"]) := by
    rw [evaluateAnswer_service runtime22 session21 _ (.str (utf16 "my answer"))
      (serviceAnswers payload22) (utf16 "my answer") (by decide) rfl]
    simp only [serviceAnswers, extractJSON, jsonSpan_payload22, hp, bind, Except.bind, pure,
      Except.pure]
  obtain ⟨question, difficulty, hQ, hD, h⟩ := submitAnswer_scored_throws runtime22 helpers20
    session21 (.str (utf16 "my answer")) (.str (utf16 "q1")) (.str (utf16 "q1")) _
    (.obj [(utf16 "toString", .num (utf16 "1"))]) .typeError (utf16 "t1")
    (serviceAnswers payload22) _ (by decide) rfl (by decide) hEval rfl rfl
  have hQ2 : question = .undefined := by
    have : getProp (session21.questions.getD session21.currentQuestionIndex .undefined)
        (utf16 "question") = .ok .undefined := rfl
    rw [this] at hQ
    cases hQ
    rfl
  have hD2 : difficulty = .str (utf16 "easy") := by
    have : getProp (session21.questions.getD session21.currentQuestionIndex .undefined)
        (utf16 "difficulty") = .ok (.str (utf16 "easy")) := rfl
    rw [this] at hD
    cases hD
    rfl
  subst hQ2 hD2
  exact ⟨h, rfl, rfl⟩

end Apply4me
